import Mathlib

/-!
Verification development for kmeans-go.

A shallow embedding of `kmeans.go` (package `main`) and theorems about it.

* Go `int` values are embedded as `Int`; `/` and `%` are Go's truncated division
  and remainder (`Int.tdiv`, `Int.tmod`).
* `uint64` values are embedded as `Nat` reduced modulo `2 ^ 64`.
* Slices are embedded as lists; an out-of-range index (a run-time panic) is `none`.
* `float64` values are embedded generically: the program is written once over a
  carrier `F` with the arithmetic it uses, and instantiated with a model `F64` of
  IEEE-754 binary64 or with exact arithmetic.
-/

set_option autoImplicit false

namespace Kmeans

/-! ## Definitions -/

/-- Embedding of `getIndexes` (kmeans.go, lines 288-304): the start (inclusive) and
stop (exclusive) index of worker `workerNumber`. -/
def getIndexes (numTasks numWorkers workerNumber : Int) : Int × Int :=
  let subsetMinSize := Int.tdiv numTasks numWorkers
  let numMaxSubsets := Int.tmod numTasks numWorkers
  let startIndex := workerNumber * subsetMinSize
  let stopIndex := startIndex + subsetMinSize
  if workerNumber ≥ numMaxSubsets then
    (startIndex + numMaxSubsets, stopIndex + numMaxSubsets)
  else
    (startIndex + workerNumber, stopIndex + (workerNumber + 1))

/-! ### A model of `float64`

Go's `float64` is IEEE-754 binary64 with round-to-nearest, ties-to-even.  The model
keeps a value as sign, integer significand and binary exponent, and obtains every
operation by rounding the exact result.  Each operation is rounded separately; a
compiler that fuses `x*y + z` may round the sum in `squareOfEuclideanDistance`
differently, which changes none of the evaluations below (they use the distances
only where they are exact, overflow, or are far from the value they are compared
with). -/

/-- Number of binary digits of a natural number, by repeated halving. -/
def bitLengthAux : Nat → Nat → Nat
  | 0, _ => 0
  | fuel + 1, n => if n = 0 then 0 else bitLengthAux fuel (n / 2) + 1

/-- Number of binary digits of `n` (`0` for `0`). -/
def bitLength (n : Nat) : Nat := bitLengthAux n n

/-- A model of Go's `float64` (IEEE-754 binary64).  `fin neg m e` is the finite value
`(-1)^neg * m * 2^e`, kept in the canonical form `m < 2^53`, `-1074 ≤ e ≤ 971` and
(`2^52 ≤ m` or `e = -1074`); `inf neg` is the infinity of that sign; `nan` is
not-a-number. -/
inductive F64 where
  | fin (neg : Bool) (m : Nat) (e : Int)
  | inf (neg : Bool)
  | nan
  deriving DecidableEq, Repr

namespace F64

/-- Round-to-nearest, ties-to-even, of the exact value `(-1)^neg * (num / den) * 2^ex`
(`den > 0`) to binary64, overflowing to an infinity. -/
def round (neg : Bool) (num den : Nat) (ex : Int) : F64 :=
  if num = 0 then fin neg 0 (-1074)
  else
    let bn : Int := bitLength num
    let bd : Int := bitLength den
    -- floor of the binary logarithm of the magnitude
    let lg : Int := (if den * 2 ^ bitLength num ≤ num * 2 ^ bitLength den then bn - bd else bn - bd - 1) + ex
    -- exponent of the unit in the last place
    let s : Int := max (lg - 52) (-1074)
    let k : Int := ex - s
    let n' : Nat := if 0 ≤ k then num * 2 ^ k.toNat else num
    let d' : Nat := if 0 ≤ k then den else den * 2 ^ (-k).toNat
    let q : Nat := n' / d'
    let rem : Nat := n' % d'
    let r : Nat :=
      if 2 * rem < d' then q
      else if d' < 2 * rem then q + 1
      else if q % 2 = 0 then q else q + 1
    let r' : Nat := if r = 2 ^ 53 then 2 ^ 52 else r
    let s' : Int := if r = 2 ^ 53 then s + 1 else s
    if 971 < s' then inf neg else fin neg r' s'

/-- Sign flip. -/
def neg : F64 → F64
  | fin n m e => fin (!n) m e
  | inf n => inf (!n)
  | nan => nan

/-- The finite value `(-1)^n * m * 2^e` scaled by `2^(-lo)`, as an integer (`lo ≤ e`). -/
def scaled (n : Bool) (m : Nat) (e lo : Int) : Int :=
  let a : Int := (m * 2 ^ (e - lo).toNat : Nat)
  if n then -a else a

/-- Addition: the exact sum, rounded. -/
def add : F64 → F64 → F64
  | nan, _ => nan
  | _, nan => nan
  | inf a, inf b => if a = b then inf a else nan
  | inf a, fin _ _ _ => inf a
  | fin _ _ _, inf b => inf b
  | fin n1 m1 e1, fin n2 m2 e2 =>
    let lo := min e1 e2
    let sum : Int := scaled n1 m1 e1 lo + scaled n2 m2 e2 lo
    if sum = 0 then fin (n1 && n2) 0 (-1074)
    else round (decide (sum < 0)) sum.natAbs 1 lo

/-- Subtraction: `a + (-b)`. -/
def sub (a b : F64) : F64 := add a (neg b)

/-- Multiplication: the exact product, rounded. -/
def mul : F64 → F64 → F64
  | nan, _ => nan
  | _, nan => nan
  | inf a, inf b => inf (xor a b)
  | inf a, fin n m _ => if m = 0 then nan else inf (xor a n)
  | fin n m _, inf b => if m = 0 then nan else inf (xor n b)
  | fin n1 m1 e1, fin n2 m2 e2 => round (xor n1 n2) (m1 * m2) 1 (e1 + e2)

/-- Division: the exact quotient, rounded; `x / 0` is an infinity and `0 / 0` is `nan`. -/
def div : F64 → F64 → F64
  | nan, _ => nan
  | _, nan => nan
  | inf _, inf _ => nan
  | inf a, fin n _ _ => inf (xor a n)
  | fin n _ _, inf b => fin (xor n b) 0 (-1074)
  | fin n1 m1 e1, fin n2 m2 e2 =>
    if m2 = 0 then (if m1 = 0 then nan else inf (xor n1 n2))
    else round (xor n1 n2) m1 m2 (e1 - e2)

/-- Strict comparison `a < b`; false whenever an operand is `nan`. -/
def lt : F64 → F64 → Bool
  | nan, _ => false
  | _, nan => false
  | inf a, inf b => a && !b
  | inf a, fin _ _ _ => a
  | fin _ _ _, inf b => !b
  | fin n1 m1 e1, fin n2 m2 e2 =>
    decide (scaled n1 m1 e1 (min e1 e2) < scaled n2 m2 e2 (min e1 e2))

/-- Comparison `a ≤ b`; false whenever an operand is `nan`. -/
def le : F64 → F64 → Bool
  | nan, _ => false
  | _, nan => false
  | inf a, inf b => a || !b
  | inf a, fin _ _ _ => a
  | fin _ _ _, inf b => !b
  | fin n1 m1 e1, fin n2 m2 e2 =>
    decide (scaled n1 m1 e1 (min e1 e2) ≤ scaled n2 m2 e2 (min e1 e2))

/-- Conversion of a non-negative integer (Go's `float64(n)`). -/
def ofNat (n : Nat) : F64 := round false n 1 0

/-- The binary64 nearest to the rational `num / den`. -/
def ofRatio (num den : Nat) : F64 := round false num den 0

instance : Zero F64 := ⟨fin false 0 (-1074)⟩
instance : Add F64 := ⟨add⟩
instance : Sub F64 := ⟨sub⟩
instance : Mul F64 := ⟨mul⟩
instance : Div F64 := ⟨div⟩
instance : NatCast F64 := ⟨ofNat⟩
instance : LT F64 := ⟨fun a b => lt a b = true⟩
instance : DecidableRel (α := F64) (· < ·) := fun a b => inferInstanceAs (Decidable (lt a b = true))
instance : LE F64 := ⟨fun a b => le a b = true⟩
instance : DecidableRel (α := F64) (· ≤ ·) := fun a b => inferInstanceAs (Decidable (le a b = true))

/-- The constant `math.MaxFloat64`, `(2^53 - 1) * 2^971`. -/
def maxFloat64 : F64 := fin false (2 ^ 53 - 1) 971

end F64

/-! ### The program, generically in the arithmetic

The functions below are embedded once, for an arbitrary carrier `F` of `float64`
values with the operations the program uses (`0`, `+`, `-`, `*`, `/`, `<`, the
conversion `float64(n)` and the constant `math.MaxFloat64`, passed as `maxFloat64`).
Instantiating `F` with `F64` gives the program on IEEE-754 doubles; instantiating it
with an ordered field gives the program over exact arithmetic. -/

section Program

variable {F : Type}

/-- The loop of `squareOfEuclideanDistance` (kmeans.go, lines 314-317): `vecOne` is
ranged over while `vecTwo` is indexed at the same position; running out of `vecTwo`
is an index-out-of-range panic (`none`). -/
def squareOfEuclideanDistanceLoop [Add F] [Sub F] [Mul F] : F → List F → List F → Option F
  | distSquare, [], _ => some distSquare
  | _, _ :: _, [] => none
  | distSquare, dimOne :: vecOne, x :: vecTwo =>
    squareOfEuclideanDistanceLoop (distSquare + (x - dimOne) * (x - dimOne)) vecOne vecTwo

/-- Embedding of `squareOfEuclideanDistance` (kmeans.go, lines 312-319). -/
def squareOfEuclideanDistance [Zero F] [Add F] [Sub F] [Mul F] (vecOne vecTwo : List F) :
    Option F :=
  squareOfEuclideanDistanceLoop 0 vecOne vecTwo

/-- Embedding of `vectorsConverged` (kmeans.go, lines 327-334). -/
def vectorsConverged [Zero F] [Add F] [Sub F] [Mul F] [LT F] [DecidableRel (α := F) (· < ·)] :
    List (List F) → List (List F) → F → Option Bool
  | [], _, _ => some true
  | _ :: _, [], _ => none
  | vecOne :: restOne, vecTwo :: restTwo, threshold =>
    match squareOfEuclideanDistance vecOne vecTwo with
    | none => none
    | some d => if d > threshold then some false else vectorsConverged restOne restTwo threshold

/-- Embedding of the struct `CentroidAssignment` (kmeans.go, lines 33-36). -/
structure CentroidAssignment (F : Type) where
  point : List F
  centroid : Int
  deriving DecidableEq, Repr

/-- The loop over the centroids in `pointsWorker` (kmeans.go, lines 170-176):
`centIndex` is the index of the next centroid, `minimumSquaredDistance` the running
minimum and `centroid` the current value of `centAssignment.centroid`. -/
def nearestCentroidLoop [Zero F] [Add F] [Sub F] [Mul F] [LT F] [DecidableRel (α := F) (· < ·)]
    (point : List F) : Nat → F → Int → List (List F) → Option Int
  | _, _, centroid, [] => some centroid
  | centIndex, minimumSquaredDistance, centroid, cent :: rest =>
    match squareOfEuclideanDistance point cent with
    | none => none
    | some nextSquaredDistance =>
      if nextSquaredDistance < minimumSquaredDistance then
        nearestCentroidLoop point (centIndex + 1) nextSquaredDistance centIndex rest
      else
        nearestCentroidLoop point (centIndex + 1) minimumSquaredDistance centroid rest

/-- The body of the loop over the points in `pointsWorker` (kmeans.go, lines 168-177):
the assignment sent for one point. -/
def assignPoint [Zero F] [Add F] [Sub F] [Mul F] [LT F] [DecidableRel (α := F) (· < ·)]
    (maxFloat64 : F) (centroids : List (List F)) (point : List F) :
    Option (CentroidAssignment F) :=
  match nearestCentroidLoop point 0 maxFloat64 (-1) centroids with
  | none => none
  | some centroid => some { point := point, centroid := centroid }

/-- One cycle of `pointsWorker` (kmeans.go, lines 166-178) on the received centroids:
the assignments the worker sends for its points, in order. -/
def pointsWorker [Zero F] [Add F] [Sub F] [Mul F] [LT F] [DecidableRel (α := F) (· < ·)]
    (maxFloat64 : F) (centroids : List (List F)) :
    List (List F) → Option (List (CentroidAssignment F))
  | [] => some []
  | point :: points =>
    match assignPoint maxFloat64 centroids point with
    | none => none
    | some a =>
      match pointsWorker maxFloat64 centroids points with
      | none => none
      | some rest => some (a :: rest)

/-- The draw of `randInt` in `firstCentroids` (kmeans.go, lines 248-251) from the state
`nextRand`: the new state (unsigned 64-bit wrap-around) and the drawn value. -/
def randInt (nextRand : Nat) : Nat × Nat :=
  let nextRand := (nextRand * 1103515245 + 12345) % 2 ^ 64
  (nextRand, (nextRand / 65536) % 32768)

/-- The copy loop of `firstCentroids` (kmeans.go, lines 257-259): the first
`numDimensions` coordinates of the chosen point; a shorter point is an
index-out-of-range panic. -/
def copyDimensions : Nat → List F → Option (List F)
  | 0, _ => some []
  | _ + 1, [] => none
  | numDimensions + 1, x :: point =>
    match copyDimensions numDimensions point with
    | none => none
    | some rest => some (x :: rest)

/-- The loop over `centIndex` in `firstCentroids` (kmeans.go, lines 255-260), with
`remaining` centroids still to draw from the state `nextRand`. -/
def firstCentroidsLoop (points : List (List F)) (numPoints numDimensions : Nat) :
    Nat → Nat → Option (List (List F))
  | 0, _ => some []
  | remaining + 1, nextRand =>
    let draw := randInt nextRand
    let pointIndex := draw.2 % numPoints
    match points[pointIndex]? with
    | none => none
    | some point =>
      match copyDimensions numDimensions point with
      | none => none
      | some centroid =>
        match firstCentroidsLoop points numPoints numDimensions remaining draw.1 with
        | none => none
        | some rest => some (centroid :: rest)

/-- Embedding of `firstCentroids` (kmeans.go, lines 238-262); `(*points)[0]` panics on
an empty point set. -/
def firstCentroids (numCentroids : Nat) (points : List (List F)) (randomSeed : Nat) :
    Option (List (List F)) :=
  match points with
  | [] => none
  | first :: _ => firstCentroidsLoop points points.length first.length numCentroids randomSeed

/-- Embedding of `contiguous2DFloats` (kmeans.go, lines 270-277): `numRows` rows of
`numColumns` zeros. -/
def contiguous2DFloats [Zero F] (numRows numColumns : Nat) : List (List F) :=
  List.replicate numRows (List.replicate numColumns 0)

/-- The accumulation loop `assignedCentroid[dimIndex] += dim` of `main` (kmeans.go,
lines 104-106); a point longer than the row is an index-out-of-range panic. -/
def addPoint [Add F] : List F → List F → Option (List F)
  | assignedCentroid, [] => some assignedCentroid
  | [], _ :: _ => none
  | c :: assignedCentroid, dim :: point =>
    match addPoint assignedCentroid point with
    | none => none
    | some rest => some ((c + dim) :: rest)

/-- The sums and counts the coordinator accumulates within one iteration:
`newCentroids` and `assignments` of `main`. -/
structure Accumulator (F : Type) where
  newCentroids : List (List F)
  assignments : List Nat
  deriving DecidableEq, Repr

/-- The body of the receive loop of `main` (kmeans.go, lines 99-106) for one received
assignment. -/
def receiveAssignment [Add F] (acc : Accumulator F) (nextAssignment : CentroidAssignment F) :
    Option (Accumulator F) :=
  if nextAssignment.centroid < 0 then none
  else
    match acc.assignments[nextAssignment.centroid.toNat]?,
        acc.newCentroids[nextAssignment.centroid.toNat]? with
    | some count, some assignedCentroid =>
      match addPoint assignedCentroid nextAssignment.point with
      | none => none
      | some row =>
        some { newCentroids := acc.newCentroids.set nextAssignment.centroid.toNat row,
               assignments := acc.assignments.set nextAssignment.centroid.toNat (count + 1) }
    | _, _ => none

/-- The receive loop of `main` (kmeans.go, lines 98-107) over the assignments in the
order in which they arrive. -/
def receiveAssignments [Add F] : Accumulator F → List (CentroidAssignment F) →
    Option (Accumulator F)
  | acc, [] => some acc
  | acc, nextAssignment :: rest =>
    match receiveAssignment acc nextAssignment with
    | none => none
    | some acc => receiveAssignments acc rest

/-- The averaging loop of `main` (kmeans.go, lines 110-115): every coordinate of
centroid `centIndex` is divided by `float64(assignments[centIndex])`. -/
def averageCentroids [Div F] [NatCast F] (acc : Accumulator F) : List (List F) :=
  List.zipWith (fun centroid (divisor : Nat) => centroid.map (fun x => x / (divisor : F)))
    acc.newCentroids acc.assignments

/-- The coordinator's computation of the new centroids within one iteration
(kmeans.go, lines 83-115) from the assignments in arrival order. -/
def newCentroidsOf [Zero F] [Add F] [Div F] [NatCast F] (numClusters numDimensions : Nat)
    (arrivals : List (CentroidAssignment F)) : Option (List (List F)) :=
  match receiveAssignments
      { newCentroids := contiguous2DFloats numClusters numDimensions,
        assignments := List.replicate numClusters 0 } arrivals with
  | none => none
  | some acc => some (averageCentroids acc)

/-- The slice `(*points)[startIndex:stopIndex]` handed to worker `blockNumber`
(kmeans.go, lines 76-77); out-of-range bounds are a panic. -/
def workerBlock (points : List (List F)) (numWorkers blockNumber : Nat) : Option (List (List F)) :=
  let indexes := getIndexes points.length numWorkers blockNumber
  if 0 ≤ indexes.1 ∧ indexes.1 ≤ indexes.2 ∧ indexes.2 ≤ points.length then
    some ((points.drop indexes.1.toNat).take (indexes.2.toNat - indexes.1.toNat))
  else none

/-- The blocks of workers `blockNumber, blockNumber + 1, ...` (`remaining` of them). -/
def workerBlocksFrom (points : List (List F)) (numWorkers : Nat) :
    Nat → Nat → Option (List (List (List F)))
  | 0, _ => some []
  | remaining + 1, blockNumber =>
    match workerBlock points numWorkers blockNumber with
    | none => none
    | some block =>
      match workerBlocksFrom points numWorkers remaining (blockNumber + 1) with
      | none => none
      | some rest => some (block :: rest)

/-- The blocks of all workers, as created by the loop of `main` at lines 75-78. -/
def workerBlocks (points : List (List F)) (numWorkers : Nat) : Option (List (List (List F))) :=
  workerBlocksFrom points numWorkers numWorkers 0

/-- What every worker sends in one iteration: one queue of assignments per worker. -/
def workerQueues [Zero F] [Add F] [Sub F] [Mul F] [LT F] [DecidableRel (α := F) (· < ·)]
    (maxFloat64 : F) (centroids : List (List F)) :
    List (List (List F)) → Option (List (List (CentroidAssignment F)))
  | [] => some []
  | block :: blocks =>
    match pointsWorker maxFloat64 centroids block with
    | none => none
    | some queue =>
      match workerQueues maxFloat64 centroids blocks with
      | none => none
      | some rest => some (queue :: rest)

end Program

/-! ### The assignment channel

The workers send concurrently on `centroidAssignmentChan`; what the coordinator
receives is an interleaving of the workers' queues.  Which worker's assignment
arrives next is decided by a scheduling oracle. -/

section Channel

variable {α : Type}

/-- Remove the head of the `i`-th non-empty queue. -/
def popQueue : Nat → List (List α) → Option (α × List (List α))
  | _, [] => none
  | i, [] :: queues =>
    match popQueue i queues with
    | none => none
    | some (a, rest) => some (a, [] :: rest)
  | 0, (a :: queue) :: queues => some (a, queue :: queues)
  | i + 1, (b :: queue) :: queues =>
    match popQueue i queues with
    | none => none
    | some (a, rest) => some (a, (b :: queue) :: rest)

/-- Number of queues that still hold an assignment. -/
def liveQueues (queues : List (List α)) : Nat :=
  (queues.filter (fun queue => !queue.isEmpty)).length

/-- The values received by `count` receives from the channel: receive number `k`
takes the head of the `(pick k mod live)`-th non-empty queue. -/
def receiveFrom : Nat → (Nat → Nat) → List (List α) → List α
  | 0, _, _ => []
  | count + 1, pick, queues =>
    match popQueue (pick 0 % liveQueues queues) queues with
    | none => []
    | some (a, rest) => a :: receiveFrom count (fun k => pick (k + 1)) rest

end Channel

section Loop

variable {F : Type}

/-- How a run of the clustering loop ends: it converges with the centroids and the
iteration count that `main` prints, it panics, or it is still running when the fuel
of the model is used up. -/
inductive Outcome (F : Type) where
  | converged (centroids : List (List F)) (iterations : Nat)
  | panicked
  | running
  deriving DecidableEq, Repr

/-- The coordinator's part of one iteration (kmeans.go, lines 83-117) once the
assignments have arrived: the new centroids and the result of the convergence test
against the current centroids. -/
def coordinate [Zero F] [Add F] [Sub F] [Mul F] [Div F] [NatCast F] [LT F]
    [DecidableRel (α := F) (· < ·)]
    (threshold : F) (numClusters numDimensions : Nat) (centroids : List (List F))
    (arrivals : List (CentroidAssignment F)) : Option (List (List F) × Bool) :=
  match newCentroidsOf numClusters numDimensions arrivals with
  | none => none
  | some newCentroids =>
    match vectorsConverged centroids newCentroids threshold with
    | none => none
    | some converged => some (newCentroids, converged)

/-- One iteration of the coordinator loop (kmeans.go, lines 83-117) on the current
centroids: the workers send their assignments, the coordinator receives
`numPoints` of them and computes the new centroids and the convergence test.
`pick` is the scheduling oracle of this iteration. -/
def iteration [Zero F] [Add F] [Sub F] [Mul F] [Div F] [NatCast F] [LT F]
    [DecidableRel (α := F) (· < ·)]
    (maxFloat64 threshold : F) (numClusters numWorkers : Nat) (points : List (List F))
    (pick : Nat → Nat) (centroids : List (List F)) : Option (List (List F) × Bool) :=
  match points with
  | [] => none
  | first :: _ =>
    match workerBlocks points numWorkers with
    | none => none
    | some blocks =>
      match workerQueues maxFloat64 centroids blocks with
      | none => none
      | some queues =>
        coordinate threshold numClusters first.length centroids
          (receiveFrom points.length pick queues)

/-- The coordinator loop of `main` (kmeans.go, lines 80-131), run for at most `fuel`
iterations from the counter value `iterations` and the current `centroids`;
`sched i` is the scheduling oracle of the iteration numbered `i`. -/
def mainLoop [Zero F] [Add F] [Sub F] [Mul F] [Div F] [NatCast F] [LT F]
    [DecidableRel (α := F) (· < ·)]
    (maxFloat64 threshold : F) (numClusters numWorkers : Nat) (points : List (List F))
    (sched : Nat → Nat → Nat) : Nat → Nat → List (List F) → Outcome F
  | 0, _, _ => Outcome.running
  | fuel + 1, iterations, centroids =>
    match iteration maxFloat64 threshold numClusters numWorkers points
        (sched (iterations + 1)) centroids with
    | none => Outcome.panicked
    | some (newCentroids, converged) =>
      if converged then Outcome.converged centroids (iterations + 1)
      else mainLoop maxFloat64 threshold numClusters numWorkers points sched fuel
        (iterations + 1) newCentroids

/-- The clustering run of `main` (kmeans.go, lines 73-131): seed the centroids, then
run the coordinator loop. -/
def cluster [Zero F] [Add F] [Sub F] [Mul F] [Div F] [NatCast F] [LT F]
    [DecidableRel (α := F) (· < ·)]
    (maxFloat64 threshold : F) (numClusters numWorkers : Nat) (randSeed : Nat)
    (points : List (List F)) (sched : Nat → Nat → Nat) (fuel : Nat) : Outcome F :=
  match firstCentroids numClusters points randSeed with
  | none => Outcome.panicked
  | some centroids =>
    mainLoop maxFloat64 threshold numClusters numWorkers points sched fuel 0 centroids

end Loop

/-! ### Specification-side definitions -/

/-- The state of the seeding generator after `j` draws, as the specification words
it: `state_0 = seed`, `state_(j+1) = (state_j * 1103515245 + 12345) mod 2^64`. -/
def lcgState (seed : Nat) : Nat → Nat
  | 0 => seed
  | j + 1 => (lcgState seed j * 1103515245 + 12345) % 2 ^ 64

/-- The point index of draw `i` (0-based), as the specification words it:
`((state_(i+1) / 65536) mod 32768) mod N`. -/
def drawnIndex (seed numPoints i : Nat) : Nat :=
  ((lcgState seed (i + 1) / 65536) % 32768) % numPoints

section SpecDistance

variable {F : Type}

/-- The squared Euclidean distance as the specification words it: the sum over the
dimensions of the squared differences `(b_i - a_i)^2`, added up from the first
dimension on, starting from zero. -/
def sqDist [Zero F] [Add F] [Sub F] [Mul F] (a b : List F) : F :=
  (List.zipWith (fun x y => (y - x) * (y - x)) a b).foldl (· + ·) 0

end SpecDistance

section SpecAggregation

variable {F : Type}

/-- The points assigned to centroid `c`, in the order in which their assignments
arrive. -/
def assignedTo (arrivals : List (CentroidAssignment F)) (c : Nat) : List (List F) :=
  (arrivals.filter (fun a => decide (a.centroid = (c : Int)))).map (fun a => a.point)

/-- The sum of coordinate `d` of the points assigned to centroid `c`: the coordinates
are added up in arrival order, starting from zero. -/
def coordinateSum [Zero F] [Add F] (arrivals : List (CentroidAssignment F)) (c d : Nat) : F :=
  ((assignedTo arrivals c).map (fun p => p.getD d 0)).foldl (· + ·) 0

end SpecAggregation

/-! ### Example data -/

/-- Three assignments of one-dimensional points over exact arithmetic: the points `2`
and `4` go to centroid `0`, the point `6` goes to centroid `1`. -/
def exampleArrivals : List (CentroidAssignment ℚ) :=
  [{ point := [2], centroid := 0 }, { point := [6], centroid := 1 },
    { point := [4], centroid := 0 }]

/-- Three assignments of one-dimensional `float64` points to centroid `0`: the points
`2^53`, `1` and `1`, in this arrival order. -/
def roundingArrivals : List (CentroidAssignment F64) :=
  [{ point := [F64.ofNat (2 ^ 53)], centroid := 0 }, { point := [F64.ofNat 1], centroid := 0 },
    { point := [F64.ofNat 1], centroid := 0 }]

/-- The assignments of `roundingArrivals` in another arrival order: `1`, `1`, `2^53`. -/
def roundingArrivalsPermuted : List (CentroidAssignment F64) :=
  [{ point := [F64.ofNat 1], centroid := 0 }, { point := [F64.ofNat 1], centroid := 0 },
    { point := [F64.ofNat (2 ^ 53)], centroid := 0 }]

/-- Two one-dimensional `float64` points, `0` and `2`. -/
def twoPoints : List (List F64) := [[0], [F64.ofNat 2]]

/-- Three one-dimensional `float64` points: `2^53`, `1` and `1`. -/
def roundingPoints : List (List F64) := [[F64.ofNat (2 ^ 53)], [F64.ofNat 1], [F64.ofNat 1]]

/-- The value of `math.MaxFloat64` as an exact rational, `(2^53 - 1) * 2^971`. -/
def maxFloat64Exact : ℚ := (2 ^ 53 - 1) * 2 ^ 971

/-- The four points `(0,0)`, `(0,2)`, `(10,0)`, `(10,2)` over exact arithmetic. -/
def fourPointsExact : List (List ℚ) := [[0, 0], [0, 2], [10, 0], [10, 2]]

/-- The four `float64` points `(0,0)`, `(0,2)`, `(10,0)`, `(10,2)` of the scenario. -/
def fourPoints : List (List F64) :=
  [[0, 0], [0, F64.ofNat 2], [F64.ofNat 10, 0], [F64.ofNat 10, F64.ofNat 2]]

/-- The initial centroids of the scenario: the points number 0 and 2. -/
def scenarioInitial : List (List F64) := [[0, 0], [F64.ofNat 10, 0]]

/-- The centroids `(0,1)` and `(10,1)`. -/
def scenarioFinal : List (List F64) := [[0, F64.ofNat 1], [F64.ofNat 10, F64.ofNat 1]]

/-- The `float64` constant `1e-6`: the double nearest to `1 / 1000000`. -/
def scenarioThreshold : F64 := F64.ofRatio 1 1000000

/-- The assignments of the four `float64` points of the scenario to the initial
centroids, in point order. -/
def scenarioArrivals : List (CentroidAssignment F64) :=
  [{ point := [0, 0], centroid := 0 }, { point := [0, F64.ofNat 2], centroid := 0 },
    { point := [F64.ofNat 10, 0], centroid := 1 },
    { point := [F64.ofNat 10, F64.ofNat 2], centroid := 1 }]

section SpecNearest

variable {F : Type}

/-- Index `i` is the brute-force argmin of the squared distance from `point` over
`centroids`, ties broken to the lowest index: no centroid is nearer than centroid `i`
and every centroid before `i` is strictly farther. -/
def IsArgmin [Zero F] [Add F] [Sub F] [Mul F] [LT F] [LE F] (point : List F)
    (centroids : List (List F)) (i : Nat) : Prop :=
  ∃ c, centroids[i]? = some c ∧
    ∀ (j : Nat) (c' : List F), centroids[j]? = some c' →
      sqDist point c ≤ sqDist point c' ∧ (j < i → sqDist point c < sqDist point c')

end SpecNearest

/-! ### The configuration check of `main` -/

namespace F64

/-- The comparison `a == b` of `float64`: `nan` equals nothing, the two zeros are
equal, and otherwise two values are equal when they are the same value. -/
def eq : F64 → F64 → Bool
  | fin n1 m1 e1, fin n2 m2 e2 =>
    (decide (m1 = 0) && decide (m2 = 0)) ||
      (decide (n1 = n2) && decide (m1 = m2) && decide (e1 = e2))
  | inf a, inf b => decide (a = b)
  | _, _ => false

instance : BEq F64 := ⟨eq⟩

end F64

section Main

variable {F : Type}

/-- The values of the command-line flags of `main` (kmeans.go, lines 39-51). -/
structure Config (F : Type) where
  inputFileName : String
  threshold : F
  numClusters : Int
  numWorkers : Int
  randSeed : Nat
  outputCentroids : Bool

/-- How `main` ends: with the usage message (line 53), with `log.Fatalf` (line 61),
with a panic before the clustering starts, or after the clustering run (lines 73-131)
with its outcome. -/
inductive Exit (F : Type) where
  | usage
  | fatal
  | panicked
  | clustered (outcome : Outcome F)
  deriving DecidableEq, Repr

/-- Embedding of `main` (kmeans.go, lines 38-147) up to the end of the clustering loop.
`points` is the point set that `readPointsFile` returns; reading the file and printing
the result are not embedded.  An empty point set panics at line 59; a negative number
of workers panics in `waitGroup.Add` and a negative number of clusters in
`contiguous2DFloats`. -/
def main [Zero F] [Add F] [Sub F] [Mul F] [Div F] [NatCast F] [LT F]
    [DecidableRel (α := F) (· < ·)] [BEq F]
    (maxFloat64 : F) (cfg : Config F) (points : List (List F))
    (sched : Nat → Nat → Nat) (fuel : Nat) : Exit F :=
  if cfg.inputFileName == "" || cfg.numClusters == 0 || cfg.numWorkers == 0
      || cfg.threshold == 0 then
    Exit.usage
  else
    match points with
    | [] => Exit.panicked
    | _ :: _ =>
      if cfg.numWorkers > points.length then Exit.fatal
      else if cfg.numWorkers < 0 ∨ cfg.numClusters < 0 then Exit.panicked
      else
        Exit.clustered (cluster maxFloat64 cfg.threshold cfg.numClusters.toNat
          cfg.numWorkers.toNat cfg.randSeed points sched fuel)

end Main

/-- Four `float64` points, all `(0,0)`. -/
def zeroPoints : List (List F64) := [[0, 0], [0, 0], [0, 0], [0, 0]]

/-- A configuration with the given threshold, number of workers and seed, one cluster
and a named input file. -/
def configWith (threshold : F64) (numWorkers : Int) (randSeed : Nat) : Config F64 :=
  { inputFileName := "points.txt", threshold := threshold, numClusters := 1,
    numWorkers := numWorkers, randSeed := randSeed, outputCentroids := true }

/-- Two one-dimensional `float64` points, `2^600` and `-2^600`. -/
def overflowPoints : List (List F64) := [[F64.fin false (2 ^ 52) 548], [F64.fin true (2 ^ 52) 548]]

/-- Four one-dimensional `float64` points: `1`, `2`, `3` and `4`. -/
def linePoints : List (List F64) := [[F64.ofNat 1], [F64.ofNat 2], [F64.ofNat 3], [F64.ofNat 4]]

section SpecCost

variable {F : Type}

/-- The squared distance from `point` to the nearest of `centroids` (`0` for an empty
centroid set). -/
def nearestSqDist [Zero F] [Add F] [Sub F] [Mul F] [Min F] (point : List F) :
    List (List F) → F
  | [] => 0
  | [c] => sqDist point c
  | c :: rest => min (sqDist point c) (nearestSqDist point rest)

/-- The clustering cost: the sum over all points of the squared distance to the
nearest centroid. -/
def clusteringCost [Zero F] [Add F] [Sub F] [Mul F] [Min F] (points centroids : List (List F)) :
    F :=
  (points.map (fun p => nearestSqDist p centroids)).sum

end SpecCost

/-- The initial centroids of the scenario over exact arithmetic: `(0,0)` and `(10,0)`. -/
def exactInitial : List (List ℚ) := [[0, 0], [10, 0]]

/-- The centroids `(0,1)` and `(10,1)` over exact arithmetic. -/
def exactFinal : List (List ℚ) := [[0, 1], [10, 1]]

/-- The assignments of the four points of the scenario to the initial centroids. -/
def exactAssignments : List (CentroidAssignment ℚ) :=
  [{ point := [0, 0], centroid := 0 }, { point := [0, 2], centroid := 0 },
    { point := [10, 0], centroid := 1 }, { point := [10, 2], centroid := 1 }]

/-! ## Theorems: `getIndexes` -/

/-- Closed form of the start index: `w * (N / W) + min w (N % W)`. -/
theorem getIndexes_fst (N W w : Int) (hW : 1 ≤ W) (hN : 0 ≤ N) :
    (getIndexes N W w).1 = w * (N / W) + min w (N % W) := by
  have hd : Int.tdiv N W = N / W := Int.tdiv_eq_ediv hN (by omega)
  have hm : Int.tmod N W = N % W := Int.tmod_eq_emod hN (by omega)
  unfold getIndexes
  simp only [hd, hm]
  split_ifs with h
  · simp only []; rw [min_eq_right h]
  · simp only []; rw [min_eq_left (by omega)]

theorem getIndexes_snd (N W w : Int) (hW : 1 ≤ W) (hN : 0 ≤ N) :
    (getIndexes N W w).2 = (getIndexes N W (w + 1)).1 := by
  rw [getIndexes_fst N W (w + 1) hW hN]
  have hd : Int.tdiv N W = N / W := Int.tdiv_eq_ediv hN (by omega)
  have hm : Int.tmod N W = N % W := Int.tmod_eq_emod hN (by omega)
  unfold getIndexes
  simp only [hd, hm]
  split_ifs with h
  · simp only []; rw [min_eq_right (by omega)]; ring
  · simp only []; rw [min_eq_left (by omega)]; ring

theorem getIndexes_fst_mono (N W a b : Int) (hW : 1 ≤ W) (hN : 0 ≤ N) (hab : a ≤ b) :
    (getIndexes N W a).1 ≤ (getIndexes N W b).1 := by
  rw [getIndexes_fst N W a hW hN, getIndexes_fst N W b hW hN]
  have hq : 0 ≤ N / W := Int.ediv_nonneg hN (by omega)
  have h1 : a * (N / W) ≤ b * (N / W) := Int.mul_le_mul_of_nonneg_right hab hq
  have h2 : min a (N % W) ≤ min b (N % W) := min_le_min_right _ hab
  omega

theorem getIndexes_fst_last (N W : Int) (hW : 1 ≤ W) (hN : 0 ≤ N) :
    (getIndexes N W W).1 = N := by
  rw [getIndexes_fst N W W hW hN]
  have h1 : N % W < W := Int.emod_lt_of_pos N (by omega)
  rw [min_eq_right (by omega)]
  have := Int.ediv_add_emod N W
  linarith

theorem getIndexes_exists (N W : Int) (hW : 1 ≤ W) (hN : 0 ≤ N) (k : Nat) :
    ∀ i : Int, 0 ≤ i → i < (getIndexes N W (k : Int)).1 →
      ∃ w : Int, (0 ≤ w ∧ w < k) ∧ (getIndexes N W w).1 ≤ i ∧ i < (getIndexes N W w).2 := by
  induction k with
  | zero =>
    intro i h0 hi
    rw [getIndexes_fst N W _ hW hN] at hi
    have : 0 ≤ N % W := Int.emod_nonneg N (by omega)
    simp at hi
    omega
  | succ k ih =>
    intro i h0 hi
    by_cases h : i < (getIndexes N W (k : Int)).1
    · obtain ⟨w, ⟨hw0, hwk⟩, h1, h2⟩ := ih i h0 h
      exact ⟨w, ⟨hw0, by push_cast; omega⟩, h1, h2⟩
    · refine ⟨k, ⟨by omega, by push_cast; omega⟩, by omega, ?_⟩
      rw [getIndexes_snd N W _ hW hN]
      push_cast at hi
      exact hi

/-- Claim C1: for `1 ≤ W ≤ N` the ranges of `getIndexes N W w`, `w = 0 .. W-1`, start
at `0`, end at `N`, are non-empty-or-empty intervals inside `[0, N]` with
`start ≤ stop`, are contiguous (`stop_w = start_(w+1)`), and every index of `[0, N)`
lies in the range of exactly one worker. -/
theorem getIndexes_partition (N W : Int) (hW : 1 ≤ W) (hWN : W ≤ N) :
    (getIndexes N W 0).1 = 0 ∧
    (getIndexes N W (W - 1)).2 = N ∧
    (∀ w : Int, 0 ≤ w → w < W →
      0 ≤ (getIndexes N W w).1 ∧ (getIndexes N W w).1 ≤ (getIndexes N W w).2 ∧
        (getIndexes N W w).2 ≤ N) ∧
    (∀ w : Int, 0 ≤ w → w < W - 1 → (getIndexes N W w).2 = (getIndexes N W (w + 1)).1) ∧
    (∀ i : Int, 0 ≤ i → i < N →
      ∃! w : Int, (0 ≤ w ∧ w < W) ∧ (getIndexes N W w).1 ≤ i ∧ i < (getIndexes N W w).2) := by
  have hN : 0 ≤ N := by omega
  have h0 : (getIndexes N W 0).1 = 0 := by
    rw [getIndexes_fst N W 0 hW hN]
    have : 0 ≤ N % W := Int.emod_nonneg N (by omega)
    simp [this]
  have hlast : (getIndexes N W (W - 1)).2 = N := by
    rw [getIndexes_snd N W _ hW hN]
    have : W - 1 + 1 = W := by ring
    rw [this]
    exact getIndexes_fst_last N W hW hN
  refine ⟨h0, hlast, ?_, ?_, ?_⟩
  · intro w hw0 hwW
    refine ⟨?_, ?_, ?_⟩
    · rw [← h0]; exact getIndexes_fst_mono N W 0 w hW hN hw0
    · rw [getIndexes_snd N W _ hW hN]
      exact getIndexes_fst_mono N W w (w + 1) hW hN (by omega)
    · have hmono := getIndexes_fst_mono N W (w + 1) W hW hN (by omega)
      rw [getIndexes_fst_last N W hW hN] at hmono
      rw [getIndexes_snd N W _ hW hN]
      exact hmono
  · intro w _ _
    exact getIndexes_snd N W w hW hN
  · intro i hi0 hiN
    obtain ⟨k, hk⟩ : ∃ k : Nat, (k : Int) = W := ⟨W.toNat, by omega⟩
    have hi : i < (getIndexes N W (k : Int)).1 := by
      rw [hk, getIndexes_fst_last N W hW hN]; exact hiN
    obtain ⟨w, ⟨hw0, hwk⟩, h1, h2⟩ := getIndexes_exists N W hW hN k i hi0 hi
    refine ⟨w, ⟨⟨hw0, by omega⟩, h1, h2⟩, ?_⟩
    rintro v ⟨⟨_, _⟩, hv1, hv2⟩
    rw [getIndexes_snd N W _ hW hN] at h2 hv2
    by_contra hne
    rcases lt_or_gt_of_ne hne with hlt | hgt
    · have := getIndexes_fst_mono N W (v + 1) w hW hN (by omega)
      omega
    · have := getIndexes_fst_mono N W (w + 1) v hW hN (by omega)
      omega

/-- Witness for `getIndexes_partition`: ten tasks among four workers. -/
theorem getIndexes_partition_witness :
    (1 : Int) ≤ 4 ∧ (4 : Int) ≤ 10 ∧ (getIndexes 10 4 0).1 = 0 ∧ (getIndexes 10 4 (4 - 1)).2 = 10 :=
  ⟨by decide, by decide,
    (getIndexes_partition 10 4 (by decide) (by decide)).1,
    (getIndexes_partition 10 4 (by decide) (by decide)).2.1⟩

/-- Claim C2: for `1 ≤ W ≤ N` and `0 ≤ w < W` the range of worker `w` has size
`⌈N / W⌉` when `w < N mod W` and `⌊N / W⌋` otherwise; hence the sizes of any two
workers' ranges differ by at most one. -/
theorem getIndexes_size (N W : Int) (hW : 1 ≤ W) (hWN : W ≤ N) :
    (∀ w : Int, 0 ≤ w → w < W →
      (getIndexes N W w).2 - (getIndexes N W w).1 =
        if w < N % W then ⌈(N : ℚ) / (W : ℚ)⌉ else ⌊(N : ℚ) / (W : ℚ)⌋) ∧
    (∀ w v : Int, 0 ≤ w → w < W → 0 ≤ v → v < W →
      |((getIndexes N W w).2 - (getIndexes N W w).1) -
        ((getIndexes N W v).2 - (getIndexes N W v).1)| ≤ 1) := by
  have hN : 0 ≤ N := by omega
  have hWpos : (0 : ℚ) < (W : ℚ) := by exact_mod_cast (by omega : (0 : Int) < W)
  have hr0 : 0 ≤ N % W := Int.emod_nonneg N (by omega)
  have hrW : N % W < W := Int.emod_lt_of_pos N (by omega)
  have hdm := Int.ediv_add_emod N W
  have hfloor : ⌊(N : ℚ) / (W : ℚ)⌋ = N / W := by
    rw [Int.floor_eq_iff]
    constructor
    · rw [le_div_iff₀ hWpos]
      have : N / W * W ≤ N := by nlinarith
      exact_mod_cast this
    · rw [div_lt_iff₀ hWpos]
      have : N < (N / W + 1) * W := by nlinarith
      exact_mod_cast this
  have hceil : 0 < N % W → ⌈(N : ℚ) / (W : ℚ)⌉ = N / W + 1 := by
    intro hpos
    rw [Int.ceil_eq_iff]
    constructor
    · rw [lt_div_iff₀ hWpos]
      have : (N / W + 1 - 1) * W < N := by nlinarith
      exact_mod_cast this
    · rw [div_le_iff₀ hWpos]
      have : N ≤ (N / W + 1) * W := by nlinarith
      exact_mod_cast this
  have hsize : ∀ w : Int, 0 ≤ w → w < W →
      (getIndexes N W w).2 - (getIndexes N W w).1 = if w < N % W then N / W + 1 else N / W := by
    intro w hw0 hwW
    rw [getIndexes_snd N W _ hW hN, getIndexes_fst N W _ hW hN, getIndexes_fst N W _ hW hN]
    split_ifs with h
    · rw [min_eq_left (by omega), min_eq_left (by omega)]; ring
    · rw [min_eq_right (by omega), min_eq_right (by omega)]; ring
  constructor
  · intro w hw0 hwW
    rw [hsize w hw0 hwW]
    split_ifs with h
    · rw [hceil (by omega)]
    · rw [hfloor]
  · intro w v hw0 hwW hv0 hvW
    rw [hsize w hw0 hwW, hsize v hv0 hvW, abs_le]
    split_ifs <;> constructor <;> omega

/-- Witness for `getIndexes_size`: ten tasks among four workers, worker 1 gets three. -/
theorem getIndexes_size_witness :
    (1 : Int) ≤ 4 ∧ (4 : Int) ≤ 10 ∧
      (getIndexes 10 4 1).2 - (getIndexes 10 4 1).1 =
        if (1 : Int) < 10 % 4 then ⌈((10 : Int) : ℚ) / ((4 : Int) : ℚ)⌉
        else ⌊((10 : Int) : ℚ) / ((4 : Int) : ℚ)⌋ :=
  ⟨by decide, by decide,
    (getIndexes_size 10 4 (by decide) (by decide)).1 1 (by decide) (by decide)⟩

/-! ## Theorems: `firstCentroids` -/

section Seeder

variable {F : Type}

theorem copyDimensions_length (point : List F) :
    copyDimensions point.length point = some point := by
  induction point with
  | nil => rfl
  | cons x xs ih => simp [copyDimensions, ih]

theorem firstCentroidsLoop_spec (points : List (List F)) (seed D : Nat)
    (hne : points ≠ []) (hdim : ∀ p ∈ points, p.length = D) (k : Nat) :
    ∀ j : Nat, ∃ centroids : List (List F),
      firstCentroidsLoop points points.length D k (lcgState seed j) = some centroids ∧
      centroids.length = k ∧
      ∀ i : Nat, i < k → centroids[i]? = points[drawnIndex seed points.length (j + i)]? := by
  have hpos : 0 < points.length := List.length_pos.mpr hne
  induction k with
  | zero => intro j; exact ⟨[], rfl, rfl, fun i hi => absurd hi (Nat.not_lt_zero i)⟩
  | succ k ih =>
    intro j
    obtain ⟨rest, hrest, hlen, hget⟩ := ih (j + 1)
    have hidx : drawnIndex seed points.length j < points.length := Nat.mod_lt _ hpos
    have hstate : (randInt (lcgState seed j)).1 = lcgState seed (j + 1) := rfl
    have hdraw : (randInt (lcgState seed j)).2 % points.length = drawnIndex seed points.length j :=
      rfl
    have hcopy : copyDimensions D (points[drawnIndex seed points.length j]) =
        some (points[drawnIndex seed points.length j]) := by
      have := hdim _ (List.getElem_mem hidx)
      rw [← this]
      exact copyDimensions_length _
    refine ⟨points[drawnIndex seed points.length j] :: rest, ?_, by simp [hlen], ?_⟩
    · simp only [firstCentroidsLoop, hstate, hdraw, List.getElem?_eq_getElem hidx, hcopy, hrest]
    · intro i hi
      cases i with
      | zero => simp [List.getElem?_eq_getElem hidx]
      | succ i =>
        have hi' := hget i (by omega)
        have hji : j + 1 + i = j + (i + 1) := by omega
        rw [hji] at hi'
        simp only [List.getElem?_cons_succ, hi']

/-- Claim C3: for every seed, every point set of `N ≥ 1` points of one dimension and
every `K`, `firstCentroids` returns `K` centroids, and centroid `i` is the point at
index `((state_(i+1) / 65536) mod 32768) mod N` of the recurrence
`state_0 = seed`, `state_(j+1) = (state_j * 1103515245 + 12345) mod 2^64`; every such
index is below `N`. -/
theorem firstCentroids_spec (K : Nat) (points : List (List F)) (seed D : Nat)
    (hne : points ≠ []) (hdim : ∀ p ∈ points, p.length = D) :
    ∃ centroids : List (List F),
      firstCentroids K points seed = some centroids ∧ centroids.length = K ∧
      ∀ i : Nat, i < K →
        drawnIndex seed points.length i < points.length ∧
        centroids[i]? = points[drawnIndex seed points.length i]? := by
  have hpos : 0 < points.length := List.length_pos.mpr hne
  obtain ⟨centroids, hrun, hlen, hget⟩ := firstCentroidsLoop_spec points seed D hne hdim K 0
  refine ⟨centroids, ?_, hlen, ?_⟩
  · cases points with
    | nil => exact absurd rfl hne
    | cons first rest =>
      have hD : first.length = D := hdim first (List.mem_cons_self _ _)
      simp only [firstCentroids, hD]
      exact hrun
  · intro i hi
    refine ⟨Nat.mod_lt _ hpos, ?_⟩
    have := hget i hi
    simpa using this

/-- Witness for `firstCentroids_spec`: two centroids out of three points, seed 7. -/
theorem firstCentroids_spec_witness :
    [[(1 : Int), 2], [3, 4], [5, 6]] ≠ [] ∧
    (∀ p ∈ [[(1 : Int), 2], [3, 4], [5, 6]], p.length = 2) ∧
    ∃ centroids : List (List Int),
      firstCentroids 2 [[1, 2], [3, 4], [5, 6]] 7 = some centroids ∧ centroids.length = 2 ∧
      ∀ i : Nat, i < 2 →
        drawnIndex 7 [[(1 : Int), 2], [3, 4], [5, 6]].length i <
          [[(1 : Int), 2], [3, 4], [5, 6]].length ∧
        centroids[i]? = [[(1 : Int), 2], [3, 4], [5, 6]][drawnIndex 7
          [[(1 : Int), 2], [3, 4], [5, 6]].length i]? :=
  ⟨by decide, by decide,
    firstCentroids_spec 2 [[1, 2], [3, 4], [5, 6]] 7 2 (by decide) (by decide)⟩
end Seeder

/-! ## Theorems: distance, assignment and convergence test -/

section Distance

variable {F : Type}

theorem squareOfEuclideanDistanceLoop_eq [Add F] [Sub F] [Mul F] (vecOne : List F) :
    ∀ (vecTwo : List F) (distSquare : F), vecOne.length ≤ vecTwo.length →
      squareOfEuclideanDistanceLoop distSquare vecOne vecTwo =
        some ((List.zipWith (fun x y => (y - x) * (y - x)) vecOne vecTwo).foldl (· + ·)
          distSquare) := by
  induction vecOne with
  | nil => intro vecTwo distSquare _; rfl
  | cons a rest ih =>
    intro vecTwo distSquare h
    cases vecTwo with
    | nil => simp at h
    | cons b restTwo =>
      simp only [squareOfEuclideanDistanceLoop, List.zipWith_cons_cons, List.foldl_cons]
      exact ih restTwo _ (by simpa using h)

/-- On vectors of one dimension `squareOfEuclideanDistance` returns the sum of the
squared per-dimension differences. -/
theorem squareOfEuclideanDistance_eq [Zero F] [Add F] [Sub F] [Mul F] (vecOne vecTwo : List F)
    (h : vecOne.length = vecTwo.length) :
    squareOfEuclideanDistance vecOne vecTwo = some (sqDist vecOne vecTwo) :=
  squareOfEuclideanDistanceLoop_eq vecOne vecTwo 0 (le_of_eq h)

/-- Claim C4 (the code at the failing input): for the one-dimensional point
`2^600` and the single centroid `-2^600` the squared distance overflows to `+Inf`,
which is not below `math.MaxFloat64`, so the worker sends the placeholder index `-1`
and not the index `0` of the only (hence nearest) centroid. -/
theorem assignPoint_overflow_placeholder :
    squareOfEuclideanDistance [F64.fin false (2 ^ 52) 548] [F64.fin true (2 ^ 52) 548] =
        some (F64.inf false) ∧
      assignPoint F64.maxFloat64 [[F64.fin true (2 ^ 52) 548]] [F64.fin false (2 ^ 52) 548] =
        some { point := [F64.fin false (2 ^ 52) 548], centroid := -1 } := by
  decide!

/-- Claim C5 (the code at the failing input): on the points `1`, `2`, `3`, `4` with
`K = 2`, one worker, seed `0` and threshold `1`, both initial centroids are the point
`1`; no point is assigned to the second one, which becomes `0 / 0 = NaN` and stays
`NaN`.  In the second iteration the squared distance of the second pair of centroids
is `NaN`, which is not `≤ 1`, and `vectorsConverged` nevertheless returns `true`: the
run ends as converged, with a `NaN` centroid.  The same happens on the centroid sets
`[[0]]` and `[[NaN]]`. -/
theorem vectorsConverged_nan_converged :
    cluster F64.maxFloat64 (F64.ofNat 1) 2 1 0 linePoints (fun _ _ => 0) 2 =
        Outcome.converged [[F64.ofRatio 5 2], [F64.nan]] 2 ∧
      iteration F64.maxFloat64 (F64.ofNat 1) 2 1 linePoints (fun _ => 0)
          [[F64.ofRatio 5 2], [F64.nan]] =
        some ([[F64.ofRatio 5 2], [F64.nan]], true) ∧
      vectorsConverged [[F64.ofRatio 5 2], [F64.nan]] [[F64.ofRatio 5 2], [F64.nan]]
          (F64.ofNat 1) = some true ∧
      squareOfEuclideanDistance [F64.nan] [F64.nan] = some F64.nan ∧
      ¬ (F64.nan ≤ F64.ofNat 1) ∧
      vectorsConverged [[(0 : F64)]] [[F64.nan]] (F64.ofNat 1) = some true ∧
      squareOfEuclideanDistance [(0 : F64)] [F64.nan] = some F64.nan := by
  decide!

/-- The convergence test returns, and is `true` exactly when no pair exceeds the
threshold (by induction over the first centroid set). -/
theorem vectorsConverged_aux [Zero F] [Add F] [Sub F] [Mul F] [LT F]
    [DecidableRel (α := F) (· < ·)] (vecSliceOne : List (List F)) :
    ∀ (vecSliceTwo : List (List F)) (threshold : F),
      vecSliceOne.length = vecSliceTwo.length →
      (∀ p ∈ List.zip vecSliceOne vecSliceTwo, p.1.length = p.2.length) →
      ∃ b : Bool, vectorsConverged vecSliceOne vecSliceTwo threshold = some b ∧
        (b = true ↔ ∀ p ∈ List.zip vecSliceOne vecSliceTwo, ¬ sqDist p.1 p.2 > threshold) := by
  induction vecSliceOne with
  | nil => intro vecSliceTwo threshold _ _; exact ⟨true, rfl, by simp⟩
  | cons vecOne restOne ih =>
    intro vecSliceTwo threshold hlen hdim
    cases vecSliceTwo with
    | nil => simp at hlen
    | cons vecTwo restTwo =>
      have hd : vecOne.length = vecTwo.length := hdim (vecOne, vecTwo) (by simp)
      obtain ⟨b, hb, hiff⟩ := ih restTwo threshold (by simpa using hlen)
        (fun p hp => hdim p (by simp [hp]))
      simp only [vectorsConverged, squareOfEuclideanDistance_eq vecOne vecTwo hd]
      by_cases hgt : sqDist vecOne vecTwo > threshold
      · refine ⟨false, by simp [hgt], ?_⟩
        simp only [Bool.false_eq_true, false_iff, List.zip_cons_cons, List.mem_cons, not_forall]
        exact ⟨(vecOne, vecTwo), Or.inl rfl, fun h => h hgt⟩
      · refine ⟨b, by simp [hgt, hb], ?_⟩
        rw [hiff]
        simp only [List.zip_cons_cons, List.mem_cons, forall_eq_or_imp]
        exact ⟨fun h => ⟨hgt, h⟩, fun h => h.2⟩

/-- Over a linear order (exact arithmetic) the test of `vectorsConverged` is the
non-strict comparison: it returns `true` if and only if the squared distance of every
corresponding pair is `≤` the threshold. -/
theorem vectorsConverged_iff_le [Zero F] [Add F] [Sub F] [Mul F] [LinearOrder F]
    (vecSliceOne vecSliceTwo : List (List F)) (threshold : F)
    (hlen : vecSliceOne.length = vecSliceTwo.length)
    (hdim : ∀ p ∈ List.zip vecSliceOne vecSliceTwo, p.1.length = p.2.length) :
    ∃ b : Bool, vectorsConverged vecSliceOne vecSliceTwo threshold = some b ∧
      (b = true ↔ ∀ p ∈ List.zip vecSliceOne vecSliceTwo, sqDist p.1 p.2 ≤ threshold) := by
  obtain ⟨b, hb, hiff⟩ := vectorsConverged_aux vecSliceOne vecSliceTwo threshold hlen hdim
  refine ⟨b, hb, ?_⟩
  rw [hiff]
  constructor
  · intro h p hp; exact not_lt.mp (h p hp)
  · intro h p hp; exact not_lt.mpr (h p hp)

end Distance

/-! ## Theorems: aggregation by the coordinator -/

section Aggregation

variable {F : Type}

/-- What a successful `receiveAssignment` did: the count and the row of the assigned
centroid were found, the point was added to the row, and both were written back. -/
theorem receiveAssignment_eq_some [Add F] {acc acc' : Accumulator F}
    {a : CentroidAssignment F} :
    receiveAssignment acc a = some acc' ↔
      0 ≤ a.centroid ∧ ∃ (count : Nat) (row row' : List F),
        acc.assignments[a.centroid.toNat]? = some count ∧
        acc.newCentroids[a.centroid.toNat]? = some row ∧
        addPoint row a.point = some row' ∧
        acc' = { newCentroids := acc.newCentroids.set a.centroid.toNat row',
                 assignments := acc.assignments.set a.centroid.toNat (count + 1) } := by
  unfold receiveAssignment
  by_cases hneg : a.centroid < 0
  · simp only [hneg, if_true]
    constructor
    · intro h; cases h
    · rintro ⟨h0, _⟩; omega
  · simp only [hneg, if_false]
    have h0 : 0 ≤ a.centroid := by omega
    cases hA : acc.assignments[a.centroid.toNat]? with
    | none => simp [h0]
    | some count =>
      cases hN : acc.newCentroids[a.centroid.toNat]? with
      | none => simp [h0]
      | some row =>
        cases hP : addPoint row a.point with
        | none => simp [h0, hP]
        | some row' =>
          simp only [h0, true_and, hP, Option.some.injEq]
          constructor
          · intro h; exact ⟨count, row, row', rfl, rfl, hP, h.symm⟩
          · rintro ⟨count', row1, row1', hc, hr, hp, rfl⟩
            cases hc; cases hr
            rw [hP] at hp; cases hp
            rfl

/-- Adding two points to a row in either order gives the same row, when addition is
commutative and associative. -/
theorem addPoint_comm [AddCommMonoid F] (row : List F) :
    ∀ (p q r1 r2 : List F), addPoint row p = some r1 → addPoint r1 q = some r2 →
      ∃ r3, addPoint row q = some r3 ∧ addPoint r3 p = some r2 := by
  induction row with
  | nil =>
    intro p q r1 r2 h1 h2
    cases p with
    | nil =>
      simp only [addPoint, Option.some.injEq] at h1
      subst h1
      exact ⟨r2, h2, by cases r2 <;> rfl⟩
    | cons x p => simp [addPoint] at h1
  | cons c row ih =>
    intro p q r1 r2 h1 h2
    cases p with
    | nil =>
      simp only [addPoint, Option.some.injEq] at h1
      subst h1
      exact ⟨r2, h2, by cases r2 <;> rfl⟩
    | cons x p =>
      cases q with
      | nil =>
        have h2' : r1 = r2 := by
          cases r1 <;> simpa [addPoint] using h2
        subst h2'
        exact ⟨c :: row, rfl, h1⟩
      | cons y q =>
        simp only [addPoint] at h1
        cases ht1 : addPoint row p with
        | none => simp [ht1] at h1
        | some t1 =>
          simp only [ht1, Option.some.injEq] at h1
          subst h1
          simp only [addPoint] at h2
          cases ht2 : addPoint t1 q with
          | none => simp [ht2] at h2
          | some t2 =>
            simp only [ht2, Option.some.injEq] at h2
            subst h2
            obtain ⟨t3, h3, h4⟩ := ih p q t1 t2 ht1 ht2
            refine ⟨(c + y) :: t3, by simp [addPoint, h3], ?_⟩
            simp [addPoint, h4, add_right_comm]

/-- Two received assignments commute: if receiving `a` and then `b` succeeds, so does
receiving `b` and then `a`, with the same sums and counts. -/
theorem receiveAssignment_comm [AddCommMonoid F] {acc acc1 acc2 : Accumulator F}
    {a b : CentroidAssignment F}
    (h1 : receiveAssignment acc a = some acc1) (h2 : receiveAssignment acc1 b = some acc2) :
    ∃ acc3, receiveAssignment acc b = some acc3 ∧ receiveAssignment acc3 a = some acc2 := by
  obtain ⟨ha0, na, rowa, rowa', hAa, hNa, hPa, rfl⟩ := receiveAssignment_eq_some.mp h1
  obtain ⟨hb0, nb, rowb, rowb', hAb, hNb, hPb, rfl⟩ := receiveAssignment_eq_some.mp h2
  simp only at hAb hNb
  have hlenA : a.centroid.toNat < acc.assignments.length := by
    rcases List.getElem?_eq_some_iff.mp hAa with ⟨h, _⟩; exact h
  have hlenN : a.centroid.toNat < acc.newCentroids.length := by
    rcases List.getElem?_eq_some_iff.mp hNa with ⟨h, _⟩; exact h
  by_cases hab : a.centroid.toNat = b.centroid.toNat
  · rw [← hab] at hAb hNb ⊢
    rw [List.getElem?_set_self hlenA] at hAb
    rw [List.getElem?_set_self hlenN] at hNb
    cases hAb; cases hNb
    obtain ⟨r3, h3, h4⟩ := addPoint_comm rowa a.point b.point rowa' rowb' hPa hPb
    refine ⟨{ newCentroids := acc.newCentroids.set a.centroid.toNat r3,
              assignments := acc.assignments.set a.centroid.toNat (na + 1) }, ?_, ?_⟩
    · rw [receiveAssignment_eq_some]
      exact ⟨hb0, na, rowa, r3, by rw [← hab]; exact hAa, by rw [← hab]; exact hNa, h3,
        by rw [← hab]⟩
    · rw [receiveAssignment_eq_some]
      refine ⟨ha0, na + 1, r3, rowb', ?_, ?_, h4, ?_⟩
      · simp only; rw [List.getElem?_set_self hlenA]
      · simp only; rw [List.getElem?_set_self hlenN]
      · simp only [List.set_set]
  · rw [List.getElem?_set_ne hab] at hAb hNb
    refine ⟨{ newCentroids := acc.newCentroids.set b.centroid.toNat rowb',
              assignments := acc.assignments.set b.centroid.toNat (nb + 1) }, ?_, ?_⟩
    · rw [receiveAssignment_eq_some]
      exact ⟨hb0, nb, rowb, rowb', hAb, hNb, hPb, rfl⟩
    · rw [receiveAssignment_eq_some]
      refine ⟨ha0, na, rowa, rowa', ?_, ?_, hPa, ?_⟩
      · simp only; rw [List.getElem?_set_ne (Ne.symm hab)]; exact hAa
      · simp only; rw [List.getElem?_set_ne (Ne.symm hab)]; exact hNa
      · simp only
        rw [List.set_comm _ _ _ hab, List.set_comm _ _ _ hab]

/-- Receiving two assignments in either order has the same result, a panic included. -/
theorem receiveAssignments_swap [AddCommMonoid F] (acc : Accumulator F)
    (a b : CentroidAssignment F) (rest : List (CentroidAssignment F)) :
    receiveAssignments acc (a :: b :: rest) = receiveAssignments acc (b :: a :: rest) := by
  simp only [receiveAssignments]
  cases hA : receiveAssignment acc a with
  | none =>
    cases hB : receiveAssignment acc b with
    | none => rfl
    | some accB =>
      simp only
      cases hBA : receiveAssignment accB a with
      | none => rfl
      | some acc2 =>
        obtain ⟨acc3, h3, _⟩ := receiveAssignment_comm hB hBA
        rw [hA] at h3; cases h3
  | some accA =>
    simp only
    cases hAB : receiveAssignment accA b with
    | none =>
      cases hB : receiveAssignment acc b with
      | none => rfl
      | some accB =>
        simp only
        cases hBA : receiveAssignment accB a with
        | none => rfl
        | some acc2 =>
          obtain ⟨acc3, h3, h4⟩ := receiveAssignment_comm hB hBA
          rw [hA] at h3; cases h3
          rw [hAB] at h4; cases h4
    | some acc2 =>
      obtain ⟨acc3, h3, h4⟩ := receiveAssignment_comm hA hAB
      simp only [h3, h4]

/-- The receive loop does not depend on the arrival order when addition is
commutative and associative. -/
theorem receiveAssignments_perm [AddCommMonoid F] {arrivals arrivals' : List (CentroidAssignment F)}
    (hperm : arrivals.Perm arrivals') :
    ∀ acc : Accumulator F, receiveAssignments acc arrivals = receiveAssignments acc arrivals' := by
  induction hperm with
  | nil => intro acc; rfl
  | cons a _ ih =>
    intro acc
    simp only [receiveAssignments]
    cases receiveAssignment acc a with
    | none => rfl
    | some acc1 => exact ih acc1
  | swap a b rest => intro acc; exact receiveAssignments_swap acc b a rest
  | trans _ _ ih1 ih2 => intro acc; exact (ih1 acc).trans (ih2 acc)

end Aggregation

section Mean

variable {F : Type}

theorem addPoint_eq_zipWith [Add F] (row : List F) :
    ∀ point : List F, point.length = row.length →
      addPoint row point = some (List.zipWith (· + ·) row point) := by
  induction row with
  | nil =>
    intro point h
    cases point with
    | nil => rfl
    | cons x xs => simp at h
  | cons c row ih =>
    intro point h
    cases point with
    | nil => simp at h
    | cons x xs =>
      simp only [addPoint, ih xs (by simpa using h), List.zipWith_cons_cons]

theorem assignedTo_cons (a : CentroidAssignment F) (rest : List (CentroidAssignment F))
    (c : Nat) :
    assignedTo (a :: rest) c =
      if a.centroid = (c : Int) then a.point :: assignedTo rest c else assignedTo rest c := by
  unfold assignedTo
  by_cases h : a.centroid = (c : Int)
  · simp [List.filter_cons, h]
  · simp [List.filter_cons, h]

/-- The receive loop on well-formed assignments (indices in `[0, K)`, points of
dimension `D`): it does not panic, and afterwards row `c` is the old row plus the
points assigned to `c` and count `c` is the old count plus their number. -/
theorem receiveAssignments_rows [Add F] (K D : Nat) (arrivals : List (CentroidAssignment F)) :
    ∀ acc : Accumulator F,
      acc.newCentroids.length = K → acc.assignments.length = K →
      (∀ row ∈ acc.newCentroids, row.length = D) →
      (∀ a ∈ arrivals, 0 ≤ a.centroid ∧ a.centroid < K) →
      (∀ a ∈ arrivals, a.point.length = D) →
      ∃ acc', receiveAssignments acc arrivals = some acc' ∧
        acc'.newCentroids.length = K ∧ acc'.assignments.length = K ∧
        (∀ row ∈ acc'.newCentroids, row.length = D) ∧
        ∀ c : Nat, c < K →
          acc'.newCentroids[c]? = (acc.newCentroids[c]?).map
            (fun row => (assignedTo arrivals c).foldl (List.zipWith (· + ·)) row) ∧
          acc'.assignments[c]? = (acc.assignments[c]?).map
            (fun n => n + (assignedTo arrivals c).length) := by
  induction arrivals with
  | nil =>
    intro acc hN hA hrows _ _
    refine ⟨acc, rfl, hN, hA, hrows, fun c _ => ?_⟩
    constructor
    · cases acc.newCentroids[c]? <;> simp [assignedTo]
    · cases acc.assignments[c]? <;> simp [assignedTo]
  | cons a rest ih =>
    intro acc hN hA hrows hidx hdim
    obtain ⟨ha0, haK⟩ := hidx a (List.mem_cons_self _ _)
    have hca : a.centroid.toNat < K := by omega
    have hcaI : ((a.centroid.toNat : Nat) : Int) = a.centroid := Int.toNat_of_nonneg ha0
    obtain ⟨n, hlookA⟩ : ∃ n, acc.assignments[a.centroid.toNat]? = some n :=
      ⟨_, List.getElem?_eq_getElem (by omega)⟩
    obtain ⟨row, hlookN⟩ : ∃ row, acc.newCentroids[a.centroid.toNat]? = some row :=
      ⟨_, List.getElem?_eq_getElem (by omega)⟩
    have hrowlen : row.length = D := hrows _ (List.getElem?_mem hlookN)
    have hplen : a.point.length = D := hdim a (List.mem_cons_self _ _)
    have hadd := addPoint_eq_zipWith row a.point (by rw [hplen, hrowlen])
    have hstep : receiveAssignment acc a = some
        { newCentroids := acc.newCentroids.set a.centroid.toNat (List.zipWith (· + ·) row a.point),
          assignments := acc.assignments.set a.centroid.toNat (n + 1) } :=
      receiveAssignment_eq_some.mpr ⟨ha0, n, row, _, hlookA, hlookN, hadd, rfl⟩
    obtain ⟨acc', hrun, hN', hA', hrows', hget⟩ := ih
      { newCentroids := acc.newCentroids.set a.centroid.toNat (List.zipWith (· + ·) row a.point),
        assignments := acc.assignments.set a.centroid.toNat (n + 1) }
      (by simp [hN]) (by simp [hA])
      (by
        intro r hr
        rcases List.mem_or_eq_of_mem_set hr with h | h
        · exact hrows r h
        · rw [h, List.length_zipWith, hrowlen, hplen, Nat.min_self])
      (fun b hb => hidx b (List.mem_cons_of_mem _ hb))
      (fun b hb => hdim b (List.mem_cons_of_mem _ hb))
    refine ⟨acc', by simp only [receiveAssignments, hstep, hrun], hN', hA', hrows', ?_⟩
    intro c hc
    obtain ⟨hg1, hg2⟩ := hget c hc
    rw [hg1, hg2, assignedTo_cons]
    by_cases hcc : a.centroid.toNat = c
    · have hac : a.centroid = (c : Int) := by rw [← hcc]; exact hcaI.symm
      rw [if_pos hac]
      have hN1 : (acc.newCentroids.set a.centroid.toNat (List.zipWith (· + ·) row a.point))[c]? =
          some (List.zipWith (· + ·) row a.point) := by
        rw [← hcc]; exact List.getElem?_set_self (by omega)
      have hA1 : (acc.assignments.set a.centroid.toNat (n + 1))[c]? = some (n + 1) := by
        rw [← hcc]; exact List.getElem?_set_self (by omega)
      have hN0 : acc.newCentroids[c]? = some row := by rw [← hcc]; exact hlookN
      have hA0 : acc.assignments[c]? = some n := by rw [← hcc]; exact hlookA
      simp only [hN1, hA1, hN0, hA0, Option.map_some', List.foldl_cons, List.length_cons,
        Option.some.injEq, true_and]
      omega
    · have hac : ¬ a.centroid = (c : Int) := by
        intro h; apply hcc; rw [h]; simp
      rw [if_neg hac]
      simp only [List.getElem?_set_ne hcc]
      exact ⟨trivial, trivial⟩

/-- Coordinate `d` of the vector sum of a list of points of dimension `row.length`,
starting from `row`. -/
theorem foldl_zipWith_getElem? [Zero F] [Add F] (points : List (List F)) :
    ∀ (row : List F) (d : Nat), (∀ p ∈ points, p.length = row.length) → d < row.length →
      (points.foldl (List.zipWith (· + ·)) row)[d]? =
        some ((points.map (fun p => p.getD d 0)).foldl (· + ·) (row.getD d 0)) := by
  induction points with
  | nil =>
    intro row d _ hd
    simp [List.getElem?_eq_getElem hd]
  | cons p rest ih =>
    intro row d hlen hd
    have hp : p.length = row.length := hlen p (List.mem_cons_self _ _)
    have hz : (List.zipWith (· + ·) row p).length = row.length := by
      rw [List.length_zipWith, hp, Nat.min_self]
    simp only [List.foldl_cons, List.map_cons]
    rw [ih (List.zipWith (· + ·) row p) d
      (fun q hq => by rw [hz]; exact hlen q (List.mem_cons_of_mem _ hq)) (by rw [hz]; exact hd)]
    congr 2
    simp only [List.getD_eq_getElem?_getD, List.getElem?_zipWith,
      List.getElem?_eq_getElem hd, List.getElem?_eq_getElem (hp ▸ hd), Option.getD_some]

/-- The aggregation on well-formed assignments: no panic, `K` new centroids, and the
new centroid of every non-empty cluster is the coordinate-wise sum of its points
divided by their number. -/
theorem newCentroidsOf_mean_aux [Zero F] [Add F] [Div F] [NatCast F] (K D : Nat)
    (arrivals : List (CentroidAssignment F))
    (hidx : ∀ a ∈ arrivals, 0 ≤ a.centroid ∧ a.centroid < K)
    (hdim : ∀ a ∈ arrivals, a.point.length = D) :
    ∃ newCentroids : List (List F),
      newCentroidsOf K D arrivals = some newCentroids ∧ newCentroids.length = K ∧
      ∀ c : Nat, c < K → 1 ≤ (assignedTo arrivals c).length →
        newCentroids[c]? = some ((List.range D).map (fun d =>
          coordinateSum arrivals c d / (((assignedTo arrivals c).length : Nat) : F))) := by
  obtain ⟨acc', hrun, hN', hA', hrows', hget⟩ := receiveAssignments_rows K D arrivals
    { newCentroids := contiguous2DFloats K D, assignments := List.replicate K 0 }
    (by simp [contiguous2DFloats]) (by simp)
    (by
      intro row hrow
      simp only [contiguous2DFloats] at hrow
      rw [List.eq_of_mem_replicate hrow, List.length_replicate])
    hidx hdim
  refine ⟨averageCentroids acc', by simp only [newCentroidsOf, hrun], ?_, ?_⟩
  · simp [averageCentroids, hN', hA']
  · intro c hc _
    obtain ⟨hg1, hg2⟩ := hget c hc
    simp only [contiguous2DFloats, List.getElem?_replicate_of_lt hc, Option.map_some',
      Nat.zero_add] at hg1 hg2
    simp only [averageCentroids, List.getElem?_zipWith, hg1, hg2]
    congr 1
    have hall : ∀ p ∈ assignedTo arrivals c, p.length = (List.replicate D (0 : F)).length := by
      intro p hp
      simp only [assignedTo, List.mem_map, List.mem_filter] at hp
      obtain ⟨a, ⟨ha, _⟩, rfl⟩ := hp
      rw [List.length_replicate]; exact hdim a ha
    apply List.ext_getElem?
    intro d
    by_cases hd : d < D
    · rw [List.getElem?_map, foldl_zipWith_getElem? (assignedTo arrivals c)
        (List.replicate D 0) d hall (by rw [List.length_replicate]; exact hd)]
      simp only [List.getElem?_map, List.getElem?_range hd, Option.map_some', coordinateSum,
        List.getD_eq_getElem?_getD, List.getElem?_replicate_of_lt hd, Option.getD_some]
    · have hlen1 : ((assignedTo arrivals c).foldl (List.zipWith (· + ·))
          (List.replicate D (0 : F))).length = D := by
        obtain ⟨h, hrow⟩ := List.getElem?_eq_some_iff.mp hg1
        rw [← hrow]
        exact hrows' _ (List.getElem_mem h)
      rw [List.getElem?_eq_none (by simp [hlen1]; omega),
        List.getElem?_eq_none (by simp; omega)]

/-- Claim C6: in one coordinator iteration whose `N` assignments carry centroid
indices in `[0, K)` and points of dimension `D`, the new centroid set is computed
(no panic), has `K` centroids, and for every centroid `c` that is assigned at least
one point, coordinate `d` of the new centroid `c` is the sum of coordinate `d` of the
points assigned to `c` divided by the number of points assigned to `c`. -/
theorem newCentroidsOf_mean [Zero F] [Add F] [Div F] [NatCast F] (K D : Nat)
    (arrivals : List (CentroidAssignment F))
    (hidx : ∀ a ∈ arrivals, 0 ≤ a.centroid ∧ a.centroid < K)
    (hdim : ∀ a ∈ arrivals, a.point.length = D) :
    ∃ newCentroids : List (List F),
      newCentroidsOf K D arrivals = some newCentroids ∧ newCentroids.length = K ∧
      ∀ c : Nat, c < K → 1 ≤ (assignedTo arrivals c).length →
        newCentroids[c]? = some ((List.range D).map (fun d =>
          coordinateSum arrivals c d / (((assignedTo arrivals c).length : Nat) : F))) :=
  newCentroidsOf_mean_aux K D arrivals hidx hdim

/-- Witness for `newCentroidsOf_mean`: three one-dimensional points, two clusters. -/
theorem newCentroidsOf_mean_witness :
    (∀ a ∈ exampleArrivals, 0 ≤ a.centroid ∧ a.centroid < (2 : Nat)) ∧
    (∀ a ∈ exampleArrivals, a.point.length = 1) ∧
    ∃ newCentroids : List (List ℚ),
      newCentroidsOf 2 1 exampleArrivals = some newCentroids ∧ newCentroids.length = 2 ∧
      ∀ c : Nat, c < 2 → 1 ≤ (assignedTo exampleArrivals c).length →
        newCentroids[c]? = some ((List.range 1).map (fun d =>
          coordinateSum exampleArrivals c d /
            (((assignedTo exampleArrivals c).length : Nat) : ℚ))) :=
  ⟨by decide, by decide, newCentroidsOf_mean 2 1 exampleArrivals (by decide) (by decide)⟩

end Mean

section ArrivalOrder

variable {F : Type}

/-- Claim C10 (counterexample): on `float64` the three points `2^53`, `1`, `1` of one
cluster give the sum `2^53` when they arrive in this order (`2^53 + 1` rounds back to
`2^53`, twice) and the sum `2^53 + 2` when they arrive in the order `1`, `1`, `2^53`;
the accumulated sums and the new centroid differ between the two arrival orders. -/
theorem aggregation_order_counterexample :
    roundingArrivals.Perm roundingArrivalsPermuted ∧
      receiveAssignments { newCentroids := contiguous2DFloats 1 1, assignments := [0] }
          roundingArrivals =
        some { newCentroids := [[F64.fin false (2 ^ 52) 1]], assignments := [3] } ∧
      receiveAssignments { newCentroids := contiguous2DFloats 1 1, assignments := [0] }
          roundingArrivalsPermuted =
        some { newCentroids := [[F64.fin false (2 ^ 52 + 1) 1]], assignments := [3] } ∧
      newCentroidsOf 1 1 roundingArrivals ≠ newCentroidsOf 1 1 roundingArrivalsPermuted := by
  refine ⟨?_, by decide!, by decide!, by decide!⟩
  unfold roundingArrivals roundingArrivalsPermuted
  exact (List.Perm.swap _ _ _).trans (List.Perm.cons _ (List.Perm.swap _ _ _))

end ArrivalOrder

/-! ## Theorems: the coordinator loop -/

section FinalResult

variable {F : Type}

/-- When the convergence test of the next iteration succeeds, the loop ends with the
centroids it broadcast in that iteration and the incremented counter. -/
theorem mainLoop_of_converged [Zero F] [Add F] [Sub F] [Mul F] [Div F] [NatCast F] [LT F]
    [DecidableRel (α := F) (· < ·)]
    (maxFloat64 threshold : F) (numClusters numWorkers : Nat) (points : List (List F))
    (sched : Nat → Nat → Nat) (fuel iterations : Nat) (centroids newCentroids : List (List F))
    (h : iteration maxFloat64 threshold numClusters numWorkers points (sched (iterations + 1))
      centroids = some (newCentroids, true)) :
    mainLoop maxFloat64 threshold numClusters numWorkers points sched (fuel + 1) iterations
      centroids = Outcome.converged centroids (iterations + 1) := by
  simp only [mainLoop, h, if_true]

/-- Whenever the loop converges, the centroids it yields were the broadcast centroids
of the iteration it counts last, and the convergence test of that iteration
succeeded. -/
theorem mainLoop_converged_inv [Zero F] [Add F] [Sub F] [Mul F] [Div F] [NatCast F] [LT F]
    [DecidableRel (α := F) (· < ·)]
    (maxFloat64 threshold : F) (numClusters numWorkers : Nat) (points : List (List F))
    (sched : Nat → Nat → Nat) (fuel : Nat) :
    ∀ (iterations : Nat) (centroids final : List (List F)) (count : Nat),
      mainLoop maxFloat64 threshold numClusters numWorkers points sched fuel iterations
        centroids = Outcome.converged final count →
      iterations < count ∧ count ≤ iterations + fuel ∧
        ∃ newCentroids, iteration maxFloat64 threshold numClusters numWorkers points
          (sched count) final = some (newCentroids, true) := by
  induction fuel with
  | zero => intro iterations centroids final count h; simp [mainLoop] at h
  | succ fuel ih =>
    intro iterations centroids final count h
    simp only [mainLoop] at h
    cases hit : iteration maxFloat64 threshold numClusters numWorkers points
        (sched (iterations + 1)) centroids with
    | none => simp [hit] at h
    | some res =>
      obtain ⟨newCentroids, converged⟩ := res
      simp only [hit] at h
      cases converged with
      | true =>
        simp only [if_true, Outcome.converged.injEq] at h
        obtain ⟨h1, h2⟩ := h
        subst h1; subst h2
        exact ⟨by omega, by omega, newCentroids, hit⟩
      | false =>
        simp only [Bool.false_eq_true, if_false] at h
        obtain ⟨h1, h2, h3⟩ := ih (iterations + 1) newCentroids final count h
        exact ⟨by omega, by omega, h3⟩

/-- Claim C7 (counterexample): for the points `0` and `2`, one cluster, one worker,
seed `0` (initial centroid `0`) and threshold `4`, the first iteration computes the
new centroid `1`, the convergence test succeeds, and the run ends with the centroid
`0` that was broadcast at the start of the iteration, not with the new centroid `1`. -/
theorem final_centroids_counterexample :
    firstCentroids 1 twoPoints 0 = some [[0]] ∧
      iteration F64.maxFloat64 (F64.ofNat 4) 1 1 twoPoints (fun _ => 0) [[0]] =
        some ([[F64.ofNat 1]], true) ∧
      cluster F64.maxFloat64 (F64.ofNat 4) 1 1 0 twoPoints (fun _ _ => 0) 1 =
        Outcome.converged [[0]] 1 ∧
      ([[0]] : List (List F64)) ≠ [[F64.ofNat 1]] := by
  decide!

/-- Claim C7 (as amended): when the convergence test succeeds in an iteration, the
loop yields the centroid set that was broadcast at the start of that iteration (the
new centroid set computed in it is not adopted), together with the iteration count,
which includes that iteration; and every result the loop yields arises this way. -/
theorem mainLoop_yields_broadcast_centroids [Zero F] [Add F] [Sub F] [Mul F] [Div F]
    [NatCast F] [LT F] [DecidableRel (α := F) (· < ·)]
    (maxFloat64 threshold : F) (numClusters numWorkers : Nat) (points : List (List F))
    (sched : Nat → Nat → Nat) (fuel iterations : Nat) (centroids : List (List F)) :
    (∀ newCentroids : List (List F),
      iteration maxFloat64 threshold numClusters numWorkers points (sched (iterations + 1))
        centroids = some (newCentroids, true) →
      mainLoop maxFloat64 threshold numClusters numWorkers points sched (fuel + 1) iterations
        centroids = Outcome.converged centroids (iterations + 1)) ∧
    (∀ (final : List (List F)) (count : Nat),
      mainLoop maxFloat64 threshold numClusters numWorkers points sched fuel iterations
        centroids = Outcome.converged final count →
      iterations < count ∧ count ≤ iterations + fuel ∧
        ∃ newCentroids, iteration maxFloat64 threshold numClusters numWorkers points
          (sched count) final = some (newCentroids, true)) :=
  ⟨fun newCentroids h => mainLoop_of_converged maxFloat64 threshold numClusters numWorkers
      points sched fuel iterations centroids newCentroids h,
    fun final count h => mainLoop_converged_inv maxFloat64 threshold numClusters numWorkers
      points sched fuel iterations centroids final count h⟩

/-- Witness for `mainLoop_yields_broadcast_centroids`: the run on the points `0` and
`2` with threshold `4`. -/
theorem mainLoop_yields_broadcast_centroids_witness :
    iteration F64.maxFloat64 (F64.ofNat 4) 1 1 twoPoints (fun _ => 0) [[0]] =
        some ([[F64.ofNat 1]], true) ∧
      mainLoop F64.maxFloat64 (F64.ofNat 4) 1 1 twoPoints (fun _ _ => 0) (0 + 1) 0 [[0]] =
        Outcome.converged [[0]] (0 + 1) :=
  ⟨by decide!,
    (mainLoop_yields_broadcast_centroids F64.maxFloat64 (F64.ofNat 4) 1 1 twoPoints
      (fun _ _ => 0) 0 0 [[0]]).1 [[F64.ofNat 1]] (by decide!)⟩

end FinalResult

/-! ## Theorems: the assignment channel and the worker blocks -/

section ChannelLemmas

variable {α : Type}

theorem liveQueues_nil_cons (queues : List (List α)) :
    liveQueues ([] :: queues) = liveQueues queues := by
  simp [liveQueues]

theorem liveQueues_cons_cons (b : α) (queue : List α) (queues : List (List α)) :
    liveQueues ((b :: queue) :: queues) = liveQueues queues + 1 := by
  simp [liveQueues]

/-- Popping a queue takes one element out of the pending assignments. -/
theorem popQueue_perm (queues : List (List α)) :
    ∀ (i : Nat) (a : α) (rest : List (List α)), popQueue i queues = some (a, rest) →
      queues.flatten.Perm (a :: rest.flatten) := by
  induction queues with
  | nil => intro i a rest h; simp [popQueue] at h
  | cons queue queues ih =>
    intro i a rest h
    cases queue with
    | nil =>
      simp only [popQueue] at h
      cases hp : popQueue i queues with
      | none => simp [hp] at h
      | some res =>
        obtain ⟨a', rest'⟩ := res
        simp only [hp, Option.some.injEq, Prod.mk.injEq] at h
        obtain ⟨rfl, rfl⟩ := h
        simpa using ih i a' rest' hp
    | cons b queue =>
      cases i with
      | zero =>
        simp only [popQueue, Option.some.injEq, Prod.mk.injEq] at h
        obtain ⟨rfl, rfl⟩ := h
        simp
      | succ i =>
        simp only [popQueue] at h
        cases hp : popQueue i queues with
        | none => simp [hp] at h
        | some res =>
          obtain ⟨a', rest'⟩ := res
          simp only [hp, Option.some.injEq, Prod.mk.injEq] at h
          obtain ⟨rfl, rfl⟩ := h
          have h1 := ih i a' rest' hp
          simp only [List.flatten_cons]
          exact (List.Perm.append_left (b :: queue) h1).trans List.perm_middle

/-- A pick below the number of non-empty queues pops an element. -/
theorem popQueue_isSome (queues : List (List α)) :
    ∀ i : Nat, i < liveQueues queues → ∃ a rest, popQueue i queues = some (a, rest) := by
  induction queues with
  | nil => intro i h; simp [liveQueues] at h
  | cons queue queues ih =>
    intro i h
    cases queue with
    | nil =>
      rw [liveQueues_nil_cons] at h
      obtain ⟨a, rest, hp⟩ := ih i h
      exact ⟨a, [] :: rest, by simp [popQueue, hp]⟩
    | cons b queue =>
      rw [liveQueues_cons_cons] at h
      cases i with
      | zero => exact ⟨b, queue :: queues, rfl⟩
      | succ i =>
        obtain ⟨a, rest, hp⟩ := ih i (by omega)
        exact ⟨a, (b :: queue) :: rest, by simp [popQueue, hp]⟩

theorem liveQueues_pos (queues : List (List α)) (h : 0 < queues.flatten.length) :
    0 < liveQueues queues := by
  induction queues with
  | nil => simp at h
  | cons queue queues ih =>
    cases queue with
    | nil => rw [liveQueues_nil_cons]; exact ih (by simpa using h)
    | cons b queue => rw [liveQueues_cons_cons]; omega

/-- Whatever the scheduling oracle, receiving as many assignments as the workers send
yields a permutation of what they send. -/
theorem receiveFrom_perm (count : Nat) :
    ∀ (pick : Nat → Nat) (queues : List (List α)), queues.flatten.length = count →
      (receiveFrom count pick queues).Perm queues.flatten := by
  induction count with
  | zero =>
    intro pick queues h
    rw [List.length_eq_zero.mp h]
    exact List.Perm.refl _
  | succ count ih =>
    intro pick queues h
    have hlive : 0 < liveQueues queues := liveQueues_pos queues (by omega)
    obtain ⟨a, rest, hp⟩ := popQueue_isSome queues (pick 0 % liveQueues queues)
      (Nat.mod_lt _ hlive)
    have hperm := popQueue_perm queues _ a rest hp
    have hlen : rest.flatten.length = count := by
      have := hperm.length_eq
      simp only [List.length_cons] at this
      omega
    simp only [receiveFrom, hp]
    exact ((ih (fun k => pick (k + 1)) rest hlen).cons a).trans hperm.symm

end ChannelLemmas

section Blocks

variable {F : Type}

theorem pointsWorker_append [Zero F] [Add F] [Sub F] [Mul F] [LT F]
    [DecidableRel (α := F) (· < ·)] (maxFloat64 : F) (centroids : List (List F))
    (xs ys : List (List F)) :
    pointsWorker maxFloat64 centroids (xs ++ ys) =
      match pointsWorker maxFloat64 centroids xs with
      | none => none
      | some qx =>
        match pointsWorker maxFloat64 centroids ys with
        | none => none
        | some qy => some (qx ++ qy) := by
  induction xs with
  | nil =>
    simp only [List.nil_append, pointsWorker]
    cases pointsWorker maxFloat64 centroids ys <;> rfl
  | cons x xs ih =>
    simp only [List.cons_append, pointsWorker, List.append_eq]
    rw [ih]
    cases assignPoint maxFloat64 centroids x <;>
      cases pointsWorker maxFloat64 centroids xs <;>
      cases pointsWorker maxFloat64 centroids ys <;> simp

theorem pointsWorker_length [Zero F] [Add F] [Sub F] [Mul F] [LT F]
    [DecidableRel (α := F) (· < ·)] (maxFloat64 : F) (centroids : List (List F))
    (points : List (List F)) :
    ∀ queue, pointsWorker maxFloat64 centroids points = some queue →
      queue.length = points.length := by
  induction points with
  | nil => intro queue h; simp only [pointsWorker, Option.some.injEq] at h; subst h; rfl
  | cons x xs ih =>
    intro queue h
    simp only [pointsWorker] at h
    cases ha : assignPoint maxFloat64 centroids x with
    | none => simp [ha] at h
    | some a =>
      cases hq : pointsWorker maxFloat64 centroids xs with
      | none => simp [ha, hq] at h
      | some rest =>
        simp only [ha, hq, Option.some.injEq] at h
        subst h
        simp [ih rest hq]

/-- The queues of the workers, put one after the other, are what a single worker
would send for all the points of the blocks. -/
theorem workerQueues_flatten [Zero F] [Add F] [Sub F] [Mul F] [LT F]
    [DecidableRel (α := F) (· < ·)] (maxFloat64 : F) (centroids : List (List F))
    (blocks : List (List (List F))) :
    (workerQueues maxFloat64 centroids blocks).map List.flatten =
      pointsWorker maxFloat64 centroids blocks.flatten := by
  induction blocks with
  | nil => rfl
  | cons block blocks ih =>
    simp only [workerQueues, List.flatten_cons, pointsWorker_append]
    rw [← ih]
    cases pointsWorker maxFloat64 centroids block <;>
      cases workerQueues maxFloat64 centroids blocks <;> simp

end Blocks

section BlocksCover

variable {F : Type}

theorem getIndexes_fst_zero (N W : Int) (hW : 1 ≤ W) (hN : 0 ≤ N) : (getIndexes N W 0).1 = 0 := by
  rw [getIndexes_fst N W 0 hW hN]
  have : 0 ≤ N % W := Int.emod_nonneg N (by omega)
  simp [this]

/-- The block of worker `b` is the part of the points between the start index of
worker `b` and the start index of worker `b + 1`. -/
theorem workerBlock_eq (points : List (List F)) (W b : Nat) (hW : 1 ≤ W) (hb : b < W) :
    workerBlock points W b =
      some ((points.drop (getIndexes points.length W b).1.toNat).take
        ((getIndexes points.length W (b + 1 : Nat)).1.toNat -
          (getIndexes points.length W b).1.toNat)) := by
  have hWi : (1 : Int) ≤ (W : Int) := by exact_mod_cast hW
  have hNi : (0 : Int) ≤ (points.length : Int) := Int.ofNat_nonneg _
  have h0 : 0 ≤ (getIndexes points.length W b).1 := by
    have := getIndexes_fst_mono points.length W 0 b hWi hNi (Int.ofNat_nonneg _)
    rwa [getIndexes_fst_zero _ _ hWi hNi] at this
  have hsnd : (getIndexes points.length W b).2 = (getIndexes points.length W (b + 1 : Nat)).1 := by
    rw [getIndexes_snd _ _ _ hWi hNi]; push_cast; rfl
  have h1 : (getIndexes points.length W b).1 ≤ (getIndexes points.length W (b + 1 : Nat)).1 :=
    getIndexes_fst_mono _ _ _ _ hWi hNi (by push_cast; omega)
  have h2 : (getIndexes points.length W (b + 1 : Nat)).1 ≤ points.length := by
    have := getIndexes_fst_mono points.length W (b + 1 : Nat) W hWi hNi (by exact_mod_cast hb)
    rwa [getIndexes_fst_last _ _ hWi hNi] at this
  unfold workerBlock
  simp only [hsnd]
  rw [if_pos ⟨h0, h1, h2⟩]

/-- The blocks of the workers `b, ..., b + remaining - 1`, one after the other, are
the points between the start index of `b` and the start index of `b + remaining`. -/
theorem workerBlocksFrom_flatten (points : List (List F)) (W : Nat) (hW : 1 ≤ W)
    (remaining : Nat) :
    ∀ b : Nat, b + remaining ≤ W →
      ∃ blocks, workerBlocksFrom points W remaining b = some blocks ∧
        blocks.flatten = (points.drop (getIndexes points.length W b).1.toNat).take
          ((getIndexes points.length W (b + remaining : Nat)).1.toNat -
            (getIndexes points.length W b).1.toNat) := by
  have hWi : (1 : Int) ≤ (W : Int) := by exact_mod_cast hW
  have hNi : (0 : Int) ≤ (points.length : Int) := Int.ofNat_nonneg _
  induction remaining with
  | zero => intro b _; exact ⟨[], rfl, by simp⟩
  | succ r ih =>
    intro b hb
    obtain ⟨rest, hrest, hflat⟩ := ih (b + 1) (by omega)
    have h0 : 0 ≤ (getIndexes points.length W b).1 := by
      have := getIndexes_fst_mono points.length W 0 b hWi hNi (Int.ofNat_nonneg _)
      rwa [getIndexes_fst_zero _ _ hWi hNi] at this
    have h1 : (getIndexes points.length W b).1 ≤ (getIndexes points.length W (b + 1 : Nat)).1 :=
      getIndexes_fst_mono _ _ _ _ hWi hNi (by push_cast; omega)
    have h2 : (getIndexes points.length W (b + 1 : Nat)).1 ≤
        (getIndexes points.length W (b + 1 + r : Nat)).1 :=
      getIndexes_fst_mono _ _ _ _ hWi hNi (by push_cast; omega)
    have hbr : b + (r + 1) = b + 1 + r := by omega
    refine ⟨((points.drop (getIndexes points.length W b).1.toNat).take
        ((getIndexes points.length W (b + 1 : Nat)).1.toNat -
          (getIndexes points.length W b).1.toNat)) :: rest, ?_, ?_⟩
    · simp only [workerBlocksFrom, workerBlock_eq points W b hW (by omega), hrest]
    · rw [List.flatten_cons, hflat, hbr]
      generalize (getIndexes points.length W b).1 = s0 at h0 h1 ⊢
      generalize (getIndexes points.length W (b + 1 : Nat)).1 = s1 at h1 h2 ⊢
      generalize (getIndexes points.length W (b + 1 + r : Nat)).1 = s2 at h2 ⊢
      have e1 : s2.toNat - s0.toNat = (s1.toNat - s0.toNat) + (s2.toNat - s1.toNat) := by omega
      have e2 : s1.toNat = s0.toNat + (s1.toNat - s0.toNat) := by omega
      rw [e1, List.take_add, List.drop_drop, ← e2]

/-- For `1 ≤ W` the blocks of the `W` workers exist and, one after the other,
are exactly the point set. -/
theorem workerBlocks_flatten (points : List (List F)) (W : Nat) (hW : 1 ≤ W) :
    ∃ blocks, workerBlocks points W = some blocks ∧ blocks.flatten = points := by
  have hWi : (1 : Int) ≤ (W : Int) := by exact_mod_cast hW
  have hNi : (0 : Int) ≤ (points.length : Int) := Int.ofNat_nonneg _
  obtain ⟨blocks, hb, hflat⟩ := workerBlocksFrom_flatten points W hW W 0 (by omega)
  refine ⟨blocks, hb, ?_⟩
  rw [hflat]
  have e0 : (getIndexes points.length W (0 : Nat)).1 = 0 := by
    have := getIndexes_fst_zero points.length W hWi hNi
    simpa using this
  have eW : (getIndexes points.length W (0 + W : Nat)).1 = points.length := by
    rw [Nat.zero_add]; exact getIndexes_fst_last _ _ hWi hNi
  rw [e0, eW]
  simp

end BlocksCover

section WorkerCount

variable {F : Type}

/-- With commutative and associative addition an iteration of the coordinator does
what a single worker sending the assignments in point order would make it do,
whatever the number of workers and the scheduling oracle. -/
theorem iteration_eq_sequential [AddCommMonoid F] [Sub F] [Mul F] [Div F] [NatCast F] [LT F]
    [DecidableRel (α := F) (· < ·)]
    (maxFloat64 threshold : F) (numClusters numWorkers : Nat) (points : List (List F))
    (pick : Nat → Nat) (centroids : List (List F)) (hW : 1 ≤ numWorkers) :
    iteration maxFloat64 threshold numClusters numWorkers points pick centroids =
      match points with
      | [] => none
      | first :: _ =>
        match pointsWorker maxFloat64 centroids points with
        | none => none
        | some arrivals => coordinate threshold numClusters first.length centroids arrivals := by
  cases points with
  | nil => rfl
  | cons first rest =>
    obtain ⟨blocks, hblocks, hflat⟩ := workerBlocks_flatten (first :: rest) numWorkers hW
    have hq := workerQueues_flatten maxFloat64 centroids blocks
    rw [hflat] at hq
    simp only [iteration, hblocks]
    cases hw : workerQueues maxFloat64 centroids blocks with
    | none =>
      rw [hw] at hq
      simp only [Option.map_none'] at hq
      simp only [← hq]
    | some queues =>
      rw [hw] at hq
      simp only [Option.map_some'] at hq
      have hlen : queues.flatten.length = (first :: rest).length :=
        pointsWorker_length maxFloat64 centroids (first :: rest) _ hq.symm
      have hperm := receiveFrom_perm (first :: rest).length pick queues hlen
      have hnew : coordinate threshold numClusters first.length centroids
          (receiveFrom (first :: rest).length pick queues) =
          coordinate threshold numClusters first.length centroids queues.flatten := by
        simp only [coordinate, newCentroidsOf, receiveAssignments_perm hperm]
      simp only [← hq, hnew]

/-- Claim C9 (counterexample): on `float64`, for the points `2^53`, `1`, `1`, one
cluster, seed `0` and threshold `1`, the run with one worker ends after 2 iterations
with the centroid `6004799503160661 / 2`, while a run with three workers in which
the assignments of the two points `1` arrive first ends after 2 iterations with the
centroid `6004799503160663 / 2`. -/
theorem worker_count_counterexample :
    cluster F64.maxFloat64 (F64.ofNat 1) 1 1 0 roundingPoints (fun _ _ => 0) 2 =
        Outcome.converged [[F64.fin false 6004799503160661 (-1)]] 2 ∧
      cluster F64.maxFloat64 (F64.ofNat 1) 1 3 0 roundingPoints (fun _ _ => 1) 2 =
        Outcome.converged [[F64.fin false 6004799503160663 (-1)]] 2 := by
  decide!

end WorkerCount

section Scenario

/-- The arrival orders of two workers that send two assignments each. -/
theorem receiveFrom_two_two {α : Type} (a b c d : α) (pick : Nat → Nat) :
    receiveFrom 4 pick [[a, b], [c, d]] ∈
      [[a, b, c, d], [a, c, b, d], [a, c, d, b], [c, a, b, d], [c, a, d, b], [c, d, a, b]] := by
  rcases Nat.mod_two_eq_zero_or_one (pick 0) with h0 | h0 <;>
    rcases Nat.mod_two_eq_zero_or_one (pick 1) with h1 | h1 <;>
    rcases Nat.mod_two_eq_zero_or_one (pick 2) with h2 | h2 <;>
    simp [receiveFrom, liveQueues, popQueue, h0, h1, h2, Nat.mod_one]

/-- An iteration, once the blocks and the queues of the workers are known. -/
theorem iteration_of_queues {F : Type} [Zero F] [Add F] [Sub F] [Mul F] [Div F] [NatCast F]
    [LT F] [DecidableRel (α := F) (· < ·)]
    (maxFloat64 threshold : F) (numClusters numWorkers : Nat) (points : List (List F))
    (pick : Nat → Nat) (centroids : List (List F)) (first : List F) (rest : List (List F))
    (blocks : List (List (List F))) (queues : List (List (CentroidAssignment F)))
    (hpoints : points = first :: rest) (hblocks : workerBlocks points numWorkers = some blocks)
    (hqueues : workerQueues maxFloat64 centroids blocks = some queues) :
    iteration maxFloat64 threshold numClusters numWorkers points pick centroids =
      coordinate threshold numClusters first.length centroids
        (receiveFrom points.length pick queues) := by
  subst hpoints
  simp only [iteration, hblocks, hqueues]

/-- When the convergence test of the next iteration fails, the loop goes on with the
new centroids and the incremented counter. -/
theorem mainLoop_of_not_converged {F : Type} [Zero F] [Add F] [Sub F] [Mul F] [Div F]
    [NatCast F] [LT F] [DecidableRel (α := F) (· < ·)]
    (maxFloat64 threshold : F) (numClusters numWorkers : Nat) (points : List (List F))
    (sched : Nat → Nat → Nat) (fuel iterations : Nat) (centroids newCentroids : List (List F))
    (h : iteration maxFloat64 threshold numClusters numWorkers points (sched (iterations + 1))
      centroids = some (newCentroids, false)) :
    mainLoop maxFloat64 threshold numClusters numWorkers points sched (fuel + 1) iterations
        centroids =
      mainLoop maxFloat64 threshold numClusters numWorkers points sched fuel (iterations + 1)
        newCentroids := by
  simp only [mainLoop, h, Bool.false_eq_true, if_false]

/-- First iteration of the scenario: whatever the arrival order, the new centroids
are `(0,1)` and `(10,1)` and the convergence test fails. -/
theorem scenario_first_iteration (pick : Nat → Nat) :
    iteration F64.maxFloat64 scenarioThreshold 2 2 fourPoints pick scenarioInitial =
      some (scenarioFinal, false) := by
  rw [iteration_of_queues F64.maxFloat64 scenarioThreshold 2 2 fourPoints pick scenarioInitial
    [0, 0] [[0, F64.ofNat 2], [F64.ofNat 10, 0], [F64.ofNat 10, F64.ofNat 2]]
    [[[0, 0], [0, F64.ofNat 2]], [[F64.ofNat 10, 0], [F64.ofNat 10, F64.ofNat 2]]]
    [[{ point := [0, 0], centroid := 0 }, { point := [0, F64.ofNat 2], centroid := 0 }],
      [{ point := [F64.ofNat 10, 0], centroid := 1 },
        { point := [F64.ofNat 10, F64.ofNat 2], centroid := 1 }]]
    rfl (by decide!) (by decide!)]
  have hall : ∀ arrivals ∈
      [[{ point := [0, 0], centroid := 0 }, { point := [0, F64.ofNat 2], centroid := 0 },
          { point := [F64.ofNat 10, 0], centroid := 1 },
          { point := [F64.ofNat 10, F64.ofNat 2], centroid := 1 }],
        [{ point := [0, 0], centroid := 0 }, { point := [F64.ofNat 10, 0], centroid := 1 },
          { point := [0, F64.ofNat 2], centroid := 0 },
          { point := [F64.ofNat 10, F64.ofNat 2], centroid := 1 }],
        [{ point := [0, 0], centroid := 0 }, { point := [F64.ofNat 10, 0], centroid := 1 },
          { point := [F64.ofNat 10, F64.ofNat 2], centroid := 1 },
          { point := [0, F64.ofNat 2], centroid := 0 }],
        [{ point := [F64.ofNat 10, 0], centroid := 1 }, { point := [0, 0], centroid := 0 },
          { point := [0, F64.ofNat 2], centroid := 0 },
          { point := [F64.ofNat 10, F64.ofNat 2], centroid := 1 }],
        [{ point := [F64.ofNat 10, 0], centroid := 1 }, { point := [0, 0], centroid := 0 },
          { point := [F64.ofNat 10, F64.ofNat 2], centroid := 1 },
          { point := [0, F64.ofNat 2], centroid := 0 }],
        [{ point := [F64.ofNat 10, 0], centroid := 1 },
          { point := [F64.ofNat 10, F64.ofNat 2], centroid := 1 },
          { point := [0, 0], centroid := 0 },
          ({ point := [0, F64.ofNat 2], centroid := 0 } : CentroidAssignment F64)]],
      coordinate scenarioThreshold 2 2 scenarioInitial arrivals =
        some (scenarioFinal, false) := by
    decide!
  have h4 : fourPoints.length = 4 := rfl
  have h2 : ([0, 0] : List F64).length = 2 := rfl
  rw [h4, h2]
  exact hall _ (receiveFrom_two_two _ _ _ _ pick)

/-- Second iteration of the scenario: whatever the arrival order, the new centroids
are again `(0,1)` and `(10,1)` and the convergence test succeeds. -/
theorem scenario_second_iteration (pick : Nat → Nat) :
    iteration F64.maxFloat64 scenarioThreshold 2 2 fourPoints pick scenarioFinal =
      some (scenarioFinal, true) := by
  rw [iteration_of_queues F64.maxFloat64 scenarioThreshold 2 2 fourPoints pick scenarioFinal
    [0, 0] [[0, F64.ofNat 2], [F64.ofNat 10, 0], [F64.ofNat 10, F64.ofNat 2]]
    [[[0, 0], [0, F64.ofNat 2]], [[F64.ofNat 10, 0], [F64.ofNat 10, F64.ofNat 2]]]
    [[{ point := [0, 0], centroid := 0 }, { point := [0, F64.ofNat 2], centroid := 0 }],
      [{ point := [F64.ofNat 10, 0], centroid := 1 },
        { point := [F64.ofNat 10, F64.ofNat 2], centroid := 1 }]]
    rfl (by decide!) (by decide!)]
  have hall : ∀ arrivals ∈
      [[{ point := [0, 0], centroid := 0 }, { point := [0, F64.ofNat 2], centroid := 0 },
          { point := [F64.ofNat 10, 0], centroid := 1 },
          { point := [F64.ofNat 10, F64.ofNat 2], centroid := 1 }],
        [{ point := [0, 0], centroid := 0 }, { point := [F64.ofNat 10, 0], centroid := 1 },
          { point := [0, F64.ofNat 2], centroid := 0 },
          { point := [F64.ofNat 10, F64.ofNat 2], centroid := 1 }],
        [{ point := [0, 0], centroid := 0 }, { point := [F64.ofNat 10, 0], centroid := 1 },
          { point := [F64.ofNat 10, F64.ofNat 2], centroid := 1 },
          { point := [0, F64.ofNat 2], centroid := 0 }],
        [{ point := [F64.ofNat 10, 0], centroid := 1 }, { point := [0, 0], centroid := 0 },
          { point := [0, F64.ofNat 2], centroid := 0 },
          { point := [F64.ofNat 10, F64.ofNat 2], centroid := 1 }],
        [{ point := [F64.ofNat 10, 0], centroid := 1 }, { point := [0, 0], centroid := 0 },
          { point := [F64.ofNat 10, F64.ofNat 2], centroid := 1 },
          { point := [0, F64.ofNat 2], centroid := 0 }],
        [{ point := [F64.ofNat 10, 0], centroid := 1 },
          { point := [F64.ofNat 10, F64.ofNat 2], centroid := 1 },
          { point := [0, 0], centroid := 0 },
          ({ point := [0, F64.ofNat 2], centroid := 0 } : CentroidAssignment F64)]],
      coordinate scenarioThreshold 2 2 scenarioFinal arrivals =
        some (scenarioFinal, true) := by
    decide!
  have h4 : fourPoints.length = 4 := rfl
  have h2 : ([0, 0] : List F64).length = 2 := rfl
  rw [h4, h2]
  exact hall _ (receiveFrom_two_two _ _ _ _ pick)

/-- Claim C8 (counterexample): in the scenario (initial centroids `points[0]` and
`points[2]`, threshold `1e-6`, two workers) the loop is still running after one
iteration, because the first convergence test compares the initial centroids with
`(0,1)`, `(10,1)` at squared distance `1`; it ends in the second iteration, with
iteration count 2, not 1. -/
theorem scenario_iterations_counterexample :
    mainLoop F64.maxFloat64 scenarioThreshold 2 2 fourPoints (fun _ _ => 0) 1 0 scenarioInitial =
        Outcome.running ∧
      mainLoop F64.maxFloat64 scenarioThreshold 2 2 fourPoints (fun _ _ => 0) 2 0
        scenarioInitial = Outcome.converged scenarioFinal 2 := by
  decide!

/-- Claim C8 (as amended): for the points `(0,0)`, `(0,2)`, `(10,0)`, `(10,2)`, `K = 2`,
initial centroids `points[0]` and `points[2]`, threshold `1e-6` and `W = 2`, whatever
the arrival order of the assignments, the coordinator loop converges in exactly 2
iterations and its final centroids are `(0,1)` and `(10,1)`, in that order. -/
theorem scenario_two_iterations (sched : Nat → Nat → Nat) (fuel : Nat) :
    mainLoop F64.maxFloat64 scenarioThreshold 2 2 fourPoints sched (fuel + 2) 0 scenarioInitial =
      Outcome.converged scenarioFinal 2 := by
  rw [mainLoop_of_not_converged F64.maxFloat64 scenarioThreshold 2 2 fourPoints sched
    (fuel + 1) 0 scenarioInitial scenarioFinal (scenario_first_iteration _)]
  exact mainLoop_of_converged F64.maxFloat64 scenarioThreshold 2 2 fourPoints sched fuel 1
    scenarioFinal scenarioFinal (scenario_second_iteration _)

end Scenario

/-! ## Theorems: nearest centroid over exact arithmetic -/

section Nearest

variable {F : Type}

/-- Invariant of the loop over the centroids in `pointsWorker`: after the centroids
`seen`, either nothing below `maxFloat64` was found and the index is still `-1`, or
the index is the argmin over `seen` (ties to the lowest index) and the running
minimum is its squared distance, below `maxFloat64`. -/
theorem nearestCentroidLoop_inv [Zero F] [Add F] [Sub F] [Mul F] [LinearOrder F]
    (maxFloat64 : F) (point : List F) (rest : List (List F)) :
    ∀ (seen : List (List F)) (minimum : F) (centroid : Int),
      (∀ c ∈ rest, point.length = c.length) →
      ((centroid = -1 ∧ minimum = maxFloat64 ∧ ∀ c ∈ seen, ¬ sqDist point c < maxFloat64) ∨
        (∃ i : Nat, centroid = (i : Int) ∧ minimum < maxFloat64 ∧
          ∃ c, seen[i]? = some c ∧ minimum = sqDist point c ∧
            ∀ (j : Nat) (c' : List F), seen[j]? = some c' →
              minimum ≤ sqDist point c' ∧ (j < i → minimum < sqDist point c'))) →
      ∃ result : Int, nearestCentroidLoop point seen.length minimum centroid rest = some result ∧
        ((result = -1 ∧ ∀ c ∈ seen ++ rest, ¬ sqDist point c < maxFloat64) ∨
          (∃ i : Nat, result = (i : Int) ∧
            ∃ c, (seen ++ rest)[i]? = some c ∧ sqDist point c < maxFloat64 ∧
              ∀ (j : Nat) (c' : List F), (seen ++ rest)[j]? = some c' →
                sqDist point c ≤ sqDist point c' ∧ (j < i → sqDist point c < sqDist point c'))) := by
  induction rest with
  | nil =>
    intro seen minimum centroid _ hinv
    refine ⟨centroid, rfl, ?_⟩
    rw [List.append_nil]
    rcases hinv with ⟨h1, _, h3⟩ | ⟨i, h1, h2, c, h3, h4, h5⟩
    · exact Or.inl ⟨h1, h3⟩
    · exact Or.inr ⟨i, h1, c, h3, h4 ▸ h2, fun j c' hj => h4 ▸ h5 j c' hj⟩
  | cons cent rest ih =>
    intro seen minimum centroid hdim hinv
    have hd : squareOfEuclideanDistance point cent = some (sqDist point cent) :=
      squareOfEuclideanDistance_eq point cent (hdim cent (List.mem_cons_self _ _))
    have hdim' : ∀ c ∈ rest, point.length = c.length :=
      fun c hc => hdim c (List.mem_cons_of_mem _ hc)
    have hlen : (seen ++ [cent]).length = seen.length + 1 := by simp
    have happ : seen ++ cent :: rest = (seen ++ [cent]) ++ rest := by simp
    have hlookup : ∀ (j : Nat) (c' : List F), (seen ++ [cent])[j]? = some c' →
        (j < seen.length ∧ seen[j]? = some c') ∨ (j = seen.length ∧ c' = cent) := by
      intro j c' hj
      rw [List.getElem?_append] at hj
      split_ifs at hj with hlt
      · exact Or.inl ⟨hlt, hj⟩
      · have hj0 : j - seen.length = 0 := by
          by_contra hne
          rw [List.getElem?_eq_none (by simp; omega)] at hj
          cases hj
        rw [hj0] at hj
        simp only [List.getElem?_cons_zero, Option.some.injEq] at hj
        exact Or.inr ⟨by omega, hj.symm⟩
    simp only [nearestCentroidLoop, hd]
    rw [happ, ← hlen]
    by_cases hlt : sqDist point cent < minimum
    · rw [if_pos hlt]
      apply ih (seen ++ [cent]) (sqDist point cent) (seen.length : Int) hdim'
      refine Or.inr ⟨seen.length, rfl, ?_, cent, by simp, rfl, ?_⟩
      · rcases hinv with ⟨_, h2, _⟩ | ⟨i, _, h2, _⟩
        · rw [← h2]; exact hlt
        · exact lt_trans hlt h2
      · intro j c' hj
        rcases hlookup j c' hj with ⟨hjlt, hj'⟩ | ⟨hjeq, hc'⟩
        · have hstrict : sqDist point cent < sqDist point c' := by
            rcases hinv with ⟨_, h2, h3⟩ | ⟨i, _, _, c, _, _, h5⟩
            · have := h3 c' (List.getElem?_mem hj')
              rw [h2] at hlt
              exact lt_of_lt_of_le hlt (not_lt.mp this)
            · exact lt_of_lt_of_le hlt (h5 j c' hj').1
          exact ⟨le_of_lt hstrict, fun _ => hstrict⟩
        · subst hc'
          exact ⟨le_refl _, fun h => by omega⟩
    · rw [if_neg hlt]
      apply ih (seen ++ [cent]) minimum centroid hdim'
      rcases hinv with ⟨h1, h2, h3⟩ | ⟨i, h1, h2, c, h3, h4, h5⟩
      · refine Or.inl ⟨h1, h2, ?_⟩
        intro c hc
        rcases List.mem_append.mp hc with hc | hc
        · exact h3 c hc
        · rw [List.mem_singleton.mp hc, ← h2]; exact hlt
      · have hi : i < seen.length := by
          rcases List.getElem?_eq_some_iff.mp h3 with ⟨h, _⟩; exact h
        refine Or.inr ⟨i, h1, h2, c, ?_, h4, ?_⟩
        · rw [List.getElem?_append_left hi]; exact h3
        · intro j c' hj
          rcases hlookup j c' hj with ⟨_, hj'⟩ | ⟨hjeq, hc'⟩
          · exact h5 j c' hj'
          · subst hc'
            exact ⟨not_lt.mp hlt, fun h => by omega⟩

/-- Over a linear order (exact arithmetic): for a point and centroids of the point's
dimension, `pointsWorker` sends the brute-force argmin of the squared distance, ties
broken to the lowest index, provided some centroid is at a squared distance below
`maxFloat64`; otherwise it sends the placeholder `-1`. -/
theorem assignPoint_argmin [Zero F] [Add F] [Sub F] [Mul F] [LinearOrder F]
    (maxFloat64 : F) (point : List F) (centroids : List (List F))
    (hdim : ∀ c ∈ centroids, point.length = c.length) :
    ((∃ c ∈ centroids, sqDist point c < maxFloat64) →
      ∃ i : Nat, assignPoint maxFloat64 centroids point =
          some { point := point, centroid := (i : Int) } ∧ IsArgmin point centroids i) ∧
    ((∀ c ∈ centroids, ¬ sqDist point c < maxFloat64) →
      assignPoint maxFloat64 centroids point = some { point := point, centroid := -1 }) := by
  obtain ⟨result, hrun, hres⟩ := nearestCentroidLoop_inv maxFloat64 point centroids [] maxFloat64
    (-1) hdim (Or.inl ⟨rfl, rfl, fun c hc => by simp at hc⟩)
  simp only [List.length_nil, List.nil_append] at hrun hres
  constructor
  · rintro ⟨c, hc, hclt⟩
    rcases hres with ⟨_, hall⟩ | ⟨i, hi, c', hc', _, hmin⟩
    · exact absurd hclt (hall c hc)
    · refine ⟨i, ?_, c', hc', hmin⟩
      simp only [assignPoint, hrun, hi]
  · intro hall
    rcases hres with ⟨hneg, _⟩ | ⟨i, _, c', hc', hlt, _⟩
    · simp only [assignPoint, hrun, hneg]
    · exact absurd hlt (hall c' (List.getElem?_mem hc'))

end Nearest

/-! ## Theorems: the configuration check of `main` -/

section ConfigCheck

variable {F : Type}

/-- The first check of `main`: a configuration in which the file name is empty or the
number of clusters, the number of workers or the threshold compares equal to zero
ends with the usage message. -/
theorem main_usage [Zero F] [Add F] [Sub F] [Mul F] [Div F] [NatCast F] [LT F]
    [DecidableRel (α := F) (· < ·)] [BEq F]
    (maxFloat64 : F) (cfg : Config F) (points : List (List F))
    (sched : Nat → Nat → Nat) (fuel : Nat)
    (h : cfg.inputFileName = "" ∨ cfg.numClusters = 0 ∨ cfg.numWorkers = 0 ∨
      (cfg.threshold == 0) = true) :
    main maxFloat64 cfg points sched fuel = Exit.usage := by
  unfold main
  rw [if_pos]
  simp only [Bool.or_eq_true, beq_iff_eq]
  tauto

/-- Claim C11 (counterexample): with threshold `-1` (one cluster, one worker, a named
input file, the points `0` and `2`) the configuration passes both checks of `main`
and the clustering runs: after three iterations the loop is still running. -/
theorem negative_threshold_counterexample :
    main F64.maxFloat64 (configWith (F64.neg (F64.ofNat 1)) 1 0) twoPoints (fun _ _ => 0) 3 =
      Exit.clustered Outcome.running := by
  decide!

/-- Claim C11 (as amended): every configuration with zero clusters, zero workers or a
threshold equal to zero ends with the usage message, before the clustering code (the
seeding, the start of the workers, the loop) is reached. -/
theorem main_rejects_zero [Zero F] [Add F] [Sub F] [Mul F] [Div F] [NatCast F] [LT F]
    [DecidableRel (α := F) (· < ·)] [BEq F]
    (maxFloat64 : F) (cfg : Config F) (points : List (List F))
    (sched : Nat → Nat → Nat) (fuel : Nat)
    (h : cfg.numClusters = 0 ∨ cfg.numWorkers = 0 ∨ (cfg.threshold == 0) = true) :
    main maxFloat64 cfg points sched fuel = Exit.usage :=
  main_usage maxFloat64 cfg points sched fuel (Or.inr h)

/-- Witness for `main_rejects_zero`: the threshold `0.0`. -/
theorem main_rejects_zero_witness :
    ((configWith 0 1 0).numClusters = 0 ∨ (configWith 0 1 0).numWorkers = 0 ∨
        ((configWith 0 1 0).threshold == 0) = true) ∧
      main F64.maxFloat64 (configWith 0 1 0) twoPoints (fun _ _ => 0) 3 = Exit.usage :=
  ⟨by decide, main_rejects_zero F64.maxFloat64 (configWith 0 1 0) twoPoints (fun _ _ => 0) 3
    (by decide)⟩

end ConfigCheck

section WorkerCheck

variable {F : Type}

/-- Claim C12: for a non-empty point set and more workers than points, `main` ends at
one of its two checks, before any call of `getIndexes` and before any worker is
started: with `log.Fatalf` when the configuration passes the first check, with the
usage message otherwise. -/
theorem main_rejects_more_workers [Zero F] [Add F] [Sub F] [Mul F] [Div F] [NatCast F] [LT F]
    [DecidableRel (α := F) (· < ·)] [BEq F]
    (maxFloat64 : F) (cfg : Config F) (points : List (List F))
    (sched : Nat → Nat → Nat) (fuel : Nat)
    (hne : points ≠ []) (hW : cfg.numWorkers > (points.length : Int)) :
    (main maxFloat64 cfg points sched fuel = Exit.usage ∨
      main maxFloat64 cfg points sched fuel = Exit.fatal) ∧
    (cfg.inputFileName ≠ "" → cfg.numClusters ≠ 0 → (cfg.threshold == 0) = false →
      main maxFloat64 cfg points sched fuel = Exit.fatal) := by
  have hfatal : (cfg.inputFileName == "" || cfg.numClusters == 0 || cfg.numWorkers == 0
      || cfg.threshold == 0) = false → main maxFloat64 cfg points sched fuel = Exit.fatal := by
    intro hc
    unfold main
    rw [hc]
    cases points with
    | nil => exact absurd rfl hne
    | cons first rest => simp only [Bool.false_eq_true, if_false, if_pos hW]
  constructor
  · cases hc : (cfg.inputFileName == "" || cfg.numClusters == 0 || cfg.numWorkers == 0
      || cfg.threshold == 0) with
    | true => left; unfold main; rw [hc]; rfl
    | false => right; exact hfatal hc
  · intro h1 h2 h3
    apply hfatal
    have h4 : cfg.numWorkers ≠ 0 := by
      have : (0 : Int) ≤ (points.length : Int) := Int.ofNat_nonneg _
      omega
    simp [h1, h2, h3, h4]

/-- Witness for `main_rejects_more_workers`: three workers for two points. -/
theorem main_rejects_more_workers_witness :
    twoPoints ≠ [] ∧ (configWith (F64.ofNat 1) 3 0).numWorkers > (twoPoints.length : Int) ∧
      main F64.maxFloat64 (configWith (F64.ofNat 1) 3 0) twoPoints (fun _ _ => 0) 3 =
        Exit.fatal :=
  ⟨by decide, by decide,
    (main_rejects_more_workers F64.maxFloat64 (configWith (F64.ofNat 1) 3 0) twoPoints
      (fun _ _ => 0) 3 (by decide) (by decide)).2 (by decide) (by decide) (by decide)⟩

end WorkerCheck

section ZeroScenario

/-- Every seed makes `(0,0)` the initial centroid of the four points `(0,0)`. -/
theorem firstCentroids_zeroPoints (seed : Nat) :
    firstCentroids 1 zeroPoints seed = some [[0, 0]] := by
  have hidx : (randInt seed).2 % 4 < 4 := Nat.mod_lt _ (by decide)
  simp only [firstCentroids, zeroPoints, firstCentroidsLoop, List.length_cons, List.length_nil]
  generalize (randInt seed).2 % 4 = idx at hidx
  interval_cases idx <;> rfl

/-- An iteration on the four points `(0,0)` with the centroid `(0,0)` and threshold
`0`: whatever the number of workers and the arrival order, the new centroid is `(0,0)`
and the convergence test succeeds. -/
theorem zeroPoints_iteration (W : Nat) (hW : 1 ≤ W) (pick : Nat → Nat) :
    iteration F64.maxFloat64 0 1 W zeroPoints pick [[0, 0]] = some ([[0, 0]], true) := by
  obtain ⟨blocks, hblocks, hflat⟩ := workerBlocks_flatten zeroPoints W hW
  have hq := workerQueues_flatten F64.maxFloat64 [[0, 0]] blocks
  rw [hflat] at hq
  have hworker : pointsWorker F64.maxFloat64 [[0, 0]] zeroPoints =
      some (List.replicate 4 { point := [0, 0], centroid := 0 }) := by decide!
  rw [hworker] at hq
  cases hw : workerQueues F64.maxFloat64 [[0, 0]] blocks with
  | none => rw [hw] at hq; cases hq
  | some queues =>
    rw [hw] at hq
    simp only [Option.map_some', Option.some.injEq] at hq
    have hperm := receiveFrom_perm 4 pick queues (by rw [hq]; rfl)
    rw [hq] at hperm
    have hrecv : receiveFrom 4 pick queues =
        List.replicate (receiveFrom 4 pick queues).length
          ({ point := [0, 0], centroid := 0 } : CentroidAssignment F64) :=
      List.eq_replicate_of_mem (fun a ha => List.eq_of_mem_replicate (hperm.subset ha))
    rw [iteration_of_queues F64.maxFloat64 0 1 W zeroPoints pick [[0, 0]] [0, 0]
      [[0, 0], [0, 0], [0, 0]] blocks queues rfl hblocks hw]
    have h4 : zeroPoints.length = 4 := rfl
    have h2 : ([0, 0] : List F64).length = 2 := rfl
    rw [h4, h2, hrecv, hperm.length_eq, List.length_replicate]
    decide!

/-- Claim C13 (counterexample): with threshold `0.0` (one cluster, one worker, seed
`0`, the four points `(0,0)`) `main` ends with the usage message; no clustering
iteration runs and nothing converges. -/
theorem zero_threshold_counterexample :
    main F64.maxFloat64 (configWith 0 1 0) zeroPoints (fun _ _ => 0) 1 = Exit.usage := by
  decide!

/-- Claim C13 (as amended): for the four points `(0,0)`, `K = 1` and threshold `0.0`,
every seed and every worker count `W ≥ 1` (in particular `W` in 1..4), `main` rejects
the configuration with the usage message, because the threshold `0.0` counts as
missing; the clustering run itself, started on these inputs, converges in exactly 1
iteration with final centroid `(0,0)`, whatever the arrival order. -/
theorem zero_scenario (seed W : Nat) (hW : 1 ≤ W) (sched : Nat → Nat → Nat) (fuel : Nat) :
    main F64.maxFloat64 (configWith 0 (W : Int) seed) zeroPoints sched (fuel + 1) = Exit.usage ∧
      cluster F64.maxFloat64 0 1 W seed zeroPoints sched (fuel + 1) =
        Outcome.converged [[0, 0]] 1 := by
  constructor
  · exact main_usage F64.maxFloat64 (configWith 0 (W : Int) seed) zeroPoints sched (fuel + 1)
      (Or.inr (Or.inr (Or.inr rfl)))
  · simp only [cluster, firstCentroids_zeroPoints]
    exact mainLoop_of_converged F64.maxFloat64 0 1 W zeroPoints sched fuel 0 [[0, 0]] [[0, 0]]
      (zeroPoints_iteration W hW _)

/-- Witness for `zero_scenario`: seed 7 and four workers. -/
theorem zero_scenario_witness :
    1 ≤ 4 ∧
      main F64.maxFloat64 (configWith 0 ((4 : Nat) : Int) 7) zeroPoints (fun _ k => k) (0 + 1) =
        Exit.usage ∧
      cluster F64.maxFloat64 0 1 4 7 zeroPoints (fun _ k => k) (0 + 1) =
        Outcome.converged [[0, 0]] 1 :=
  ⟨by decide, zero_scenario 7 4 (by decide) (fun _ k => k) 0⟩

end ZeroScenario

/-! ## Theorems: the squared distance over exact arithmetic -/

section ExactDistance

variable {F : Type}

theorem foldl_add_eq_sum [AddMonoid F] (l : List F) :
    ∀ acc : F, l.foldl (· + ·) acc = acc + l.sum := by
  induction l with
  | nil => intro acc; simp
  | cons x xs ih => intro acc; simp only [List.foldl_cons, List.sum_cons, ih, add_assoc]

/-- Over a ring the squared distance is the sum of the squared differences. -/
theorem sqDist_eq_sum [Ring F] (a b : List F) :
    sqDist a b = (List.zipWith (fun x y => (y - x) ^ 2) a b).sum := by
  have hf : (fun x y : F => (y - x) * (y - x)) = fun x y => (y - x) ^ 2 := by
    funext x y; exact (sq _).symm
  unfold sqDist
  rw [foldl_add_eq_sum, zero_add, hf]

theorem sqDist_cons_cons [Ring F] (x y : F) (a b : List F) :
    sqDist (x :: a) (y :: b) = (y - x) ^ 2 + sqDist a b := by
  simp only [sqDist_eq_sum, List.zipWith_cons_cons, List.sum_cons]

theorem sqDist_nil_left [Ring F] (b : List F) : sqDist ([] : List F) b = 0 := by
  simp [sqDist_eq_sum]

theorem sqDist_nil_right [Ring F] (a : List F) : sqDist a ([] : List F) = 0 := by
  simp [sqDist_eq_sum]

theorem sqDist_nonneg [LinearOrderedRing F] (a : List F) : ∀ b : List F, 0 ≤ sqDist a b := by
  induction a with
  | nil => intro b; rw [sqDist_nil_left]
  | cons x xs ih =>
    intro b
    cases b with
    | nil => rw [sqDist_nil_right]
    | cons y ys => rw [sqDist_cons_cons]; exact add_nonneg (sq_nonneg _) (ih ys)

theorem sqDist_comm [Ring F] (a : List F) : ∀ b : List F, sqDist a b = sqDist b a := by
  induction a with
  | nil => intro b; rw [sqDist_nil_left, sqDist_nil_right]
  | cons x xs ih =>
    intro b
    cases b with
    | nil => rw [sqDist_nil_left, sqDist_nil_right]
    | cons y ys =>
      rw [sqDist_cons_cons, sqDist_cons_cons, ih ys]
      congr 1
      rw [← neg_sub, neg_sq]

theorem sqDist_eq_zero_iff [LinearOrderedRing F] (a : List F) :
    ∀ b : List F, a.length = b.length → (sqDist a b = 0 ↔ a = b) := by
  induction a with
  | nil =>
    intro b h
    cases b with
    | nil => simp [sqDist_nil_left]
    | cons y ys => simp at h
  | cons x xs ih =>
    intro b h
    cases b with
    | nil => simp at h
    | cons y ys =>
      rw [sqDist_cons_cons, add_eq_zero_iff_of_nonneg (sq_nonneg _) (sqDist_nonneg xs ys),
        ih ys (by simpa using h), List.cons.injEq]
      constructor
      · rintro ⟨h1, h2⟩
        exact ⟨(sub_eq_zero.mp (pow_eq_zero_iff (two_ne_zero) |>.mp h1)).symm, h2⟩
      · rintro ⟨h1, h2⟩
        exact ⟨by rw [h1, sub_self]; exact zero_pow two_ne_zero, h2⟩

/-- Claim C14: over exact arithmetic (a linearly ordered ring), for two vectors `a`
and `b` of the same dimension, `squareOfEuclideanDistance a b` is the sum of the
squared differences `(b_i - a_i)^2`, with no square root; it is symmetric in its
arguments, non-negative, and zero exactly when `a = b`. -/
theorem squareOfEuclideanDistance_exact [LinearOrderedRing F] (a b : List F)
    (h : a.length = b.length) :
    squareOfEuclideanDistance a b = some ((List.zipWith (fun x y => (y - x) ^ 2) a b).sum) ∧
    squareOfEuclideanDistance a b = squareOfEuclideanDistance b a ∧
    0 ≤ (List.zipWith (fun x y => (y - x) ^ 2) a b).sum ∧
    ((List.zipWith (fun x y => (y - x) ^ 2) a b).sum = 0 ↔ a = b) := by
  rw [squareOfEuclideanDistance_eq a b h, squareOfEuclideanDistance_eq b a h.symm,
    ← sqDist_eq_sum]
  exact ⟨rfl, by rw [sqDist_comm], sqDist_nonneg a b, sqDist_eq_zero_iff a b h⟩

/-- Witness for `squareOfEuclideanDistance_exact`: the vectors `(0,0)` and `(3,4)`. -/
theorem squareOfEuclideanDistance_exact_witness :
    [(0 : ℚ), 0].length = [(3 : ℚ), 4].length ∧
      squareOfEuclideanDistance [(0 : ℚ), 0] [(3 : ℚ), 4] =
        some ((List.zipWith (fun x y => (y - x) ^ 2) [(0 : ℚ), 0] [(3 : ℚ), 4]).sum) :=
  ⟨by decide, (squareOfEuclideanDistance_exact [(0 : ℚ), 0] [(3 : ℚ), 4] (by decide)).1⟩

end ExactDistance

/-! ## Theorems: a negative threshold -/

section NegativeThreshold

variable {F : Type}

theorem squareOfEuclideanDistanceLoop_nonneg [LinearOrderedRing F] (vecOne : List F) :
    ∀ (vecTwo : List F) (distSquare d : F),
      squareOfEuclideanDistanceLoop distSquare vecOne vecTwo = some d → 0 ≤ distSquare →
      0 ≤ d := by
  induction vecOne with
  | nil =>
    intro vecTwo distSquare d h h0
    simp only [squareOfEuclideanDistanceLoop, Option.some.injEq] at h
    rw [← h]; exact h0
  | cons a rest ih =>
    intro vecTwo distSquare d h h0
    cases vecTwo with
    | nil => simp [squareOfEuclideanDistanceLoop] at h
    | cons b restTwo =>
      simp only [squareOfEuclideanDistanceLoop] at h
      exact ih restTwo _ d h (add_nonneg h0 (mul_self_nonneg _))

/-- With a negative threshold the convergence test of a non-empty centroid set never
succeeds: it panics or returns `false` at the first pair. -/
theorem vectorsConverged_neg_threshold [LinearOrderedRing F] (threshold : F)
    (ht : threshold < 0) (vecOne : List F) (restOne vecSliceTwo : List (List F)) :
    vectorsConverged (vecOne :: restOne) vecSliceTwo threshold = none ∨
      (vectorsConverged (vecOne :: restOne) vecSliceTwo threshold = some false ∧
        vecSliceTwo ≠ []) := by
  cases vecSliceTwo with
  | nil => left; rfl
  | cons vecTwo restTwo =>
    simp only [vectorsConverged]
    cases hd : squareOfEuclideanDistance vecOne vecTwo with
    | none => left; rfl
    | some d =>
      right
      have h0 : 0 ≤ d := squareOfEuclideanDistanceLoop_nonneg vecOne vecTwo 0 d hd (le_refl 0)
      have hgt : d > threshold := lt_of_lt_of_le ht h0
      simp only [hgt, if_true]
      exact ⟨trivial, List.cons_ne_nil _ _⟩

/-- The convergence test that the coordinator reports is the one of
`vectorsConverged` on the broadcast centroids and the new centroids. -/
theorem coordinate_converged_eq [Zero F] [Add F] [Sub F] [Mul F] [Div F] [NatCast F] [LT F]
    [DecidableRel (α := F) (· < ·)]
    (threshold : F) (numClusters numDimensions : Nat) (centroids : List (List F))
    (arrivals : List (CentroidAssignment F)) (newCentroids : List (List F)) (converged : Bool)
    (h : coordinate threshold numClusters numDimensions centroids arrivals =
      some (newCentroids, converged)) :
    newCentroidsOf numClusters numDimensions arrivals = some newCentroids ∧
      vectorsConverged centroids newCentroids threshold = some converged := by
  unfold coordinate at h
  cases hn : newCentroidsOf numClusters numDimensions arrivals with
  | none => simp [hn] at h
  | some nc =>
    simp only [hn] at h
    cases hv : vectorsConverged centroids nc threshold with
    | none => simp [hv] at h
    | some b =>
      simp only [hv, Option.some.injEq, Prod.mk.injEq] at h
      rw [← h.1, ← h.2, hv]
      exact ⟨rfl, rfl⟩

/-- What a successful iteration consists of: the blocks and queues of the workers
exist and the coordinator's computation on the received assignments gave the result. -/
theorem iteration_eq_some [Zero F] [Add F] [Sub F] [Mul F] [Div F] [NatCast F] [LT F]
    [DecidableRel (α := F) (· < ·)]
    (maxFloat64 threshold : F) (numClusters numWorkers : Nat) (points : List (List F))
    (pick : Nat → Nat) (centroids : List (List F)) (result : List (List F) × Bool)
    (h : iteration maxFloat64 threshold numClusters numWorkers points pick centroids =
      some result) :
    ∃ first rest blocks queues, points = first :: rest ∧
      workerBlocks points numWorkers = some blocks ∧
      workerQueues maxFloat64 centroids blocks = some queues ∧
      coordinate threshold numClusters first.length centroids
        (receiveFrom points.length pick queues) = some result := by
  unfold iteration at h
  cases points with
  | nil => simp at h
  | cons first rest =>
    simp only at h
    cases hb : workerBlocks (first :: rest) numWorkers with
    | none => rw [hb] at h; simp at h
    | some blocks =>
      rw [hb] at h
      simp only at h
      cases hq : workerQueues maxFloat64 centroids blocks with
      | none => rw [hq] at h; simp at h
      | some queues =>
        rw [hq] at h
        exact ⟨first, rest, blocks, queues, rfl, rfl, hq, h⟩

/-- The convergence test that an iteration reports is the one of `vectorsConverged`
on the broadcast centroids and the new centroids. -/
theorem iteration_converged_eq [Zero F] [Add F] [Sub F] [Mul F] [Div F] [NatCast F] [LT F]
    [DecidableRel (α := F) (· < ·)]
    (maxFloat64 threshold : F) (numClusters numWorkers : Nat) (points : List (List F))
    (pick : Nat → Nat) (centroids newCentroids : List (List F)) (converged : Bool)
    (h : iteration maxFloat64 threshold numClusters numWorkers points pick centroids =
      some (newCentroids, converged)) :
    vectorsConverged centroids newCentroids threshold = some converged := by
  obtain ⟨first, rest, blocks, queues, _, _, _, hc⟩ := iteration_eq_some maxFloat64 threshold
    numClusters numWorkers points pick centroids _ h
  exact (coordinate_converged_eq threshold numClusters first.length centroids _ newCentroids
    converged hc).2

/-- With a negative threshold the loop never converges, whatever the fuel. -/
theorem mainLoop_neg_threshold [LinearOrderedField F]
    (maxFloat64 threshold : F) (ht : threshold < 0) (numClusters numWorkers : Nat)
    (points : List (List F)) (sched : Nat → Nat → Nat) (fuel : Nat) :
    ∀ (iterations : Nat) (centroids : List (List F)), centroids ≠ [] →
      ∀ (final : List (List F)) (count : Nat),
        mainLoop maxFloat64 threshold numClusters numWorkers points sched fuel iterations
          centroids ≠ Outcome.converged final count := by
  induction fuel with
  | zero => intro iterations centroids _ final count h; simp [mainLoop] at h
  | succ fuel ih =>
    intro iterations centroids hne final count h
    simp only [mainLoop] at h
    cases hit : iteration maxFloat64 threshold numClusters numWorkers points
        (sched (iterations + 1)) centroids with
    | none => simp [hit] at h
    | some res =>
      obtain ⟨newCentroids, converged⟩ := res
      have hv := iteration_converged_eq maxFloat64 threshold numClusters numWorkers points
        (sched (iterations + 1)) centroids newCentroids converged hit
      cases centroids with
      | nil => exact hne rfl
      | cons c rest =>
        rcases vectorsConverged_neg_threshold threshold ht c rest newCentroids with hnone | ⟨hf, hne'⟩
        · rw [hnone] at hv; cases hv
        · rw [hf] at hv
          simp only [Option.some.injEq] at hv
          subst hv
          simp only [hit, Bool.false_eq_true, if_false] at h
          exact ih (iterations + 1) newCentroids hne' final count h

/-- Claim C19: over exact arithmetic (a linearly ordered field), for every threshold
`< 0` and every pair of centroid sets of equal length `K ≥ 1` and equal dimension,
`vectorsConverged` returns `false`; so the loop, started with `K ≥ 1` centroids and a
negative threshold, never reaches its exit, however many iterations it runs. -/
theorem negative_threshold_never_converges [LinearOrderedField F] (threshold : F)
    (ht : threshold < 0) :
    (∀ vecSliceOne vecSliceTwo : List (List F),
      vecSliceOne.length = vecSliceTwo.length → 1 ≤ vecSliceOne.length →
      (∀ p ∈ List.zip vecSliceOne vecSliceTwo, p.1.length = p.2.length) →
      vectorsConverged vecSliceOne vecSliceTwo threshold = some false) ∧
    (∀ (maxFloat64 : F) (numClusters numWorkers : Nat) (points : List (List F))
      (sched : Nat → Nat → Nat) (fuel iterations : Nat) (centroids : List (List F)),
      centroids ≠ [] →
      ∀ (final : List (List F)) (count : Nat),
        mainLoop maxFloat64 threshold numClusters numWorkers points sched fuel iterations
          centroids ≠ Outcome.converged final count) := by
  constructor
  · intro vecSliceOne vecSliceTwo hlen hK hdim
    cases vecSliceOne with
    | nil => simp at hK
    | cons vecOne restOne =>
      cases vecSliceTwo with
      | nil => simp at hlen
      | cons vecTwo restTwo =>
        have hd : vecOne.length = vecTwo.length := hdim (vecOne, vecTwo) (by simp)
        rcases vectorsConverged_neg_threshold threshold ht vecOne restOne (vecTwo :: restTwo)
          with hnone | ⟨hf, _⟩
        · simp only [vectorsConverged, squareOfEuclideanDistance_eq vecOne vecTwo hd] at hnone
          split_ifs at hnone
          have h0 : 0 ≤ sqDist vecOne vecTwo := sqDist_nonneg vecOne vecTwo
          have : sqDist vecOne vecTwo > threshold := lt_of_lt_of_le ht h0
          contradiction
        · exact hf
  · intro maxFloat64 numClusters numWorkers points sched fuel iterations centroids hne
    exact mainLoop_neg_threshold maxFloat64 threshold ht numClusters numWorkers points sched
      fuel iterations centroids hne

/-- Witness for `negative_threshold_never_converges`: threshold `-1` over the
rationals. -/
theorem negative_threshold_never_converges_witness :
    (-1 : ℚ) < 0 ∧ vectorsConverged [[(0 : ℚ), 0]] [[(0 : ℚ), 0]] (-1) = some false :=
  ⟨by norm_num, (negative_threshold_never_converges (-1 : ℚ) (by norm_num)).1
    [[0, 0]] [[0, 0]] (by decide) (by decide) (by decide)⟩

end NegativeThreshold

/-! ## Theorems: the assignments of one iteration -/

section Assignments

variable {F : Type}

/-- Claim C17 (the code at the failing input): for the points `2^600` and `-2^600`,
one cluster and seed `0` the only centroid is `2^600`; the worker sends index `0` for
the first point and the placeholder `-1` for the second, whose squared distance
overflows; the coordinator indexes its arrays with `-1` and the run panics in its
first iteration. -/
theorem placeholder_index_panics :
    firstCentroids 1 overflowPoints 0 = some [[F64.fin false (2 ^ 52) 548]] ∧
      pointsWorker F64.maxFloat64 [[F64.fin false (2 ^ 52) 548]] overflowPoints =
        some [{ point := [F64.fin false (2 ^ 52) 548], centroid := 0 },
          { point := [F64.fin true (2 ^ 52) 548], centroid := -1 }] ∧
      receiveAssignment { newCentroids := [[F64.fin false (2 ^ 52) 548]], assignments := [1] }
        { point := [F64.fin true (2 ^ 52) 548], centroid := -1 } = none ∧
      cluster F64.maxFloat64 (F64.ofNat 1) 1 1 0 overflowPoints (fun _ _ => 0) 1 =
        Outcome.panicked := by
  decide!

theorem pointsWorker_points [Zero F] [Add F] [Sub F] [Mul F] [LT F]
    [DecidableRel (α := F) (· < ·)] (maxFloat64 : F) (centroids : List (List F))
    (points : List (List F)) :
    ∀ queue, pointsWorker maxFloat64 centroids points = some queue →
      queue.map (fun a => a.point) = points := by
  induction points with
  | nil => intro queue h; simp only [pointsWorker, Option.some.injEq] at h; subst h; rfl
  | cons x xs ih =>
    intro queue h
    simp only [pointsWorker] at h
    cases hn : nearestCentroidLoop x 0 maxFloat64 (-1) centroids with
    | none => simp [assignPoint, hn] at h
    | some c =>
      cases hq : pointsWorker maxFloat64 centroids xs with
      | none => simp [assignPoint, hn, hq] at h
      | some rest =>
        simp only [assignPoint, hn, hq, Option.some.injEq] at h
        subst h
        simp [ih rest hq]

theorem sum_set_succ (l : List Nat) :
    ∀ (i n : Nat), l[i]? = some n → (l.set i (n + 1)).sum = l.sum + 1 := by
  induction l with
  | nil => intro i n h; simp at h
  | cons x xs ih =>
    intro i n h
    cases i with
    | zero =>
      simp only [List.getElem?_cons_zero, Option.some.injEq] at h
      subst h
      simp only [List.set_cons_zero, List.sum_cons]
      omega
    | succ i =>
      simp only [List.getElem?_cons_succ] at h
      simp only [List.set_cons_succ, List.sum_cons, ih i n h]
      omega

/-- Every received assignment adds one to the sum of the counts. -/
theorem receiveAssignments_sum [Add F] (arrivals : List (CentroidAssignment F)) :
    ∀ acc acc' : Accumulator F, receiveAssignments acc arrivals = some acc' →
      acc'.assignments.sum = acc.assignments.sum + arrivals.length := by
  induction arrivals with
  | nil =>
    intro acc acc' h
    simp only [receiveAssignments, Option.some.injEq] at h
    subst h; rfl
  | cons a rest ih =>
    intro acc acc' h
    simp only [receiveAssignments] at h
    cases hstep : receiveAssignment acc a with
    | none => simp [hstep] at h
    | some acc1 =>
      simp only [hstep] at h
      obtain ⟨_, count, row, row', hA, _, _, rfl⟩ := receiveAssignment_eq_some.mp hstep
      rw [ih _ acc' h]
      simp only [sum_set_succ acc.assignments _ count hA, List.length_cons]
      omega

/-- In an iteration with `W ≥ 1` workers the blocks of the workers exist, and whenever
the workers send their assignments, the points of the `N` received assignments are, up
to the arrival order, exactly the points of the point set; so whenever the aggregation
completes, the per-centroid assignment counts sum to `N`. -/
theorem assignments_one_per_point [Zero F] [Add F] [Sub F] [Mul F] [LT F]
    [DecidableRel (α := F) (· < ·)]
    (maxFloat64 : F) (numClusters numDimensions numWorkers : Nat) (points : List (List F))
    (pick : Nat → Nat) (centroids : List (List F)) (hW : 1 ≤ numWorkers) :
    ∃ blocks, workerBlocks points numWorkers = some blocks ∧
      ∀ queues, workerQueues maxFloat64 centroids blocks = some queues →
        ((receiveFrom points.length pick queues).map (fun a => a.point)).Perm points ∧
        (receiveFrom points.length pick queues).length = points.length ∧
        ∀ acc : Accumulator F,
          receiveAssignments
            { newCentroids := contiguous2DFloats numClusters numDimensions,
              assignments := List.replicate numClusters 0 }
            (receiveFrom points.length pick queues) = some acc →
          acc.assignments.sum = points.length := by
  obtain ⟨blocks, hblocks, hflat⟩ := workerBlocks_flatten points numWorkers hW
  refine ⟨blocks, hblocks, ?_⟩
  intro queues hq
  have hfl := workerQueues_flatten maxFloat64 centroids blocks
  rw [hq, hflat] at hfl
  simp only [Option.map_some'] at hfl
  have hlen : queues.flatten.length = points.length :=
    pointsWorker_length maxFloat64 centroids points _ hfl.symm
  have hperm := receiveFrom_perm points.length pick queues hlen
  have hpts := pointsWorker_points maxFloat64 centroids points _ hfl.symm
  refine ⟨?_, by rw [hperm.length_eq, hlen], ?_⟩
  · have h := hperm.map (fun a => a.point)
    rw [hpts] at h
    exact h
  · intro acc hacc
    rw [receiveAssignments_sum _ _ acc hacc, hperm.length_eq, hlen]
    simp

/-- Claim C18 (the code at the failing input): for the points `2^600` and `-2^600`,
one cluster, one worker (`1 ≤ W ≤ N = 2`) and the centroid `2^600` that seed `0`
draws, the worker sends one assignment per point, with the indices `0` and `-1`; the
coordinator receives both, indexes its arrays with `-1` at the second and panics, so
the aggregation does not complete and there are no counts that sum to `N`. -/
theorem assignment_counts_panic :
    firstCentroids 1 overflowPoints 0 = some [[F64.fin false (2 ^ 52) 548]] ∧
      workerBlocks overflowPoints 1 = some [overflowPoints] ∧
      workerQueues F64.maxFloat64 [[F64.fin false (2 ^ 52) 548]] [overflowPoints] =
        some [[{ point := [F64.fin false (2 ^ 52) 548], centroid := 0 },
          { point := [F64.fin true (2 ^ 52) 548], centroid := -1 }]] ∧
      receiveFrom overflowPoints.length (fun _ => 0)
          [[{ point := [F64.fin false (2 ^ 52) 548], centroid := 0 },
            ({ point := [F64.fin true (2 ^ 52) 548], centroid := -1 } :
              CentroidAssignment F64)]] =
        [{ point := [F64.fin false (2 ^ 52) 548], centroid := 0 },
          { point := [F64.fin true (2 ^ 52) 548], centroid := -1 }] ∧
      receiveAssignments
          { newCentroids := contiguous2DFloats 1 1, assignments := List.replicate 1 0 }
          [{ point := [F64.fin false (2 ^ 52) 548], centroid := 0 },
            ({ point := [F64.fin true (2 ^ 52) 548], centroid := -1 } :
              CentroidAssignment F64)] = none ∧
      iteration F64.maxFloat64 (F64.ofNat 1) 1 1 overflowPoints (fun _ => 0)
        [[F64.fin false (2 ^ 52) 548]] = none := by
  decide!

end Assignments

/-! ## Theorems: the order of `float64` -/

section FloatOrder

theorem F64.scaled_shift (n : Bool) (m : Nat) (e lo L : Int) (h1 : L ≤ lo) (h2 : lo ≤ e) :
    F64.scaled n m e L = F64.scaled n m e lo * (2 ^ (lo - L).toNat : Int) := by
  have hexp : (e - L).toNat = (e - lo).toNat + (lo - L).toNat := by omega
  unfold F64.scaled
  simp only [hexp, pow_add]
  split_ifs
  · push_cast; ring
  · push_cast; ring

/-- The comparison of two finite values is the comparison of their integer multiples
at any common scale. -/
theorem F64.lt_fin_iff (n1 : Bool) (m1 : Nat) (e1 : Int) (n2 : Bool) (m2 : Nat) (e2 L : Int)
    (hL1 : L ≤ e1) (hL2 : L ≤ e2) :
    F64.lt (F64.fin n1 m1 e1) (F64.fin n2 m2 e2) = true ↔
      F64.scaled n1 m1 e1 L < F64.scaled n2 m2 e2 L := by
  have hpos : (0 : Int) < 2 ^ (min e1 e2 - L).toNat := by positivity
  simp only [F64.lt, decide_eq_true_eq]
  rw [F64.scaled_shift n1 m1 e1 (min e1 e2) L (le_min hL1 hL2) (min_le_left _ _),
    F64.scaled_shift n2 m2 e2 (min e1 e2) L (le_min hL1 hL2) (min_le_right _ _)]
  exact (mul_lt_mul_right hpos).symm

/-- The comparison `<` of `float64` is irreflexive. -/
theorem F64.lt_irrefl (a : F64) : ¬ a < a := by
  show ¬ F64.lt a a = true
  cases a with
  | fin n m e => simp [F64.lt]
  | inf n => cases n <;> simp [F64.lt]
  | nan => simp [F64.lt]

/-- The comparison `<` of `float64` is transitive. -/
theorem F64.lt_trans (a b c : F64) (hab : a < b) (hbc : b < c) : a < c := by
  change F64.lt a b = true at hab
  change F64.lt b c = true at hbc
  show F64.lt a c = true
  cases a with
  | nan => simp [F64.lt] at hab
  | inf na =>
    cases b with
    | nan => simp [F64.lt] at hab
    | inf nb =>
      cases c with
      | nan => simp [F64.lt] at hbc
      | inf nc => cases na <;> cases nb <;> cases nc <;> simp [F64.lt] at hab hbc ⊢
      | fin _ _ _ => cases na <;> cases nb <;> simp [F64.lt] at hab hbc ⊢
    | fin _ _ _ =>
      cases c with
      | nan => simp [F64.lt] at hbc
      | inf nc => cases na <;> cases nc <;> simp [F64.lt] at hab hbc ⊢
      | fin _ _ _ => cases na <;> simp [F64.lt] at hab ⊢
  | fin n1 m1 e1 =>
    cases b with
    | nan => simp [F64.lt] at hab
    | inf nb =>
      cases c with
      | nan => simp [F64.lt] at hbc
      | inf nc => cases nb <;> cases nc <;> simp [F64.lt] at hab hbc ⊢
      | fin _ _ _ => cases nb <;> simp [F64.lt] at hab hbc
    | fin n2 m2 e2 =>
      cases c with
      | nan => simp [F64.lt] at hbc
      | inf nc => cases nc <;> simp [F64.lt] at hbc ⊢
      | fin n3 m3 e3 =>
        have hL1 : min e1 (min e2 e3) ≤ e1 := min_le_left _ _
        have hL2 : min e1 (min e2 e3) ≤ e2 := le_trans (min_le_right _ _) (min_le_left _ _)
        have hL3 : min e1 (min e2 e3) ≤ e3 := le_trans (min_le_right _ _) (min_le_right _ _)
        rw [F64.lt_fin_iff n1 m1 e1 n2 m2 e2 _ hL1 hL2] at hab
        rw [F64.lt_fin_iff n2 m2 e2 n3 m3 e3 _ hL2 hL3] at hbc
        rw [F64.lt_fin_iff n1 m1 e1 n3 m3 e3 _ hL1 hL3]
        exact Int.lt_trans hab hbc

/-- On `float64` values that are numbers, `a ≤ b` is the negation of `b < a`. -/
theorem F64.not_lt_iff_le (a b : F64) (ha : a ≠ F64.nan) (hb : b ≠ F64.nan) :
    ¬ b < a ↔ a ≤ b := by
  show ¬ F64.lt b a = true ↔ F64.le a b = true
  cases a with
  | nan => exact absurd rfl ha
  | inf na =>
    cases b with
    | nan => exact absurd rfl hb
    | inf nb => cases na <;> cases nb <;> simp [F64.lt, F64.le]
    | fin _ _ _ => cases na <;> simp [F64.lt, F64.le]
  | fin n1 m1 e1 =>
    cases b with
    | nan => exact absurd rfl hb
    | inf nb => cases nb <;> simp [F64.lt, F64.le]
    | fin n2 m2 e2 =>
      simp only [F64.lt, F64.le, decide_eq_true_eq, min_comm e2 e1]
      exact not_lt

/-- On `float64`, when neither the threshold nor any of the squared distances is
`NaN`, the test of `vectorsConverged` is the non-strict comparison that its
documentation states: it returns `true` if and only if the squared distance of every corresponding pair is `≤`
the threshold; a pair at exactly the threshold counts as converged. -/
theorem vectorsConverged_float_iff_le (vecSliceOne vecSliceTwo : List (List F64))
    (threshold : F64) (hlen : vecSliceOne.length = vecSliceTwo.length)
    (hdim : ∀ p ∈ List.zip vecSliceOne vecSliceTwo, p.1.length = p.2.length)
    (ht : threshold ≠ F64.nan)
    (hnum : ∀ p ∈ List.zip vecSliceOne vecSliceTwo, sqDist p.1 p.2 ≠ F64.nan) :
    ∃ b : Bool, vectorsConverged vecSliceOne vecSliceTwo threshold = some b ∧
      (b = true ↔ ∀ p ∈ List.zip vecSliceOne vecSliceTwo, sqDist p.1 p.2 ≤ threshold) := by
  obtain ⟨b, hb, hiff⟩ := vectorsConverged_aux vecSliceOne vecSliceTwo threshold hlen hdim
  refine ⟨b, hb, ?_⟩
  rw [hiff]
  constructor
  · intro h p hp; exact (F64.not_lt_iff_le _ _ (hnum p hp) ht).mp (h p hp)
  · intro h p hp; exact (F64.not_lt_iff_le _ _ (hnum p hp) ht).mpr (h p hp)

/-- On `float64` a pair at squared distance exactly the threshold counts as converged:
the centroid sets `[(0,0)]` and `[(3,4)]`, at squared distance `25`, with threshold
`25`. -/
theorem vectorsConverged_boundary :
    squareOfEuclideanDistance [(0 : F64), 0] [F64.ofNat 3, F64.ofNat 4] =
        some (F64.ofNat 25) ∧
      vectorsConverged [[(0 : F64), 0]] [[F64.ofNat 3, F64.ofNat 4]] (F64.ofNat 25) =
        some true := by
  decide!

end FloatOrder

/-! ## Theorems: a duplicated centroid -/

section DuplicateCentroid

variable {F : Type}

/-- Past index `j` the loop over the centroids cannot choose `j` any more. -/
theorem nearestCentroidLoop_after [Zero F] [Add F] [Sub F] [Mul F] [LT F]
    [DecidableRel (α := F) (· < ·)] (point : List F) (j : Nat) (rest : List (List F)) :
    ∀ (k : Nat) (m : F) (best : Int), j < k → best ≠ (j : Int) →
      ∀ r, nearestCentroidLoop point k m best rest = some r → r ≠ (j : Int) := by
  induction rest with
  | nil =>
    intro k m best _ hbest r h
    simp only [nearestCentroidLoop, Option.some.injEq] at h
    rw [← h]; exact hbest
  | cons cent rest ih =>
    intro k m best hk hbest r h
    simp only [nearestCentroidLoop] at h
    cases hd : squareOfEuclideanDistance point cent with
    | none => simp [hd] at h
    | some d' =>
      simp only [hd] at h
      split_ifs at h
      · exact ih (k + 1) d' k (by omega) (by omega) r h
      · exact ih (k + 1) m best (by omega) hbest r h

/-- Once the running minimum is not above the distance `d` of the centroid at index
`j`, the loop does not choose `j`. -/
theorem nearestCentroidLoop_skips [Zero F] [Add F] [Sub F] [Mul F] [LT F]
    [DecidableRel (α := F) (· < ·)] (htrans : ∀ a b c : F, a < b → b < c → a < c)
    (point c : List F) (d : F) (hd : squareOfEuclideanDistance point c = some d) (j : Nat)
    (rest : List (List F)) :
    ∀ (k : Nat) (m : F) (best : Int), k ≤ j → rest[j - k]? = some c → ¬ d < m →
      best ≠ (j : Int) →
      ∀ r, nearestCentroidLoop point k m best rest = some r → r ≠ (j : Int) := by
  induction rest with
  | nil => intro k m best _ hc; simp at hc
  | cons cent rest ih =>
    intro k m best hk hc hm hbest r h
    simp only [nearestCentroidLoop] at h
    by_cases hkj : k = j
    · subst hkj
      simp only [Nat.sub_self, List.getElem?_cons_zero, Option.some.injEq] at hc
      subst hc
      simp only [hd, if_neg hm] at h
      exact nearestCentroidLoop_after point k rest (k + 1) m best (by omega) hbest r h
    · have hlt : k < j := by omega
      have hc' : rest[j - (k + 1)]? = some c := by
        have e : j - k = (j - (k + 1)) + 1 := by omega
        rw [e, List.getElem?_cons_succ] at hc
        exact hc
      cases hd' : squareOfEuclideanDistance point cent with
      | none => simp [hd'] at h
      | some d' =>
        simp only [hd'] at h
        split_ifs at h with hlt'
        · exact ih (k + 1) d' k (by omega) hc' (fun hdd => hm (htrans d d' m hdd hlt'))
            (by omega) r h
        · exact ih (k + 1) m best (by omega) hc' hm hbest r h

/-- With the same centroid `c` at the indices `i < j`, the loop over the centroids
does not choose `j`. -/
theorem nearestCentroidLoop_duplicate [Zero F] [Add F] [Sub F] [Mul F] [LT F]
    [DecidableRel (α := F) (· < ·)] (hirr : ∀ a : F, ¬ a < a)
    (htrans : ∀ a b c : F, a < b → b < c → a < c)
    (point c : List F) (i j : Nat) (hij : i < j) (rest : List (List F)) :
    ∀ (k : Nat) (m : F) (best : Int), k ≤ i → rest[i - k]? = some c → rest[j - k]? = some c →
      best ≠ (j : Int) →
      ∀ r, nearestCentroidLoop point k m best rest = some r → r ≠ (j : Int) := by
  induction rest with
  | nil => intro k m best _ hc; simp at hc
  | cons cent rest ih =>
    intro k m best hk hci hcj hbest r h
    have hcj' : rest[j - (k + 1)]? = some c := by
      have e : j - k = (j - (k + 1)) + 1 := by omega
      rw [e, List.getElem?_cons_succ] at hcj
      exact hcj
    simp only [nearestCentroidLoop] at h
    cases hd : squareOfEuclideanDistance point cent with
    | none => simp [hd] at h
    | some d =>
      simp only [hd] at h
      by_cases hki : k = i
      · subst hki
        simp only [Nat.sub_self, List.getElem?_cons_zero, Option.some.injEq] at hci
        subst hci
        split_ifs at h with hlt
        · exact nearestCentroidLoop_skips htrans point cent d hd j rest (k + 1) d k (by omega)
            hcj' (hirr d) (by omega) r h
        · exact nearestCentroidLoop_skips htrans point cent d hd j rest (k + 1) m best
            (by omega) hcj' hlt hbest r h
      · have hci' : rest[i - (k + 1)]? = some c := by
          have e : i - k = (i - (k + 1)) + 1 := by omega
          rw [e, List.getElem?_cons_succ] at hci
          exact hci
        split_ifs at h
        · exact ih (k + 1) d k (by omega) hci' hcj' (by omega) r h
        · exact ih (k + 1) m best (by omega) hci' hcj' hbest r h

theorem pointsWorker_mem [Zero F] [Add F] [Sub F] [Mul F] [LT F]
    [DecidableRel (α := F) (· < ·)] (maxFloat64 : F) (centroids : List (List F))
    (points : List (List F)) :
    ∀ queue, pointsWorker maxFloat64 centroids points = some queue →
      ∀ a ∈ queue, ∃ point ∈ points, assignPoint maxFloat64 centroids point = some a := by
  induction points with
  | nil =>
    intro queue h a ha
    simp only [pointsWorker, Option.some.injEq] at h
    subst h; simp at ha
  | cons x xs ih =>
    intro queue h a ha
    simp only [pointsWorker] at h
    cases hx : assignPoint maxFloat64 centroids x with
    | none => simp [hx] at h
    | some ax =>
      cases hq : pointsWorker maxFloat64 centroids xs with
      | none => simp [hx, hq] at h
      | some rest =>
        simp only [hx, hq, Option.some.injEq] at h
        subst h
        rcases List.mem_cons.mp ha with rfl | hmem
        · exact ⟨x, List.mem_cons_self _ _, hx⟩
        · obtain ⟨p, hp, hap⟩ := ih rest hq a hmem
          exact ⟨p, List.mem_cons_of_mem _ hp, hap⟩

/-- Assignments to other centroids leave the count and the row of centroid `j` as
they were. -/
theorem receiveAssignments_untouched [Add F] (j : Nat)
    (arrivals : List (CentroidAssignment F)) :
    ∀ acc acc' : Accumulator F, (∀ a ∈ arrivals, a.centroid ≠ (j : Int)) →
      receiveAssignments acc arrivals = some acc' →
      acc'.assignments[j]? = acc.assignments[j]? ∧
        acc'.newCentroids[j]? = acc.newCentroids[j]? := by
  induction arrivals with
  | nil =>
    intro acc acc' _ h
    simp only [receiveAssignments, Option.some.injEq] at h
    subst h; exact ⟨rfl, rfl⟩
  | cons a rest ih =>
    intro acc acc' hne h
    simp only [receiveAssignments] at h
    cases hstep : receiveAssignment acc a with
    | none => simp [hstep] at h
    | some acc1 =>
      simp only [hstep] at h
      obtain ⟨ha0, count, row, row', _, _, _, rfl⟩ := receiveAssignment_eq_some.mp hstep
      have haj : a.centroid.toNat ≠ j := by
        have := hne a (List.mem_cons_self _ _)
        omega
      obtain ⟨h1, h2⟩ := ih _ acc' (fun b hb => hne b (List.mem_cons_of_mem _ hb)) h
      rw [h1, h2]
      simp only [List.getElem?_set_ne haj]
      exact ⟨trivial, trivial⟩

/-- Claim C16: let `<` on the coordinates be irreflexive and transitive (as it is on
`float64` and over exact arithmetic), and let the centroid set hold the same centroid
at the indices `i < j`.  Then `pointsWorker` sends index `j` for no point; hence in
an iteration on any point set, for any arrival order, no point is assigned to `j`
and, when the aggregation completes, every coordinate of the new centroid `j` is
`0 / float64(0)`: the sum of no points divided by the count zero. -/
theorem duplicate_centroid_starves [Zero F] [Add F] [Sub F] [Mul F] [Div F] [NatCast F] [LT F]
    [DecidableRel (α := F) (· < ·)] (hirr : ∀ a : F, ¬ a < a)
    (htrans : ∀ a b c : F, a < b → b < c → a < c)
    (maxFloat64 : F) (centroids : List (List F)) (i j : Nat) (c : List F) (hij : i < j)
    (hi : centroids[i]? = some c) (hj : centroids[j]? = some c) :
    (∀ (point : List F) (a : CentroidAssignment F),
      assignPoint maxFloat64 centroids point = some a → a.centroid ≠ (j : Int)) ∧
    (∀ (points : List (List F)) (queue arrivals : List (CentroidAssignment F))
      (numClusters numDimensions : Nat) (newCentroids : List (List F)),
      pointsWorker maxFloat64 centroids points = some queue → arrivals.Perm queue →
      j < numClusters →
      newCentroidsOf numClusters numDimensions arrivals = some newCentroids →
      (assignedTo arrivals j).length = 0 ∧
        newCentroids[j]? = some (List.replicate numDimensions (0 / ((0 : Nat) : F)))) := by
  have hassign : ∀ (point : List F) (a : CentroidAssignment F),
      assignPoint maxFloat64 centroids point = some a → a.centroid ≠ (j : Int) := by
    intro point a h
    unfold assignPoint at h
    cases hn : nearestCentroidLoop point 0 maxFloat64 (-1) centroids with
    | none => simp [hn] at h
    | some r =>
      simp only [hn, Option.some.injEq] at h
      subst h
      exact nearestCentroidLoop_duplicate hirr htrans point c i j hij centroids 0 maxFloat64
        (-1) (Nat.zero_le _) hi hj (by omega) r hn
  refine ⟨hassign, ?_⟩
  intro points queue arrivals numClusters numDimensions newCentroids hq hperm hjK hnew
  have hne : ∀ a ∈ arrivals, a.centroid ≠ (j : Int) := by
    intro a ha
    obtain ⟨p, _, hp⟩ := pointsWorker_mem maxFloat64 centroids points queue hq a
      (hperm.subset ha)
    exact hassign p a hp
  constructor
  · rw [List.length_eq_zero]
    unfold assignedTo
    rw [List.map_eq_nil_iff, List.filter_eq_nil_iff]
    intro a ha
    simpa using hne a ha
  · unfold newCentroidsOf at hnew
    cases hacc : receiveAssignments
        { newCentroids := contiguous2DFloats numClusters numDimensions,
          assignments := List.replicate numClusters 0 } arrivals with
    | none => simp [hacc] at hnew
    | some acc =>
      simp only [hacc, Option.some.injEq] at hnew
      obtain ⟨h1, h2⟩ := receiveAssignments_untouched j arrivals _ acc hne hacc
      simp only [contiguous2DFloats, List.getElem?_replicate_of_lt hjK] at h1 h2
      rw [← hnew]
      simp only [averageCentroids, List.getElem?_zipWith, h1, h2, List.map_replicate]

/-- Witness for `duplicate_centroid_starves`: seed `0` draws the point `1` twice as
initial centroids of the points `1`, `2`, `3`, `4`; no point is assigned to the second
copy, whose new centroid is `0 / 0`, that is `NaN`. -/
theorem duplicate_centroid_starves_witness :
    firstCentroids 2 linePoints 0 = some [[F64.ofNat 1], [F64.ofNat 1]] ∧
      (0 : F64) / ((0 : Nat) : F64) = F64.nan ∧
      iteration F64.maxFloat64 (F64.ofNat 1) 2 1 linePoints (fun _ => 0)
          [[F64.ofNat 1], [F64.ofNat 1]] =
        some ([[F64.ofRatio 5 2], [F64.nan]], false) ∧
      ∀ (point : List F64) (a : CentroidAssignment F64),
        assignPoint F64.maxFloat64 [[F64.ofNat 1], [F64.ofNat 1]] point = some a →
        a.centroid ≠ ((1 : Nat) : Int) :=
  ⟨by decide!, by decide, by decide!,
    (duplicate_centroid_starves F64.lt_irrefl F64.lt_trans F64.maxFloat64
      [[F64.ofNat 1], [F64.ofNat 1]] 0 1 [F64.ofNat 1] (by decide) rfl rfl).1⟩

end DuplicateCentroid

/-! ## Theorems: one iteration does not increase the cost -/

section Cost

variable {F : Type}

/-- The mean minimises the sum of squared deviations: identity behind it. -/
theorem sum_sq_shift [Field F] (xs : List F) (y μ : F) :
    (xs.map (fun x => (y - x) ^ 2)).sum =
      (xs.map (fun x => (μ - x) ^ 2)).sum + (xs.length : F) * (y - μ) ^ 2 +
        2 * (y - μ) * ((xs.length : F) * μ - xs.sum) := by
  induction xs with
  | nil => simp
  | cons x xs ih =>
    simp only [List.map_cons, List.sum_cons, List.length_cons, Nat.cast_add, Nat.cast_one, ih]
    ring

/-- Among all values `y`, the mean of a non-empty list minimises the sum of the
squared deviations. -/
theorem sum_sq_mean_le [LinearOrderedField F] (xs : List F) (y : F) (hne : 1 ≤ xs.length) :
    (xs.map (fun x => (xs.sum / (xs.length : F) - x) ^ 2)).sum ≤
      (xs.map (fun x => (y - x) ^ 2)).sum := by
  have hn : (xs.length : F) ≠ 0 := by
    have : (0 : F) < (xs.length : F) := by exact_mod_cast hne
    exact ne_of_gt this
  rw [sum_sq_shift xs y (xs.sum / (xs.length : F)), mul_div_cancel₀ _ hn, sub_self, mul_zero,
    add_zero]
  have : 0 ≤ (xs.length : F) * (y - xs.sum / (xs.length : F)) ^ 2 :=
    mul_nonneg (Nat.cast_nonneg _) (sq_nonneg _)
  linarith

/-- The squared distance of two vectors of dimension `D`, coordinate by coordinate. -/
theorem sqDist_eq_range_sum [Ring F] (D : Nat) :
    ∀ p q : List F, p.length = D → q.length = D →
      sqDist p q = ∑ d in Finset.range D, (q.getD d 0 - p.getD d 0) ^ 2 := by
  induction D with
  | zero =>
    intro p q hp hq
    rw [List.length_eq_zero.mp hp, sqDist_nil_left]
    simp
  | succ D ih =>
    intro p q hp hq
    cases p with
    | nil => simp at hp
    | cons x p =>
      cases q with
      | nil => simp at hq
      | cons y q =>
        rw [sqDist_cons_cons, Finset.sum_range_succ', ih p q (by simpa using hp)
          (by simpa using hq)]
        simp only [List.getD_cons_succ, List.getD_cons_zero]
        rw [add_comm]

theorem sum_map_finset_sum {α : Type} [AddCommMonoid F] (l : List α) (s : Finset Nat)
    (f : α → Nat → F) :
    (l.map (fun a => ∑ d in s, f a d)).sum = ∑ d in s, (l.map (fun a => f a d)).sum := by
  induction l with
  | nil => simp
  | cons a rest ih => simp only [List.map_cons, List.sum_cons, ih, Finset.sum_add_distrib]

/-- The coordinate-wise mean of a non-empty list of points of dimension `D` minimises
the sum of the squared distances to the points. -/
theorem sum_sqDist_mean_le [LinearOrderedField F] (D : Nat) (S : List (List F)) (c : List F)
    (hS : ∀ p ∈ S, p.length = D) (hc : c.length = D) (hne : 1 ≤ S.length) :
    (S.map (fun p => sqDist p ((List.range D).map (fun d =>
        (S.map (fun p => p.getD d 0)).sum / (S.length : F))))).sum ≤
      (S.map (fun p => sqDist p c)).sum := by
  have hm : ((List.range D).map (fun d =>
      (S.map (fun p => p.getD d 0)).sum / (S.length : F))).length = D := by simp
  have e1 : (S.map (fun p => sqDist p ((List.range D).map (fun d =>
        (S.map (fun p => p.getD d 0)).sum / (S.length : F))))).sum =
      ∑ d in Finset.range D, (S.map (fun p =>
        ((S.map (fun p => p.getD d 0)).sum / (S.length : F) - p.getD d 0) ^ 2)).sum := by
    rw [← sum_map_finset_sum]
    congr 1
    apply List.map_congr_left
    intro p hp
    rw [sqDist_eq_range_sum D p _ (hS p hp) hm]
    apply Finset.sum_congr rfl
    intro d hd
    have hd' : d < D := Finset.mem_range.mp hd
    simp [List.getD_eq_getElem?_getD, List.getElem?_range hd', hd']
  have e2 : (S.map (fun p => sqDist p c)).sum =
      ∑ d in Finset.range D, (S.map (fun p => (c.getD d 0 - p.getD d 0) ^ 2)).sum := by
    rw [← sum_map_finset_sum]
    congr 1
    apply List.map_congr_left
    intro p hp
    rw [sqDist_eq_range_sum D p c (hS p hp) hc]
  rw [e1, e2]
  apply Finset.sum_le_sum
  intro d _
  have h := sum_sq_mean_le (S.map (fun p => p.getD d 0)) (c.getD d 0) (by simpa using hne)
  simp only [List.map_map, List.length_map] at h
  exact h

end Cost

section CostNearest

variable {F : Type}

theorem nearestSqDist_cons_cons [Zero F] [Add F] [Sub F] [Mul F] [Min F] (point c c' : List F)
    (rest : List (List F)) :
    nearestSqDist point (c :: c' :: rest) =
      min (sqDist point c) (nearestSqDist point (c' :: rest)) := rfl

/-- The distance to the nearest centroid is at most the distance to any centroid. -/
theorem nearestSqDist_le [Zero F] [Add F] [Sub F] [Mul F] [LinearOrder F] (point : List F)
    (centroids : List (List F)) :
    ∀ (i : Nat) (c : List F), centroids[i]? = some c →
      nearestSqDist point centroids ≤ sqDist point c := by
  induction centroids with
  | nil => intro i c h; simp at h
  | cons c0 rest ih =>
    intro i c h
    cases rest with
    | nil =>
      cases i with
      | zero =>
        simp only [List.getElem?_cons_zero, Option.some.injEq] at h
        subst h; exact le_refl _
      | succ i => simp at h
    | cons c1 rest =>
      rw [nearestSqDist_cons_cons]
      cases i with
      | zero =>
        simp only [List.getElem?_cons_zero, Option.some.injEq] at h
        subst h; exact min_le_left _ _
      | succ i =>
        rw [List.getElem?_cons_succ] at h
        exact le_trans (min_le_right _ _) (ih i c h)

/-- A lower bound of all distances bounds the distance to the nearest centroid. -/
theorem le_nearestSqDist [Zero F] [Add F] [Sub F] [Mul F] [LinearOrder F] (point : List F)
    (v : F) (centroids : List (List F)) :
    centroids ≠ [] → (∀ c ∈ centroids, v ≤ sqDist point c) →
      v ≤ nearestSqDist point centroids := by
  induction centroids with
  | nil => intro h; exact absurd rfl h
  | cons c0 rest ih =>
    intro _ hall
    cases rest with
    | nil => exact hall c0 (List.mem_cons_self _ _)
    | cons c1 rest =>
      rw [nearestSqDist_cons_cons]
      exact le_min (hall c0 (List.mem_cons_self _ _))
        (ih (List.cons_ne_nil _ _) (fun c hc => hall c (List.mem_cons_of_mem _ hc)))

/-- The distance to the nearest centroid is the distance to the brute-force argmin. -/
theorem nearestSqDist_of_isArgmin [Zero F] [Add F] [Sub F] [Mul F] [LinearOrder F]
    (point : List F) (centroids : List (List F)) (i : Nat)
    (h : IsArgmin point centroids i) :
    nearestSqDist point centroids = sqDist point (centroids.getD i []) := by
  obtain ⟨c, hc, hmin⟩ := h
  have hget : centroids.getD i [] = c := by
    rw [List.getD_eq_getElem?_getD, hc]; rfl
  rw [hget]
  apply le_antisymm (nearestSqDist_le point centroids i c hc)
  apply le_nearestSqDist point _ centroids
  · intro hnil; rw [hnil] at hc; simp at hc
  · intro c' hc'
    obtain ⟨j, hj⟩ := List.mem_iff_getElem?.mp hc'
    exact (hmin j c' hj).1

/-- A sum over the assignments, regrouped by centroid. -/
theorem sum_regroup [AddCommMonoid F] (K : Nat) (g : List F → Nat → F)
    (arrivals : List (CentroidAssignment F))
    (hidx : ∀ a ∈ arrivals, 0 ≤ a.centroid ∧ a.centroid < K) :
    (arrivals.map (fun a => g a.point a.centroid.toNat)).sum =
      ∑ c in Finset.range K, ((assignedTo arrivals c).map (fun p => g p c)).sum := by
  induction arrivals with
  | nil => simp [assignedTo]
  | cons a rest ih =>
    obtain ⟨h0, hK⟩ := hidx a (List.mem_cons_self _ _)
    have hmem : a.centroid.toNat ∈ Finset.range K := Finset.mem_range.mpr (by omega)
    have hstep : ∀ c : Nat, ((assignedTo (a :: rest) c).map (fun p => g p c)).sum =
        (if a.centroid.toNat = c then g a.point a.centroid.toNat else 0) +
          ((assignedTo rest c).map (fun p => g p c)).sum := by
      intro c
      rw [assignedTo_cons]
      by_cases hc : a.centroid = (c : Int)
      · have hc' : a.centroid.toNat = c := by omega
        rw [if_pos hc, if_pos hc', hc']
        simp
      · have hc' : ¬ a.centroid.toNat = c := by omega
        rw [if_neg hc, if_neg hc', zero_add]
    simp only [List.map_cons, List.sum_cons, hstep, Finset.sum_add_distrib,
      Finset.sum_ite_eq, hmem, if_true]
    rw [ih (fun b hb => hidx b (List.mem_cons_of_mem _ hb))]

/-- When the receive loop completes, every received index was in range. -/
theorem receiveAssignments_index [Add F] (arrivals : List (CentroidAssignment F)) :
    ∀ acc acc' : Accumulator F, receiveAssignments acc arrivals = some acc' →
      ∀ a ∈ arrivals, 0 ≤ a.centroid ∧ a.centroid < (acc.assignments.length : Int) := by
  induction arrivals with
  | nil => intro acc acc' _ a ha; simp at ha
  | cons b rest ih =>
    intro acc acc' h a ha
    simp only [receiveAssignments] at h
    cases hstep : receiveAssignment acc b with
    | none => simp [hstep] at h
    | some acc1 =>
      simp only [hstep] at h
      obtain ⟨hb0, count, row, row', hA, _, _, rfl⟩ := receiveAssignment_eq_some.mp hstep
      rcases List.mem_cons.mp ha with rfl | hmem
      · have hlt : a.centroid.toNat < acc.assignments.length := by
          rcases List.getElem?_eq_some_iff.mp hA with ⟨hl, _⟩; exact hl
        exact ⟨hb0, by omega⟩
      · have := ih _ acc' h a hmem
        simpa using this

end CostNearest

section CostStep

variable {F : Type}

/-- The cost of the new centroids of an aggregation whose assignments are argmin
assignments and leave no centroid empty is at most the cost of the old centroids. -/
theorem cost_step_aux [LinearOrderedField F] (K D : Nat)
    (centroids newCentroids : List (List F)) (arrivals : List (CentroidAssignment F))
    (hK : centroids.length = K) (hcdim : ∀ c ∈ centroids, c.length = D)
    (hdim : ∀ a ∈ arrivals, a.point.length = D)
    (hidx : ∀ a ∈ arrivals, 0 ≤ a.centroid ∧ a.centroid < K)
    (hargmin : ∀ a ∈ arrivals, IsArgmin a.point centroids a.centroid.toNat)
    (hassigned : ∀ c : Nat, c < K → 1 ≤ (assignedTo arrivals c).length)
    (hnew : newCentroidsOf K D arrivals = some newCentroids) :
    (arrivals.map (fun a => nearestSqDist a.point newCentroids)).sum ≤
      (arrivals.map (fun a => nearestSqDist a.point centroids)).sum := by
  obtain ⟨nc, hnc, hlen, hmean⟩ := newCentroidsOf_mean_aux K D arrivals hidx hdim
  rw [hnew, Option.some.injEq] at hnc
  subst hnc
  have hrow : ∀ c : Nat, c < K → newCentroids[c]? = some ((List.range D).map (fun d =>
      ((assignedTo arrivals c).map (fun p => p.getD d 0)).sum /
        (((assignedTo arrivals c).length : Nat) : F))) := by
    intro c hc
    rw [hmean c hc (hassigned c hc)]
    simp only [coordinateSum, foldl_add_eq_sum, zero_add]
  have hgetD : ∀ c : Nat, c < K → newCentroids.getD c [] = (List.range D).map (fun d =>
      ((assignedTo arrivals c).map (fun p => p.getD d 0)).sum /
        (((assignedTo arrivals c).length : Nat) : F)) := by
    intro c hc
    rw [List.getD_eq_getElem?_getD, hrow c hc]; rfl
  have hold : ∀ c : Nat, c < K → (centroids.getD c []).length = D := by
    intro c hc
    have hlt : c < centroids.length := by omega
    rw [List.getD_eq_getElem?_getD, List.getElem?_eq_getElem hlt]
    exact hcdim _ (List.getElem_mem hlt)
  calc (arrivals.map (fun a => nearestSqDist a.point newCentroids)).sum
      ≤ (arrivals.map (fun a => sqDist a.point (newCentroids.getD a.centroid.toNat []))).sum := by
        apply List.sum_le_sum
        intro a ha
        obtain ⟨h0, hlt⟩ := hidx a ha
        have hc : a.centroid.toNat < K := by omega
        apply nearestSqDist_le a.point newCentroids a.centroid.toNat
        rw [List.getD_eq_getElem?_getD, hrow _ hc]; rfl
    _ = ∑ c in Finset.range K,
          ((assignedTo arrivals c).map (fun p => sqDist p (newCentroids.getD c []))).sum :=
        sum_regroup K (fun p c => sqDist p (newCentroids.getD c [])) arrivals hidx
    _ ≤ ∑ c in Finset.range K,
          ((assignedTo arrivals c).map (fun p => sqDist p (centroids.getD c []))).sum := by
        apply Finset.sum_le_sum
        intro c hc
        have hcK : c < K := Finset.mem_range.mp hc
        rw [hgetD c hcK]
        apply sum_sqDist_mean_le D (assignedTo arrivals c) (centroids.getD c []) _
          (hold c hcK) (hassigned c hcK)
        intro p hp
        simp only [assignedTo, List.mem_map, List.mem_filter] at hp
        obtain ⟨a, ⟨ha, _⟩, rfl⟩ := hp
        exact hdim a ha
    _ = (arrivals.map (fun a => sqDist a.point (centroids.getD a.centroid.toNat []))).sum :=
        (sum_regroup K (fun p c => sqDist p (centroids.getD c [])) arrivals hidx).symm
    _ = (arrivals.map (fun a => nearestSqDist a.point centroids)).sum := by
        congr 1
        apply List.map_congr_left
        intro a ha
        exact (nearestSqDist_of_isArgmin a.point centroids _ (hargmin a ha)).symm

/-- Claim C20: over exact arithmetic (a linearly ordered field), for a point set and a
centroid set of dimension `D` in which every centroid is assigned at least one point,
one coordinator iteration (with any number of workers `W ≥ 1` and any arrival order)
that yields new centroids does not increase the clustering cost: the sum over the
points of the squared distance to the nearest new centroid is at most the sum over
the points of the squared distance to the nearest old centroid. -/
theorem iteration_cost_le [LinearOrderedField F]
    (maxFloat64 threshold : F) (numClusters numDimensions numWorkers : Nat)
    (points centroids newCentroids : List (List F)) (pick : Nat → Nat)
    (arrivals : List (CentroidAssignment F)) (converged : Bool)
    (hW : 1 ≤ numWorkers) (hK : centroids.length = numClusters)
    (hpdim : ∀ p ∈ points, p.length = numDimensions)
    (hcdim : ∀ c ∈ centroids, c.length = numDimensions)
    (harr : pointsWorker maxFloat64 centroids points = some arrivals)
    (hassigned : ∀ c : Nat, c < numClusters → 1 ≤ (assignedTo arrivals c).length)
    (hit : iteration maxFloat64 threshold numClusters numWorkers points pick centroids =
      some (newCentroids, converged)) :
    clusteringCost points newCentroids ≤ clusteringCost points centroids := by
  have hpts := pointsWorker_points maxFloat64 centroids points arrivals harr
  rw [iteration_eq_sequential maxFloat64 threshold numClusters numWorkers points pick
    centroids hW] at hit
  cases points with
  | nil => simp at hit
  | cons first rest =>
    simp only [harr] at hit
    have hD : first.length = numDimensions := hpdim first (List.mem_cons_self _ _)
    rw [hD] at hit
    have hnew := (coordinate_converged_eq threshold numClusters numDimensions centroids arrivals
      newCentroids converged hit).1
    have hdim : ∀ a ∈ arrivals, a.point.length = numDimensions := by
      intro a ha
      apply hpdim
      rw [← hpts]
      exact List.mem_map_of_mem _ ha
    have hidx : ∀ a ∈ arrivals, 0 ≤ a.centroid ∧ a.centroid < numClusters := by
      intro a ha
      unfold newCentroidsOf at hnew
      cases hacc : receiveAssignments
          { newCentroids := contiguous2DFloats numClusters numDimensions,
            assignments := List.replicate numClusters 0 } arrivals with
      | none => simp [hacc] at hnew
      | some acc =>
        have := receiveAssignments_index arrivals _ acc hacc a ha
        simpa using this
    have hargmin : ∀ a ∈ arrivals, IsArgmin a.point centroids a.centroid.toNat := by
      intro a ha
      obtain ⟨p, hp, hap⟩ := pointsWorker_mem maxFloat64 centroids (first :: rest) arrivals
        harr a ha
      have hpc : ∀ c ∈ centroids, p.length = c.length := by
        intro c hc; rw [hpdim p hp, hcdim c hc]
      obtain ⟨h1, h2⟩ := assignPoint_argmin maxFloat64 p centroids hpc
      by_cases hex : ∃ c ∈ centroids, sqDist p c < maxFloat64
      · obtain ⟨i, hi, hmin⟩ := h1 hex
        rw [hap, Option.some.injEq] at hi
        subst hi
        simpa using hmin
      · have hnone := h2 (fun c hc hlt => hex ⟨c, hc, hlt⟩)
        rw [hap, Option.some.injEq] at hnone
        have := (hidx a ha).1
        rw [hnone] at this
        simp at this
    have hcost := cost_step_aux numClusters numDimensions centroids newCentroids arrivals hK
      hcdim hdim hidx hargmin hassigned hnew
    unfold clusteringCost
    rw [← hpts, List.map_map, List.map_map]
    exact hcost

end CostStep

section CostWitness

/-- Witness for `iteration_cost_le`: the first iteration of the scenario over the
rationals, from the centroids `(0,0)`, `(10,0)` to `(0,1)`, `(10,1)`. -/
theorem iteration_cost_le_witness :
    pointsWorker maxFloat64Exact exactInitial fourPointsExact = some exactAssignments ∧
      (∀ c : Nat, c < 2 → 1 ≤ (assignedTo exactAssignments c).length) ∧
      iteration maxFloat64Exact (1 / 1000000) 2 1 fourPointsExact (fun _ => 0) exactInitial =
        some (exactFinal, false) ∧
      clusteringCost fourPointsExact exactFinal ≤ clusteringCost fourPointsExact exactInitial :=
  ⟨by decide!, by decide, by decide!,
    iteration_cost_le maxFloat64Exact (1 / 1000000) 2 2 1 fourPointsExact exactInitial
      exactFinal (fun _ => 0) exactAssignments false (by decide) (by decide) (by decide)
      (by decide) (by decide!) (by decide) (by decide!)⟩

end CostWitness

/-! ## Theorems: the arrival order and the number of workers -/

section ArrivalCoordinates

variable {F : Type}

/-- Adding a point to a row panics exactly when the point is longer than the row. -/
theorem addPoint_isSome [Add F] (row : List F) :
    ∀ point : List F, point.length ≤ row.length → ∃ row', addPoint row point = some row' := by
  induction row with
  | nil =>
    intro point h
    cases point with
    | nil => exact ⟨[], rfl⟩
    | cons x xs => simp at h
  | cons c row ih =>
    intro point h
    cases point with
    | nil => exact ⟨c :: row, rfl⟩
    | cons x xs =>
      obtain ⟨rest, hrest⟩ := ih xs (by simpa using h)
      exact ⟨(c + x) :: rest, by simp only [addPoint, hrest]⟩

/-- What a successful `addPoint` did: the row keeps its length, the point was not
longer than the row, and every coordinate of the row for which the point has a
coordinate was increased by it. -/
theorem addPoint_getElem? [Add F] (row : List F) :
    ∀ (point row' : List F), addPoint row point = some row' →
      row'.length = row.length ∧ point.length ≤ row.length ∧
      ∀ d : Nat, row'[d]? = (row[d]?).map (fun s => (point[d]?).elim s (fun x => s + x)) := by
  induction row with
  | nil =>
    intro point row' h
    cases point with
    | nil =>
      simp only [addPoint, Option.some.injEq] at h
      subst h
      exact ⟨rfl, Nat.le_refl _, fun d => by simp⟩
    | cons x xs => simp [addPoint] at h
  | cons c row ih =>
    intro point row' h
    cases point with
    | nil =>
      simp only [addPoint, Option.some.injEq] at h
      subst h
      refine ⟨rfl, Nat.zero_le _, fun d => ?_⟩
      cases (c :: row)[d]? <;> simp
    | cons x xs =>
      simp only [addPoint] at h
      cases hrest : addPoint row xs with
      | none => simp [hrest] at h
      | some rest =>
        simp only [hrest, Option.some.injEq] at h
        subst h
        obtain ⟨h1, h2, h3⟩ := ih xs rest hrest
        refine ⟨by simp [h1], by simpa using h2, fun d => ?_⟩
        cases d with
        | zero => simp
        | succ d => simpa using h3 d


/-- One received assignment with an index in `[0, K)` and a point of at most `D`
coordinates: the coordinator does not panic, and the count and the row of the assigned
centroid are updated. -/
theorem receiveAssignment_of_wellFormed [Add F] (K D : Nat) (acc : Accumulator F)
    (a : CentroidAssignment F)
    (hN : acc.newCentroids.length = K) (hA : acc.assignments.length = K)
    (hrows : ∀ row ∈ acc.newCentroids, row.length = D)
    (ha : 0 ≤ a.centroid ∧ a.centroid < K ∧ a.point.length ≤ D) :
    ∃ (n : Nat) (row row' : List F),
      acc.assignments[a.centroid.toNat]? = some n ∧
      acc.newCentroids[a.centroid.toNat]? = some row ∧
      addPoint row a.point = some row' ∧ row'.length = D ∧
      receiveAssignment acc a = some
        { newCentroids := acc.newCentroids.set a.centroid.toNat row',
          assignments := acc.assignments.set a.centroid.toNat (n + 1) } := by
  obtain ⟨ha0, haK, haD⟩ := ha
  have hca : a.centroid.toNat < K := by omega
  obtain ⟨n, hlookA⟩ : ∃ n, acc.assignments[a.centroid.toNat]? = some n :=
    ⟨_, List.getElem?_eq_getElem (by omega)⟩
  obtain ⟨row, hlookN⟩ : ∃ row, acc.newCentroids[a.centroid.toNat]? = some row :=
    ⟨_, List.getElem?_eq_getElem (by omega)⟩
  have hrowlen : row.length = D := hrows _ (List.getElem?_mem hlookN)
  obtain ⟨row', hadd⟩ := addPoint_isSome row a.point (by omega)
  have hlen' : row'.length = D := by rw [(addPoint_getElem? row a.point row' hadd).1, hrowlen]
  exact ⟨n, row, row', hlookA, hlookN, hadd, hlen',
    receiveAssignment_eq_some.mpr ⟨ha0, n, row, row', hlookA, hlookN, hadd, rfl⟩⟩

/-- The receive loop panics as soon as one assignment carries an index outside
`[0, K)` or a point of more than `D` coordinates, wherever it stands in the arrival
order. -/
theorem receiveAssignments_eq_none [Add F] (K D : Nat) (arrivals : List (CentroidAssignment F)) :
    ∀ acc : Accumulator F,
      acc.newCentroids.length = K → acc.assignments.length = K →
      (∀ row ∈ acc.newCentroids, row.length = D) →
      (∃ a ∈ arrivals, ¬ (0 ≤ a.centroid ∧ a.centroid < K ∧ a.point.length ≤ D)) →
      receiveAssignments acc arrivals = none := by
  induction arrivals with
  | nil => intro acc _ _ _ h; obtain ⟨a, ha, _⟩ := h; simp at ha
  | cons a rest ih =>
    intro acc hN hA hrows hbad
    by_cases hgood : 0 ≤ a.centroid ∧ a.centroid < K ∧ a.point.length ≤ D
    · obtain ⟨n, row, row', _, _, _, hlen', hstep⟩ :=
        receiveAssignment_of_wellFormed K D acc a hN hA hrows hgood
      simp only [receiveAssignments, hstep]
      apply ih
      · simp [hN]
      · simp [hA]
      · intro r hr
        rcases List.mem_or_eq_of_mem_set hr with h | h
        · exact hrows r h
        · rw [h]; exact hlen'
      · obtain ⟨b, hb, hbb⟩ := hbad
        rcases List.mem_cons.mp hb with rfl | hmem
        · exact absurd hgood hbb
        · exact ⟨b, hmem, hbb⟩
    · cases hstep : receiveAssignment acc a with
      | none => simp only [receiveAssignments, hstep]
      | some acc1 =>
        exfalso
        apply hgood
        obtain ⟨ha0, n, row, row', hlookA, hlookN, hadd, _⟩ := receiveAssignment_eq_some.mp hstep
        have h1 : a.centroid.toNat < acc.assignments.length :=
          (List.getElem?_eq_some_iff.mp hlookA).1
        have h2 : row.length = D := hrows _ (List.getElem?_mem hlookN)
        have h3 := (addPoint_getElem? row a.point row' hadd).2.1
        exact ⟨ha0, by omega, by omega⟩

/-- The receive loop on assignments with indices in `[0, K)` and points of at most `D`
coordinates: it does not panic; afterwards count `c` is the old count plus the number
of points assigned to `c`, and coordinate `d` of row `c` is the old coordinate plus,
in arrival order, the coordinates `d` of the points assigned to `c`. -/
theorem receiveAssignments_coordinates [Add F] (K D : Nat)
    (arrivals : List (CentroidAssignment F)) :
    ∀ acc : Accumulator F,
      acc.newCentroids.length = K → acc.assignments.length = K →
      (∀ row ∈ acc.newCentroids, row.length = D) →
      (∀ a ∈ arrivals, 0 ≤ a.centroid ∧ a.centroid < K ∧ a.point.length ≤ D) →
      ∃ acc', receiveAssignments acc arrivals = some acc' ∧
        acc'.newCentroids.length = K ∧ acc'.assignments.length = K ∧
        (∀ row ∈ acc'.newCentroids, row.length = D) ∧
        ∀ c : Nat, c < K →
          acc'.assignments[c]? = (acc.assignments[c]?).map
            (fun n => n + (assignedTo arrivals c).length) ∧
          ∀ d : Nat, (acc'.newCentroids[c]?).bind (fun row => row[d]?) =
            ((acc.newCentroids[c]?).bind (fun row => row[d]?)).map
              (fun s => ((assignedTo arrivals c).filterMap (fun p => p[d]?)).foldl (· + ·) s) := by
  induction arrivals with
  | nil =>
    intro acc hN hA hrows _
    refine ⟨acc, rfl, hN, hA, hrows, fun c _ => ⟨?_, fun d => ?_⟩⟩
    · cases acc.assignments[c]? <;> simp [assignedTo]
    · cases (acc.newCentroids[c]?).bind (fun row => row[d]?) <;> simp [assignedTo]
  | cons a rest ih =>
    intro acc hN hA hrows hgood
    have ha := hgood a (List.mem_cons_self _ _)
    obtain ⟨n, row, row', hlookA, hlookN, hadd, hlen', hstep⟩ :=
      receiveAssignment_of_wellFormed K D acc a hN hA hrows ha
    obtain ⟨ha0, haK, _⟩ := ha
    have hca : a.centroid.toNat < K := by omega
    have hcaI : ((a.centroid.toNat : Nat) : Int) = a.centroid := Int.toNat_of_nonneg ha0
    obtain ⟨acc', hrun, hN', hA', hrows', hget⟩ := ih
      { newCentroids := acc.newCentroids.set a.centroid.toNat row',
        assignments := acc.assignments.set a.centroid.toNat (n + 1) }
      (by simp [hN]) (by simp [hA])
      (by
        intro r hr
        rcases List.mem_or_eq_of_mem_set hr with h | h
        · exact hrows r h
        · rw [h]; exact hlen')
      (fun b hb => hgood b (List.mem_cons_of_mem _ hb))
    refine ⟨acc', by simp only [receiveAssignments, hstep, hrun], hN', hA', hrows', ?_⟩
    intro c hc
    obtain ⟨hg1, hg2⟩ := hget c hc
    rw [hg1, assignedTo_cons]
    by_cases hcc : a.centroid.toNat = c
    · have hac : a.centroid = (c : Int) := by rw [← hcc]; exact hcaI.symm
      rw [if_pos hac]
      have hN1 : (acc.newCentroids.set a.centroid.toNat row')[c]? = some row' := by
        rw [← hcc]; exact List.getElem?_set_self (by omega)
      have hA1 : (acc.assignments.set a.centroid.toNat (n + 1))[c]? = some (n + 1) := by
        rw [← hcc]; exact List.getElem?_set_self (by omega)
      have hN0 : acc.newCentroids[c]? = some row := by rw [← hcc]; exact hlookN
      have hA0 : acc.assignments[c]? = some n := by rw [← hcc]; exact hlookA
      constructor
      · simp only [hA1, hA0, Option.map_some', List.length_cons, Option.some.injEq]
        omega
      · intro d
        rw [hg2 d]
        simp only [hN1, hN0, Option.some_bind, (addPoint_getElem? row a.point row' hadd).2.2 d]
        cases row[d]? with
        | none => rfl
        | some s =>
          cases hp : a.point[d]? with
          | none => simp [List.filterMap_cons, hp]
          | some x => simp [List.filterMap_cons, hp]
    · have hac : ¬ a.centroid = (c : Int) := by
        intro h; apply hcc; rw [h]; simp
      rw [if_neg hac]
      constructor
      · simp only [List.getElem?_set_ne hcc]
      · intro d
        rw [hg2 d]
        simp only [List.getElem?_set_ne hcc]


/-- Whether the receive loop panics, and the counts it ends with, do not depend on the
arrival order, whatever the arithmetic: the counts are integers. -/
theorem receiveAssignments_counts_perm [Zero F] [Add F] (K D : Nat)
    {arrivals arrivals' : List (CentroidAssignment F)} (hperm : arrivals.Perm arrivals') :
    (receiveAssignments
        { newCentroids := contiguous2DFloats K D, assignments := List.replicate K 0 }
        arrivals).map (fun acc => acc.assignments) =
      (receiveAssignments
        { newCentroids := contiguous2DFloats K D, assignments := List.replicate K 0 }
        arrivals').map (fun acc => acc.assignments) := by
  have hN : (contiguous2DFloats K D : List (List F)).length = K := by simp [contiguous2DFloats]
  have hA : (List.replicate K 0 : List Nat).length = K := by simp
  have hrows : ∀ row ∈ (contiguous2DFloats K D : List (List F)), row.length = D := by
    intro row hrow
    simp only [contiguous2DFloats] at hrow
    rw [List.eq_of_mem_replicate hrow, List.length_replicate]
  by_cases hgood : ∀ a ∈ arrivals, 0 ≤ a.centroid ∧ a.centroid < K ∧ a.point.length ≤ D
  · have hgood' : ∀ a ∈ arrivals', 0 ≤ a.centroid ∧ a.centroid < K ∧ a.point.length ≤ D :=
      fun a ha => hgood a (hperm.mem_iff.mpr ha)
    obtain ⟨acc, hrun, _, hlenA, _, hget⟩ := receiveAssignments_coordinates K D arrivals
      { newCentroids := contiguous2DFloats K D, assignments := List.replicate K 0 }
      hN hA hrows hgood
    obtain ⟨acc', hrun', _, hlenA', _, hget'⟩ := receiveAssignments_coordinates K D arrivals'
      { newCentroids := contiguous2DFloats K D, assignments := List.replicate K 0 }
      hN hA hrows hgood'
    rw [hrun, hrun']
    simp only [Option.map_some', Option.some.injEq]
    apply List.ext_getElem?
    intro c
    by_cases hc : c < K
    · rw [(hget c hc).1, (hget' c hc).1]
      have hlen : (assignedTo arrivals c).length = (assignedTo arrivals' c).length :=
        ((hperm.filter _).map _).length_eq
      rw [hlen]
    · rw [List.getElem?_eq_none (by omega), List.getElem?_eq_none (by omega)]
  · have hbad : ∃ a ∈ arrivals, ¬ (0 ≤ a.centroid ∧ a.centroid < K ∧ a.point.length ≤ D) := by
      by_contra hcon
      apply hgood
      intro a ha
      by_contra hna
      exact hcon ⟨a, ha, hna⟩
    have hbad' : ∃ a ∈ arrivals', ¬ (0 ≤ a.centroid ∧ a.centroid < K ∧ a.point.length ≤ D) := by
      obtain ⟨a, ha, hna⟩ := hbad
      exact ⟨a, hperm.mem_iff.mp ha, hna⟩
    rw [receiveAssignments_eq_none K D arrivals _ hN hA hrows hbad,
      receiveAssignments_eq_none K D arrivals' _ hN hA hrows hbad']

/-- The sums the receive loop ends with do not depend on the arrival order either,
provided that adding up, from zero, the coordinates `d` of any sub-collection of the
arriving points gives the same value in every order. -/
theorem receiveAssignments_perm_of_sums [Zero F] [Add F] (K D : Nat)
    {arrivals arrivals' : List (CentroidAssignment F)} (hperm : arrivals.Perm arrivals')
    (hsum : ∀ (d : Nat) (l l' : List F),
      l.Sublist (arrivals.filterMap (fun a => a.point[d]?)) → l'.Perm l →
      l'.foldl (· + ·) 0 = l.foldl (· + ·) 0) :
    receiveAssignments
        { newCentroids := contiguous2DFloats K D, assignments := List.replicate K 0 }
        arrivals =
      receiveAssignments
        { newCentroids := contiguous2DFloats K D, assignments := List.replicate K 0 }
        arrivals' := by
  have hN : (contiguous2DFloats K D : List (List F)).length = K := by simp [contiguous2DFloats]
  have hA : (List.replicate K 0 : List Nat).length = K := by simp
  have hrows : ∀ row ∈ (contiguous2DFloats K D : List (List F)), row.length = D := by
    intro row hrow
    simp only [contiguous2DFloats] at hrow
    rw [List.eq_of_mem_replicate hrow, List.length_replicate]
  have hcounts := receiveAssignments_counts_perm K D hperm
  by_cases hgood : ∀ a ∈ arrivals, 0 ≤ a.centroid ∧ a.centroid < K ∧ a.point.length ≤ D
  · have hgood' : ∀ a ∈ arrivals', 0 ≤ a.centroid ∧ a.centroid < K ∧ a.point.length ≤ D :=
      fun a ha => hgood a (hperm.mem_iff.mpr ha)
    obtain ⟨acc, hrun, hlenN, _, hrowsAcc, hget⟩ := receiveAssignments_coordinates K D arrivals
      { newCentroids := contiguous2DFloats K D, assignments := List.replicate K 0 }
      hN hA hrows hgood
    obtain ⟨acc', hrun', hlenN', _, hrowsAcc', hget'⟩ :=
      receiveAssignments_coordinates K D arrivals'
        { newCentroids := contiguous2DFloats K D, assignments := List.replicate K 0 }
        hN hA hrows hgood'
    rw [hrun, hrun'] at hcounts
    simp only [Option.map_some', Option.some.injEq] at hcounts
    rw [hrun, hrun']
    have hsums : acc.newCentroids = acc'.newCentroids := by
      apply List.ext_getElem?
      intro c
      by_cases hc : c < K
      · obtain ⟨row, hrow⟩ : ∃ row, acc.newCentroids[c]? = some row :=
          ⟨_, List.getElem?_eq_getElem (by omega)⟩
        obtain ⟨row', hrow'⟩ : ∃ row', acc'.newCentroids[c]? = some row' :=
          ⟨_, List.getElem?_eq_getElem (by omega)⟩
        rw [hrow, hrow']
        congr 1
        apply List.ext_getElem?
        intro d
        have h1 := (hget c hc).2 d
        have h2 := (hget' c hc).2 d
        rw [hrow] at h1
        rw [hrow'] at h2
        simp only [Option.some_bind] at h1 h2
        rw [h1, h2]
        have hl : ((assignedTo arrivals c).filterMap (fun p => p[d]?)).Sublist
            (arrivals.filterMap (fun a => a.point[d]?)) := by
          unfold assignedTo
          rw [List.filterMap_map]
          exact (List.filter_sublist _).filterMap _
        have hp : ((assignedTo arrivals' c).filterMap (fun p => p[d]?)).Perm
            ((assignedTo arrivals c).filterMap (fun p => p[d]?)) :=
          (((hperm.filter _).map _).filterMap _).symm
        cases hinit : ((contiguous2DFloats K D : List (List F))[c]?).bind (fun row => row[d]?) with
        | none => rfl
        | some s =>
          have hs : s = 0 := by
            simp only [contiguous2DFloats, List.getElem?_replicate_of_lt hc,
              Option.some_bind] at hinit
            have := List.getElem?_mem hinit
            exact List.eq_of_mem_replicate this
          subst hs
          simp only [Option.map_some', Option.some.injEq]
          exact (hsum d _ _ hl hp).symm
      · rw [List.getElem?_eq_none (by omega), List.getElem?_eq_none (by omega)]
    cases acc
    cases acc'
    simp only at hsums hcounts
    rw [hsums, hcounts]
  · have hbad : ∃ a ∈ arrivals, ¬ (0 ≤ a.centroid ∧ a.centroid < K ∧ a.point.length ≤ D) := by
      by_contra hcon
      apply hgood
      intro a ha
      by_contra hna
      exact hcon ⟨a, ha, hna⟩
    have hbad' : ∃ a ∈ arrivals', ¬ (0 ≤ a.centroid ∧ a.centroid < K ∧ a.point.length ≤ D) := by
      obtain ⟨a, ha, hna⟩ := hbad
      exact ⟨a, hperm.mem_iff.mp ha, hna⟩
    rw [receiveAssignments_eq_none K D arrivals _ hN hA hrows hbad,
      receiveAssignments_eq_none K D arrivals' _ hN hA hrows hbad']


/-- A finite check of the order-independence of sums, for points of at most `D`
coordinates: it is enough to compare every sub-collection of the coordinates `d < D`
with each of its permutations. -/
theorem sums_order_independent_of_check [Zero F] [Add F] [DecidableEq F] (D : Nat)
    (points : List (List F)) (hdim : (points.all fun p => decide (p.length ≤ D)) = true)
    (hcheck : ((List.range D).all fun d =>
      (points.filterMap (fun p => p[d]?)).sublists.all fun l =>
        l.permutations'.all fun l' =>
          decide (l'.foldl (· + ·) (0 : F) = l.foldl (· + ·) (0 : F))) = true) :
    ∀ (d : Nat) (l l' : List F), l.Sublist (points.filterMap (fun p => p[d]?)) → l'.Perm l →
      l'.foldl (· + ·) 0 = l.foldl (· + ·) 0 := by
  intro d l l' hl hp
  by_cases hd : d < D
  · simp only [List.all_eq_true, decide_eq_true_eq, List.mem_range] at hcheck
    exact hcheck d hd l (List.mem_sublists.mpr hl) l' (List.mem_permutations'.mpr hp)
  · have hnil : points.filterMap (fun p => p[d]?) = [] := by
      rw [List.filterMap_eq_nil_iff]
      intro p hpm
      simp only [List.all_eq_true, decide_eq_true_eq] at hdim
      exact List.getElem?_eq_none (by have := hdim p hpm; omega)
    rw [hnil] at hl
    have hl0 : l = [] := List.sublist_nil.mp hl
    subst hl0
    rw [List.Perm.eq_nil hp]

/-- Over exact arithmetic (commutative and associative addition) sums do not depend on
the order of the summands. -/
theorem foldl_add_perm [AddCommMonoid F] (l l' : List F) (hp : l'.Perm l) :
    l'.foldl (· + ·) 0 = l.foldl (· + ·) 0 := by
  rw [foldl_add_eq_sum, foldl_add_eq_sum, hp.sum_eq]

end ArrivalCoordinates

section WorkerCountSums

variable {F : Type}

/-- When the sums of the points' coordinates do not depend on the order of the
summands, an iteration of the coordinator does what a single worker sending the
assignments in point order would make it do, whatever the number of workers and the
scheduling oracle. -/
theorem iteration_eq_sequential_of_sums [Zero F] [Add F] [Sub F] [Mul F] [Div F] [NatCast F]
    [LT F] [DecidableRel (α := F) (· < ·)]
    (maxFloat64 threshold : F) (numClusters numWorkers : Nat) (points : List (List F))
    (pick : Nat → Nat) (centroids : List (List F)) (hW : 1 ≤ numWorkers)
    (hsum : ∀ (d : Nat) (l l' : List F),
      l.Sublist (points.filterMap (fun p => p[d]?)) → l'.Perm l →
      l'.foldl (· + ·) 0 = l.foldl (· + ·) 0) :
    iteration maxFloat64 threshold numClusters numWorkers points pick centroids =
      match points with
      | [] => none
      | first :: _ =>
        match pointsWorker maxFloat64 centroids points with
        | none => none
        | some arrivals => coordinate threshold numClusters first.length centroids arrivals := by
  cases points with
  | nil => rfl
  | cons first rest =>
    obtain ⟨blocks, hblocks, hflat⟩ := workerBlocks_flatten (first :: rest) numWorkers hW
    have hq := workerQueues_flatten maxFloat64 centroids blocks
    rw [hflat] at hq
    simp only [iteration, hblocks]
    cases hw : workerQueues maxFloat64 centroids blocks with
    | none =>
      rw [hw] at hq
      simp only [Option.map_none'] at hq
      simp only [← hq]
    | some queues =>
      rw [hw] at hq
      simp only [Option.map_some'] at hq
      have hlen : queues.flatten.length = (first :: rest).length :=
        pointsWorker_length maxFloat64 centroids (first :: rest) _ hq.symm
      have hpts : queues.flatten.map (fun a => a.point) = first :: rest :=
        pointsWorker_points maxFloat64 centroids (first :: rest) _ hq.symm
      have hperm := receiveFrom_perm (first :: rest).length pick queues hlen
      have hsum' : ∀ (d : Nat) (l l' : List F),
          l.Sublist (queues.flatten.filterMap (fun a => a.point[d]?)) → l'.Perm l →
          l'.foldl (· + ·) 0 = l.foldl (· + ·) 0 := by
        intro d l l' hl hp
        have e : queues.flatten.filterMap (fun a => a.point[d]?) =
            (first :: rest).filterMap (fun p => p[d]?) := by
          rw [← hpts, List.filterMap_map]
          rfl
        rw [e] at hl
        exact hsum d l l' hl hp
      have hnew : coordinate threshold numClusters first.length centroids
          (receiveFrom (first :: rest).length pick queues) =
          coordinate threshold numClusters first.length centroids queues.flatten := by
        simp only [coordinate, newCentroidsOf,
          receiveAssignments_perm_of_sums numClusters first.length hperm.symm hsum']
      simp only [← hq, hnew]

/-- When the sums of the points' coordinates do not depend on the order of the
summands, the coordinator loop does not depend on the number of workers or on the
scheduling oracle. -/
theorem mainLoop_worker_count_of_sums [Zero F] [Add F] [Sub F] [Mul F] [Div F] [NatCast F]
    [LT F] [DecidableRel (α := F) (· < ·)]
    (maxFloat64 threshold : F) (numClusters : Nat) (points : List (List F))
    (W1 W2 : Nat) (sched1 sched2 : Nat → Nat → Nat) (h1 : 1 ≤ W1) (h2 : 1 ≤ W2)
    (hsum : ∀ (d : Nat) (l l' : List F),
      l.Sublist (points.filterMap (fun p => p[d]?)) → l'.Perm l →
      l'.foldl (· + ·) 0 = l.foldl (· + ·) 0) (fuel : Nat) :
    ∀ (iterations : Nat) (centroids : List (List F)),
      mainLoop maxFloat64 threshold numClusters W1 points sched1 fuel iterations centroids =
        mainLoop maxFloat64 threshold numClusters W2 points sched2 fuel iterations centroids := by
  induction fuel with
  | zero => intro iterations centroids; rfl
  | succ fuel ih =>
    intro iterations centroids
    have e := (iteration_eq_sequential_of_sums maxFloat64 threshold numClusters W1 points
      (sched1 (iterations + 1)) centroids h1 hsum).trans
      (iteration_eq_sequential_of_sums maxFloat64 threshold numClusters W2 points
        (sched2 (iterations + 1)) centroids h2 hsum).symm
    simp only [mainLoop, e]
    cases iteration maxFloat64 threshold numClusters W2 points (sched2 (iterations + 1))
        centroids with
    | none => rfl
    | some res =>
      obtain ⟨newCentroids, converged⟩ := res
      cases converged with
      | true => rfl
      | false => simp only [Bool.false_eq_true, if_false]; exact ih _ _

/-- The clustering run does not depend on the number of workers or on the arrival
order, when the sums of the points' coordinates do not depend on the order of the
summands. -/
theorem cluster_worker_count_of_sums [Zero F] [Add F] [Sub F] [Mul F] [Div F] [NatCast F]
    [LT F] [DecidableRel (α := F) (· < ·)]
    (maxFloat64 threshold : F) (numClusters randSeed : Nat) (points : List (List F))
    (W1 W2 : Nat) (sched1 sched2 : Nat → Nat → Nat) (fuel : Nat)
    (h1 : 1 ≤ W1) (h2 : 1 ≤ W2)
    (hsum : ∀ (d : Nat) (l l' : List F),
      l.Sublist (points.filterMap (fun p => p[d]?)) → l'.Perm l →
      l'.foldl (· + ·) 0 = l.foldl (· + ·) 0) :
    cluster maxFloat64 threshold numClusters W1 randSeed points sched1 fuel =
      cluster maxFloat64 threshold numClusters W2 randSeed points sched2 fuel := by
  unfold cluster
  cases firstCentroids numClusters points randSeed with
  | none => rfl
  | some centroids =>
    exact mainLoop_worker_count_of_sums maxFloat64 threshold numClusters points W1 W2 sched1
      sched2 h1 h2 hsum fuel 0 centroids

/-- On `float64`, adding up the coordinates of any of the four points of the scenario
gives the same value in every order (all the sums are exact). -/
theorem fourPoints_sums (d : Nat) (l l' : List F64)
    (hl : l.Sublist (fourPoints.filterMap (fun p => p[d]?))) (hp : l'.Perm l) :
    l'.foldl (· + ·) 0 = l.foldl (· + ·) 0 :=
  sums_order_independent_of_check 2 fourPoints (by decide) (by decide!) d l l' hl hp

/-- The scenario with one point per worker: on `float64`, for the four points of the
scenario, seed `7` (initial centroids `points[0]` and `points[2]`) and threshold
`1e-6`, the run with four workers has the outcome of the run with one worker, whatever
the arrival orders. -/
theorem scenario_single_point_per_worker (sched sched' : Nat → Nat → Nat) (fuel : Nat) :
    cluster F64.maxFloat64 scenarioThreshold 2 4 7 fourPoints sched fuel =
      cluster F64.maxFloat64 scenarioThreshold 2 1 7 fourPoints sched' fuel :=
  cluster_worker_count_of_sums F64.maxFloat64 scenarioThreshold 2 7 fourPoints 4 1 sched sched'
    fuel (by decide) (by decide) fourPoints_sums

end WorkerCountSums

section ArrivalOrderInvariance

variable {F : Type}

/-- Claim C10 (as amended): within one iteration, for every permutation of the order
in which the assignments arrive, and for every arithmetic (`float64` included),
whether the aggregation completes and the per-centroid assignment counts are the
same; and whenever adding up, from zero, the coordinates of any sub-collection of the
arriving points gives the same value in every order (as over exact arithmetic, and on
`float64` when no partial sum is rounded), the per-centroid sum vectors, and hence the
new centroid set, are the same as well. -/
theorem aggregation_perm_invariant [Zero F] [Add F] [Div F] [NatCast F]
    (numClusters numDimensions : Nat) (arrivals arrivals' : List (CentroidAssignment F))
    (hperm : arrivals.Perm arrivals') :
    (receiveAssignments
        { newCentroids := contiguous2DFloats numClusters numDimensions,
          assignments := List.replicate numClusters 0 } arrivals).map
        (fun acc => acc.assignments) =
      (receiveAssignments
        { newCentroids := contiguous2DFloats numClusters numDimensions,
          assignments := List.replicate numClusters 0 } arrivals').map
        (fun acc => acc.assignments) ∧
    ((∀ (d : Nat) (l l' : List F),
        l.Sublist (arrivals.filterMap (fun a => a.point[d]?)) → l'.Perm l →
        l'.foldl (· + ·) 0 = l.foldl (· + ·) 0) →
      receiveAssignments
          { newCentroids := contiguous2DFloats numClusters numDimensions,
            assignments := List.replicate numClusters 0 } arrivals =
        receiveAssignments
          { newCentroids := contiguous2DFloats numClusters numDimensions,
            assignments := List.replicate numClusters 0 } arrivals' ∧
      newCentroidsOf numClusters numDimensions arrivals =
        newCentroidsOf numClusters numDimensions arrivals') := by
  refine ⟨receiveAssignments_counts_perm numClusters numDimensions hperm, fun hsum => ?_⟩
  have h := receiveAssignments_perm_of_sums numClusters numDimensions hperm hsum
  exact ⟨h, by simp only [newCentroidsOf, h]⟩

/-- Witness for `aggregation_perm_invariant`: on `float64`, the assignments of the four
points of the scenario and their reversal give the same sums, counts and new centroids
`(0,1)`, `(10,1)`; and the assignments of the points `2^53`, `1`, `1`, whose sums
depend on the arrival order, give the same counts in both orders. -/
theorem aggregation_perm_invariant_witness :
    scenarioArrivals.Perm scenarioArrivals.reverse ∧
    (∀ (d : Nat) (l l' : List F64),
        l.Sublist (scenarioArrivals.filterMap (fun a => a.point[d]?)) → l'.Perm l →
        l'.foldl (· + ·) 0 = l.foldl (· + ·) 0) ∧
    (receiveAssignments
          { newCentroids := contiguous2DFloats 2 2, assignments := List.replicate 2 0 }
          scenarioArrivals =
        receiveAssignments
          { newCentroids := contiguous2DFloats 2 2, assignments := List.replicate 2 0 }
          scenarioArrivals.reverse ∧
      newCentroidsOf 2 2 scenarioArrivals = newCentroidsOf 2 2 scenarioArrivals.reverse) ∧
    newCentroidsOf 2 2 scenarioArrivals = some scenarioFinal ∧
    roundingArrivals.Perm roundingArrivalsPermuted ∧
    (receiveAssignments
        { newCentroids := contiguous2DFloats 1 1, assignments := List.replicate 1 0 }
        roundingArrivals).map (fun acc => acc.assignments) =
      (receiveAssignments
        { newCentroids := contiguous2DFloats 1 1, assignments := List.replicate 1 0 }
        roundingArrivalsPermuted).map (fun acc => acc.assignments) :=
  ⟨(List.reverse_perm scenarioArrivals).symm, fourPoints_sums,
    (aggregation_perm_invariant 2 2 scenarioArrivals scenarioArrivals.reverse
      (List.reverse_perm scenarioArrivals).symm).2 fourPoints_sums,
    by decide!,
    (List.Perm.swap _ _ _).trans (List.Perm.cons _ (List.Perm.swap _ _ _)),
    (aggregation_perm_invariant 1 1 roundingArrivals roundingArrivalsPermuted
      ((List.Perm.swap _ _ _).trans (List.Perm.cons _ (List.Perm.swap _ _ _)))).1⟩

end ArrivalOrderInvariance

section WorkerCountInvariance

variable {F : Type}

/-- Claim C9 (as amended): for every point set, seed, `K` and threshold, and for every
arithmetic (`float64` included) in which adding up, from zero, the coordinates of any
sub-collection of the points gives the same value in every order (as over exact
arithmetic, and on `float64` when no partial sum is rounded), the outcome of the
clustering run, i.e. the final centroid set and the iteration count, is the same for
all worker counts `W ≥ 1` (in particular `1 ≤ W ≤ N`) and all arrival orders of the
assignments. -/
theorem cluster_worker_count_invariant [Zero F] [Add F] [Sub F] [Mul F] [Div F] [NatCast F]
    [LT F] [DecidableRel (α := F) (· < ·)]
    (maxFloat64 threshold : F) (numClusters randSeed : Nat) (points : List (List F))
    (W1 W2 : Nat) (sched1 sched2 : Nat → Nat → Nat) (fuel : Nat)
    (h1 : 1 ≤ W1) (h2 : 1 ≤ W2)
    (hsum : ∀ (d : Nat) (l l' : List F),
      l.Sublist (points.filterMap (fun p => p[d]?)) → l'.Perm l →
      l'.foldl (· + ·) 0 = l.foldl (· + ·) 0) :
    cluster maxFloat64 threshold numClusters W1 randSeed points sched1 fuel =
      cluster maxFloat64 threshold numClusters W2 randSeed points sched2 fuel :=
  cluster_worker_count_of_sums maxFloat64 threshold numClusters randSeed points W1 W2 sched1
    sched2 fuel h1 h2 hsum

/-- Witness for `cluster_worker_count_invariant`: on `float64`, the four points of the
scenario with seed `7` (initial centroids `points[0]` and `points[2]`) and threshold
`1e-6`; the run with one worker and the run with four workers, whose assignments
arrive in reverse order, both end after 2 iterations with the centroids `(0,1)` and
`(10,1)`. -/
theorem cluster_worker_count_invariant_witness :
    1 ≤ 1 ∧ 1 ≤ 4 ∧
    (∀ (d : Nat) (l l' : List F64),
      l.Sublist (fourPoints.filterMap (fun p => p[d]?)) → l'.Perm l →
      l'.foldl (· + ·) 0 = l.foldl (· + ·) 0) ∧
    cluster F64.maxFloat64 scenarioThreshold 2 1 7 fourPoints (fun _ _ => 0) 5 =
      cluster F64.maxFloat64 scenarioThreshold 2 4 7 fourPoints (fun _ k => 3 - k) 5 ∧
    cluster F64.maxFloat64 scenarioThreshold 2 1 7 fourPoints (fun _ _ => 0) 5 =
      Outcome.converged scenarioFinal 2 :=
  ⟨by decide, by decide, fourPoints_sums,
    cluster_worker_count_invariant F64.maxFloat64 scenarioThreshold 2 7 fourPoints 1 4
      (fun _ _ => 0) (fun _ k => 3 - k) 5 (by decide) (by decide) fourPoints_sums,
    by decide!⟩

/-- Over exact arithmetic (commutative and associative addition) the outcome of the
clustering run is the same for all worker counts `W ≥ 1` and all arrival orders. -/
theorem cluster_worker_count_exact [AddCommMonoid F] [Sub F] [Mul F] [Div F] [NatCast F]
    [LT F] [DecidableRel (α := F) (· < ·)]
    (maxFloat64 threshold : F) (numClusters randSeed : Nat) (points : List (List F))
    (W1 W2 : Nat) (sched1 sched2 : Nat → Nat → Nat) (fuel : Nat)
    (h1 : 1 ≤ W1) (h2 : 1 ≤ W2) :
    cluster maxFloat64 threshold numClusters W1 randSeed points sched1 fuel =
      cluster maxFloat64 threshold numClusters W2 randSeed points sched2 fuel :=
  cluster_worker_count_of_sums maxFloat64 threshold numClusters randSeed points W1 W2 sched1
    sched2 fuel h1 h2 (fun _ l l' _ hp => foldl_add_perm l l' hp)

end WorkerCountInvariance

/-! ## Theorems: the assignment counts of a completed iteration -/

section AssignmentCounts

variable {F : Type}

/-- The loop over the centroids does not panic when no centroid has fewer coordinates
than the point. -/
theorem nearestCentroidLoop_isSome [Zero F] [Add F] [Sub F] [Mul F] [LT F]
    [DecidableRel (α := F) (· < ·)] (point : List F) (centroids : List (List F))
    (hdim : ∀ c ∈ centroids, point.length ≤ c.length) :
    ∀ (k : Nat) (m : F) (best : Int),
      ∃ r, nearestCentroidLoop point k m best centroids = some r := by
  induction centroids with
  | nil => intro k m best; exact ⟨best, rfl⟩
  | cons cent rest ih =>
    intro k m best
    have hd := squareOfEuclideanDistanceLoop_eq point cent 0 (hdim cent (List.mem_cons_self _ _))
    have ih' := ih (fun c hc => hdim c (List.mem_cons_of_mem _ hc))
    simp only [nearestCentroidLoop, squareOfEuclideanDistance, hd]
    split_ifs
    · exact ih' _ _ _
    · exact ih' _ _ _

/-- A worker does not panic when no centroid has fewer coordinates than any of its
points. -/
theorem pointsWorker_isSome [Zero F] [Add F] [Sub F] [Mul F] [LT F]
    [DecidableRel (α := F) (· < ·)] (maxFloat64 : F) (centroids : List (List F))
    (points : List (List F)) (hdim : ∀ p ∈ points, ∀ c ∈ centroids, p.length ≤ c.length) :
    ∃ queue, pointsWorker maxFloat64 centroids points = some queue := by
  induction points with
  | nil => exact ⟨[], rfl⟩
  | cons x xs ih =>
    obtain ⟨r, hr⟩ := nearestCentroidLoop_isSome x centroids
      (hdim x (List.mem_cons_self _ _)) 0 maxFloat64 (-1)
    obtain ⟨rest, hrest⟩ := ih (fun p hp => hdim p (List.mem_cons_of_mem _ hp))
    exact ⟨{ point := x, centroid := r } :: rest, by simp only [pointsWorker, assignPoint, hr, hrest]⟩

/-- One iteration with `W ≥ 1` workers on points and centroids of dimension `D`, in
which every index that a worker sends is in `[0, K)`: the workers send one assignment
per point, the coordinator receives `N` assignments, whose points are the point set up
to the arrival order, the aggregation completes, and the per-centroid assignment
counts sum to `N`. -/
theorem assignment_counts_sum [Zero F] [Add F] [Sub F] [Mul F] [LT F]
    [DecidableRel (α := F) (· < ·)]
    (maxFloat64 : F) (numClusters numDimensions numWorkers : Nat) (points : List (List F))
    (pick : Nat → Nat) (centroids : List (List F)) (hW : 1 ≤ numWorkers)
    (hpoints : ∀ p ∈ points, p.length = numDimensions)
    (hcentroids : ∀ c ∈ centroids, c.length = numDimensions)
    (hidx : ∀ p ∈ points, ∀ a, assignPoint maxFloat64 centroids p = some a →
      0 ≤ a.centroid ∧ a.centroid < numClusters) :
    ∃ blocks queues acc, workerBlocks points numWorkers = some blocks ∧
      workerQueues maxFloat64 centroids blocks = some queues ∧
      ((receiveFrom points.length pick queues).map (fun a => a.point)).Perm points ∧
      (receiveFrom points.length pick queues).length = points.length ∧
      receiveAssignments
          { newCentroids := contiguous2DFloats numClusters numDimensions,
            assignments := List.replicate numClusters 0 }
          (receiveFrom points.length pick queues) = some acc ∧
      acc.assignments.sum = points.length := by
  obtain ⟨blocks, hblocks, hflat⟩ := workerBlocks_flatten points numWorkers hW
  obtain ⟨queue, hqueue⟩ := pointsWorker_isSome maxFloat64 centroids points
    (fun p hp c hc => by rw [hpoints p hp, hcentroids c hc])
  have hfl := workerQueues_flatten maxFloat64 centroids blocks
  rw [hflat, hqueue] at hfl
  cases hq : workerQueues maxFloat64 centroids blocks with
  | none => rw [hq] at hfl; simp at hfl
  | some queues =>
    rw [hq] at hfl
    simp only [Option.map_some', Option.some.injEq] at hfl
    have hlen : queues.flatten.length = points.length := by
      rw [hfl]; exact pointsWorker_length maxFloat64 centroids points _ hqueue
    have hperm := receiveFrom_perm points.length pick queues hlen
    have hpts := pointsWorker_points maxFloat64 centroids points _ hqueue
    have hmem : ∀ a ∈ receiveFrom points.length pick queues,
        ∃ p ∈ points, assignPoint maxFloat64 centroids p = some a := by
      intro a ha
      have ha' : a ∈ queue := by rw [← hfl]; exact hperm.subset ha
      exact pointsWorker_mem maxFloat64 centroids points queue hqueue a ha'
    obtain ⟨acc, hacc, _⟩ := receiveAssignments_rows numClusters numDimensions
      (receiveFrom points.length pick queues)
      { newCentroids := contiguous2DFloats numClusters numDimensions,
        assignments := List.replicate numClusters 0 }
      (by simp [contiguous2DFloats]) (by simp)
      (by
        intro row hrow
        simp only [contiguous2DFloats] at hrow
        rw [List.eq_of_mem_replicate hrow, List.length_replicate])
      (by
        intro a ha
        obtain ⟨p, hp, hap⟩ := hmem a ha
        exact hidx p hp a hap)
      (by
        intro a ha
        obtain ⟨p, hp, hap⟩ := hmem a ha
        have : a.point = p := by
          unfold assignPoint at hap
          cases hn : nearestCentroidLoop p 0 maxFloat64 (-1) centroids with
          | none => simp [hn] at hap
          | some r =>
            simp only [hn, Option.some.injEq] at hap
            rw [← hap]
        rw [this]; exact hpoints p hp)
    refine ⟨blocks, queues, acc, hblocks, hq, ?_, by rw [hperm.length_eq, hlen], hacc, ?_⟩
    · have h := hperm.map (fun a => a.point)
      rw [hfl, hpts] at h
      exact h
    · rw [receiveAssignments_sum _ _ acc hacc, hperm.length_eq, hlen]
      simp

end AssignmentCounts

end Kmeans
